import Mathlib

/-!
# libuino: serial transport between a host and a microcontroller

A shallow embedding of the host library (libuino.c / libuino.h), its text
extraction functions included, and, in the namespace `Arduino`, of the
device library (arduino_libuino.cpp).  The C functions mutate a
connection struct through a pointer and talk to the operating system; here
every function takes the struct (an `Option`, `none` being the NULL pointer)
and the state of the operating system, together with the answers the
operating system gives to the calls the function makes, and returns its C
result, the updated struct and the updated operating system state.

Machine integers are `Nat` / `Int`; truncation to 16 or 32 bits is written
out.  An access outside an array is a fault: the function returns `none`.
-/

namespace Libuino

/-! ## Data model -/

/-- The struct `ino_connection_t` of libuino.h. -/
structure ino_connection_t where
  port : String
  baud : Int
  connect_wait : Int
  raw : Int
  raw_size : Int
  raw_timeout : Int
  fd : Int
deriving DecidableEq, Repr

/-- The part of `struct termios` that `ino_open` programs. -/
structure termios where
  c_iflag : Nat
  c_oflag : Nat
  c_cflag : Nat
  c_lflag : Nat
  c_cc_VMIN : Nat
  c_cc_VTIME : Nat
  c_ispeed : Nat
  c_ospeed : Nat
deriving DecidableEq, Repr

/-- One request to the operating system, with the arguments it receives. -/
inductive SysCall where
  | open (port : String)
  | close (fd : Int)
  | usleep (usec : Int)
  | tcgetattr (fd : Int)
  | tcsetattr (fd : Int) (t : termios)
  | read (fd : Int) (count : Int)
  | write (fd : Int) (buf : List Nat) (count : Int)
deriving DecidableEq, Repr

/-- State of the operating system as far as the library can observe it:
`live` holds the descriptors handed out by `open` and not yet released by
`close`, `wire` the bytes the device has accepted from `write`, `trace` the
calls made so far, oldest first. -/
structure OS where
  live : List Int
  wire : List Nat
  trace : List SysCall
deriving DecidableEq, Repr

/-- What `read(2)` answers: its return value and the bytes it stored at the
start of the caller's buffer. -/
structure ReadReply where
  n : Int
  data : List Nat
deriving DecidableEq, Repr

/-! ## Operating system calls -/

/-- The call `open(port, O_RDWR | O_NOCTTY)`: it answers `ret`; a
non-negative answer is a descriptor that is live from now on. -/
def os_open (w : OS) (port : String) (ret : Int) : OS × Int :=
  ({ w with
      live := if ret ≥ 0 then ret :: w.live else w.live,
      trace := w.trace ++ [SysCall.open port] }, ret)

/-- The call `close(fd)`: a live descriptor is released and the answer is 0;
any other value (in particular a negative one) is rejected with -1. -/
def os_close (w : OS) (fd : Int) : OS × Int :=
  if fd ∈ w.live then
    ({ w with live := w.live.erase fd, trace := w.trace ++ [SysCall.close fd] }, 0)
  else
    ({ w with trace := w.trace ++ [SysCall.close fd] }, -1)

/-- The call `usleep(usec)`: the parameter is a `useconds_t`, a 32-bit
unsigned integer, so the `int` that is passed arrives reduced modulo `2^32`. -/
def os_usleep (w : OS) (usec : Int) : OS :=
  { w with trace := w.trace ++ [SysCall.usleep (usec % 4294967296)] }

/-- The call `tcgetattr(fd, &t)`: it fills `t` with the current settings `cur`. -/
def os_tcgetattr (w : OS) (fd : Int) (cur : termios) : OS × termios :=
  ({ w with trace := w.trace ++ [SysCall.tcgetattr fd] }, cur)

/-- The call `tcsetattr(fd, TCSANOW, &t)`: it answers `ret`. -/
def os_tcsetattr (w : OS) (fd : Int) (t : termios) (ret : Int) : OS × Int :=
  ({ w with trace := w.trace ++ [SysCall.tcsetattr fd t] }, ret)

/-- Buffer contents after `data` has been stored at its start. -/
def store_bytes (buf data : List Nat) : List Nat :=
  data.take buf.length ++ buf.drop data.length

/-- The call `read(fd, buf, count)`: it answers `r.n` after storing `r.data`
at the start of `buf`. -/
def os_read (w : OS) (fd : Int) (buf : List Nat) (count : Int) (r : ReadReply) :
    OS × Int × List Nat :=
  ({ w with trace := w.trace ++ [SysCall.read fd count] }, r.n, store_bytes buf r.data)

/-- The call `write(fd, buf, count)`: it answers `ret`, the device having
accepted the first `ret` bytes of `buf`. -/
def os_write (w : OS) (fd : Int) (buf : List Nat) (count : Int) (ret : Int) : OS × Int :=
  ({ w with
      wire := w.wire ++ buf.take ret.toNat,
      trace := w.trace ++ [SysCall.write fd buf count] }, ret)

/-! ## Signed / unsigned views (the unions `ino_int16`, `ino_int32`) -/

/-- Reading `.sig` of an `ino_int16` whose `.unsig` holds `u`. -/
def ino_int16_sig (u : Nat) : Int :=
  if u < 32768 then (u : Int) else (u : Int) - 65536

/-- Reading `.unsig` of an `ino_int16` whose `.sig` holds `v`. -/
def ino_int16_unsig (v : Int) : Nat :=
  (v % 65536).toNat

/-- Reading `.sig` of an `ino_int32` whose `.unsig` holds `u`. -/
def ino_int32_sig (u : Nat) : Int :=
  if u < 2147483648 then (u : Int) else (u : Int) - 4294967296

/-- Reading `.unsig` of an `ino_int32` whose `.sig` holds `v`. -/
def ino_int32_unsig (v : Int) : Nat :=
  (v % 4294967296).toNat

/-! ## Session lifecycle -/

/-- The function `ino_connection_new`. -/
def ino_connection_new (port : String) (baud : Int) (connect_wait : Int) :
    Option ino_connection_t :=
  some { port := port, baud := baud, connect_wait := connect_wait,
         raw := 0, raw_size := 0, raw_timeout := 0, fd := -1 }

/-- The function `ino_connection_raw`. -/
def ino_connection_raw (port : String) (baud : Int) (connect_wait : Int)
    (frame_size_bytes : Int) (read_timeout : Int) : Option ino_connection_t :=
  some { port := port, baud := baud, connect_wait := connect_wait,
         raw := 1, raw_size := frame_size_bytes, raw_timeout := read_timeout, fd := -1 }

/-- Body of `ino_close` for a non-NULL pointer: when `fd > -1` the field is
set to -1 first and `close` is then called on the field. -/
def ino_close_struct (c : ino_connection_t) (w : OS) : Int × ino_connection_t × OS :=
  if c.fd > -1 then
    let c1 := { c with fd := -1 }
    let r := os_close w c1.fd
    (r.2, c1, r.1)
  else
    (0, c, w)

/-- The function `ino_close`. -/
def ino_close (cnx : Option ino_connection_t) (w : OS) :
    Int × Option ino_connection_t × OS :=
  match cnx with
  | none => (0, none, w)
  | some c =>
    let r := ino_close_struct c w
    (r.1, some r.2.1, r.2.2)

/-- The function `ino_is_open`. -/
def ino_is_open (cnx : Option ino_connection_t) : Int :=
  match cnx with
  | none => 0
  | some c => if c.fd > -1 then 1 else 0

/-! ## Device settings constants (termios.h, Linux values) -/

/-- Control flag `CS8`. -/
def CS8 : Nat := 0o60
/-- Control flag `HUPCL`. -/
def HUPCL : Nat := 0o2000
/-- Control flag `CREAD`. -/
def CREAD : Nat := 0o200
/-- Control flag `CLOCAL`. -/
def CLOCAL : Nat := 0o4000
/-- Local flag `ICANON`. -/
def ICANON : Nat := 0o2
/-- Local flag `ECHOE`. -/
def ECHOE : Nat := 0o20
/-- Local flag `ECHOK`. -/
def ECHOK : Nat := 0o40
/-- Local flag `ECHOCTL`. -/
def ECHOCTL : Nat := 0o1000
/-- Local flag `ECHOKE`. -/
def ECHOKE : Nat := 0o4000

/-- Speed mask `CBAUD` of the control word. -/
def CBAUD : Nat := 0o10017
/-- Extended speed bit `CBAUDEX` of the control word, part of `CBAUD`. -/
def CBAUDEX : Nat := 0o10000
/-- Speed token `B57600`, the first of the extended tokens. -/
def B57600 : Nat := 0o10001
/-- The largest speed token of the C library (`__MAX_BAUD`, which is
`B4000000`). -/
def MAX_BAUD : Nat := 0o10017
/-- Bit of the input flag word in which the C library records that the
input speed was set to `B0` (`IBAUD0` of its `speed.c`). -/
def IBAUD0 : Nat := 0o20000000000

/-- The complement `~x` of a 32-bit flag word (`tcflag_t`, `speed_t`). -/
def flag_not (x : Nat) : Nat :=
  0o37777777777 ^^^ x

/-- The conversion of an `int` to `speed_t`, a 32-bit unsigned integer. -/
def speed_of_int (v : Int) : Nat :=
  (v % 4294967296).toNat

/-- The test with which `cfsetispeed` and `cfsetospeed` of the GNU C library
on Linux refuse a speed:
`(speed & ~CBAUD) != 0 && (speed < B57600 || speed > __MAX_BAUD)`. -/
def speed_refused (speed : Nat) : Bool :=
  (speed &&& flag_not CBAUD != 0) && (decide (speed < B57600) || decide (speed > MAX_BAUD))

/-- The function `cfsetispeed` of the GNU C library on Linux: a refused speed
gives -1 and changes nothing; otherwise the speed is stored in `c_ispeed`,
and either `B0` is recorded in the input flag word or the speed replaces the
speed bits of the control word. -/
def cfsetispeed (t : termios) (speed : Nat) : Int × termios :=
  if speed_refused speed then (-1, t)
  else
    let t := { t with c_ispeed := speed }
    if speed = 0 then
      (0, { t with c_iflag := t.c_iflag ||| IBAUD0 })
    else
      let t := { t with c_iflag := t.c_iflag &&& flag_not IBAUD0 }
      let t := { t with c_cflag := t.c_cflag &&& flag_not (CBAUD ||| CBAUDEX) }
      (0, { t with c_cflag := t.c_cflag ||| speed })

/-- The function `cfsetospeed` of the GNU C library on Linux: a refused speed
gives -1 and changes nothing; otherwise the speed is stored in `c_ospeed`
and replaces the speed bits of the control word. -/
def cfsetospeed (t : termios) (speed : Nat) : Int × termios :=
  if speed_refused speed then (-1, t)
  else
    let t := { t with c_ospeed := speed }
    let t := { t with c_cflag := t.c_cflag &&& flag_not (CBAUD ||| CBAUDEX) }
    (0, { t with c_cflag := t.c_cflag ||| speed })

/-- The settings `ino_open` builds from the current settings `cur` of the
port: the four flag words are cleared, `cfsetispeed` and `cfsetospeed` are
called with `baud` (their results are not looked at), the control flags are
or-ed in, and then either the two raw-mode control characters (each a
`cc_t`, an unsigned char) are set or the canonical local flags or-ed in. -/
def ino_open_settings (c : ino_connection_t) (cur : termios) : termios :=
  let t := { cur with c_cflag := 0, c_iflag := 0, c_oflag := 0, c_lflag := 0 }
  let t := (cfsetispeed t (speed_of_int c.baud)).2
  let t := (cfsetospeed t (speed_of_int c.baud)).2
  let t := { t with c_cflag := t.c_cflag ||| (CS8 ||| HUPCL ||| CREAD ||| CLOCAL) }
  if c.raw ≠ 0 then
    { t with c_cc_VMIN := (c.raw_size % 256).toNat, c_cc_VTIME := (c.raw_timeout % 256).toNat }
  else
    { t with c_lflag := t.c_lflag ||| (ICANON ||| ECHOE ||| ECHOK ||| ECHOCTL ||| ECHOKE) }

/-- The function `ino_open`.  `open_ret` is the answer of `open`, `cur` the
settings `tcgetattr` reports and `tcset_ret` the answer of `tcsetattr`. -/
def ino_open (cnx : Option ino_connection_t) (w : OS)
    (open_ret : Int) (cur : termios) (tcset_ret : Int) :
    Int × Option ino_connection_t × OS :=
  match cnx with
  | none => (-1, none, w)
  | some c =>
    let r0 := if c.fd > -1 then ino_close_struct c w else (0, c, w)
    let ro := os_open r0.2.2 r0.2.1.port open_ret
    let c1 := { r0.2.1 with fd := ro.2 }
    if c1.fd ≥ 0 then
      let w2 := os_usleep ro.1 c1.connect_wait
      let rg := os_tcgetattr w2 c1.fd cur
      let rs := os_tcsetattr rg.1 c1.fd (ino_open_settings c1 rg.2) tcset_ret
      if rs.2 = -1 then
        let rc := ino_close_struct c1 rs.1
        (rs.2, some rc.2.1, rc.2.2)
      else
        (rs.2, some c1, rs.1)
    else
      (-1, some c1, ro.1)

/-- The function `ino_connection_destroy`: the connection is closed and its
memory freed; what remains is the state of the operating system. -/
def ino_connection_destroy (cnx : Option ino_connection_t) (w : OS) : OS :=
  match cnx with
  | none => w
  | some c => (ino_close (some c) w).2.2

/-! ## Raw and text transfers -/

/-- The function `ino_read`: one `read` into `buf`, then a zero byte stored
at index `n`; an index outside `buf` is a fault. -/
def ino_read (cnx : Option ino_connection_t) (buf : List Nat) (max_bytes : Int)
    (w : OS) (r : ReadReply) : Option (Int × List Nat × OS) :=
  match cnx with
  | none => some (-1, buf, w)
  | some c =>
    if c.fd > -1 then
      let rd := os_read w c.fd buf max_bytes r
      if 0 ≤ rd.2.1 ∧ rd.2.1.toNat < rd.2.2.length then
        some (rd.2.1, rd.2.2.set rd.2.1.toNat 0, rd.1)
      else none
    else some (-1, buf, w)

/-- The function `ino_read_raw`. -/
def ino_read_raw (cnx : Option ino_connection_t) (buf : List Nat) (frame_size_bytes : Int)
    (w : OS) (r : ReadReply) : Int × List Nat × OS :=
  match cnx with
  | none => (-1, buf, w)
  | some c =>
    if c.fd > -1 then
      let rd := os_read w c.fd buf frame_size_bytes r
      (rd.2.1, rd.2.2, rd.1)
    else (-1, buf, w)

/-- The function `ino_send_raw`. -/
def ino_send_raw (cnx : Option ino_connection_t) (buf : List Nat) (frame_size_bytes : Int)
    (w : OS) (write_ret : Int) : Int × OS :=
  match cnx with
  | none => (0, w)
  | some c =>
    if c.fd > -1 then
      let r := os_write w c.fd buf frame_size_bytes write_ret
      (r.2, r.1)
    else (0, w)

/-- The function `ino_send_char`. -/
def ino_send_char (cnx : Option ino_connection_t) (ch : Nat) (w : OS) (write_ret : Int) :
    Int × OS :=
  match cnx with
  | none => (-1, w)
  | some c =>
    if c.fd > -1 then
      let r := os_write w c.fd [ch] 1 write_ret
      (if r.2 < 1 then -1 else r.2, r.1)
    else (-1, w)

/-! ## Single integer reads -/

/-- The loop `for(j=0; j<n; j++) { tmp.unsig <<= 8; tmp.unsig |= frame[j]; }`
of the single integer reads, `m` being 2^16 or 2^32, the range of
`tmp.unsig`.  The first argument bounds the number of iterations. -/
def read_int_loop (m : Nat) (frame : List Nat) (n : Int) : Nat → Nat → Nat → Option Nat
  | 0, j, tmp => if (j : Int) < n then none else some tmp
  | fuel + 1, j, tmp =>
    if (j : Int) < n then
      match frame[j]? with
      | none => none
      | some b => read_int_loop m frame n fuel (j + 1) (((tmp <<< 8) % m) ||| b)
    else some tmp

/-- Common body of the four single integer reads: `size` is `frame_size`,
`m` the range of `tmp.unsig`; the result is `tmp.unsig` at the return. -/
def read_int_body (size : Nat) (m : Nat) (cnx : Option ino_connection_t) (w : OS)
    (r : ReadReply) : Option (Nat × OS) :=
  match cnx with
  | none => some (0, w)
  | some c =>
    if c.fd > -1 then
      let frame := List.replicate size 0
      let rd := os_read w c.fd frame size r
      match read_int_loop m rd.2.2 rd.2.1 rd.2.1.toNat 0 0 with
      | none => none
      | some tmp => some (tmp, rd.1)
    else some (0, w)

/-- The function `ino_read_int16`. -/
def ino_read_int16 (cnx : Option ino_connection_t) (w : OS) (r : ReadReply) :
    Option (Int × OS) :=
  (read_int_body 2 65536 cnx w r).map (fun p => (ino_int16_sig p.1, p.2))

/-- The function `ino_read_uint16`. -/
def ino_read_uint16 (cnx : Option ino_connection_t) (w : OS) (r : ReadReply) :
    Option (Nat × OS) :=
  read_int_body 2 65536 cnx w r

/-- The function `ino_read_int32`. -/
def ino_read_int32 (cnx : Option ino_connection_t) (w : OS) (r : ReadReply) :
    Option (Int × OS) :=
  (read_int_body 4 4294967296 cnx w r).map (fun p => (ino_int32_sig p.1, p.2))

/-- The function `ino_read_uint32`. -/
def ino_read_uint32 (cnx : Option ino_connection_t) (w : OS) (r : ReadReply) :
    Option (Nat × OS) :=
  read_int_body 4 4294967296 cnx w r

/-! ## Integer array reads -/

/-- The loop `for(i=0; i<n; i+=2)` of `ino_read_int16s` / `ino_read_uint16s`;
`view` is the union member stored into `int_buf` (`tmp.sig` or `tmp.unsig`).
The first argument bounds the number of iterations. -/
def read_int16s_loop {α : Type} (view : Nat → α) (frame : List Nat) (n : Int) :
    Nat → Nat → Nat → List α → Option (Nat × List α)
  | 0, i, k, int_buf => if (i : Int) < n then none else some (k, int_buf)
  | fuel + 1, i, k, int_buf =>
    if (i : Int) < n then
      match frame[i]?, frame[i + 1]? with
      | some b0, some b1 =>
        let tmp := 0 ||| b0
        let tmp := (tmp <<< 8) % 65536
        let tmp := tmp ||| b1
        if k < int_buf.length then
          read_int16s_loop view frame n fuel (i + 2) (k + 1) (int_buf.set k (view tmp))
        else none
      | _, _ => none
    else some (k, int_buf)

/-- The inner loop `for(j=0; j<4; j++) { tmp.unsig <<= 8; tmp.unsig |= frame[i+j]; }`
of the 32-bit array reads, started with `tmp.unsig = 0`. -/
def read_group32 (frame : List Nat) (i : Nat) : Option Nat :=
  [0, 1, 2, 3].foldlM
    (fun tmp j => (frame[i + j]?).map (fun b => ((tmp <<< 8) % 4294967296) ||| b)) 0

/-- The loop `for(i=0; i<n; i+=4)` of `ino_read_int32s` / `ino_read_uint32s`. -/
def read_int32s_loop {α : Type} (view : Nat → α) (frame : List Nat) (n : Int) :
    Nat → Nat → Nat → List α → Option (Nat × List α)
  | 0, i, k, int_buf => if (i : Int) < n then none else some (k, int_buf)
  | fuel + 1, i, k, int_buf =>
    if (i : Int) < n then
      match read_group32 frame i with
      | some tmp =>
        if k < int_buf.length then
          read_int32s_loop view frame n fuel (i + 4) (k + 1) (int_buf.set k (view tmp))
        else none
      | none => none
    else some (k, int_buf)

/-- Common body of the four array reads: `width` is the number of bytes per
integer and `loop` the decoding loop, called with the frame, the answer `n`
of `read`, the iteration bound, `i = 0`, `k = 0` and `int_buf`.  The
iteration bound `n` always suffices, `i` growing by at least 2 per
iteration.  `int_count` is a natural number and `int_count * width` is
taken not to overflow an `int`. -/
def read_ints_body {α : Type} (width : Nat)
    (loop : List Nat → Int → Nat → Nat → Nat → List α → Option (Nat × List α))
    (cnx : Option ino_connection_t) (int_buf : List α) (int_count : Nat)
    (w : OS) (r : ReadReply) : Option (Int × List α × OS) :=
  match cnx with
  | none => some (0, int_buf, w)
  | some c =>
    if c.fd > -1 then
      let frame_size := int_count * width
      let frame := List.replicate frame_size 0
      let rd := os_read w c.fd frame frame_size r
      match loop rd.2.2 rd.2.1 rd.2.1.toNat 0 0 int_buf with
      | none => none
      | some p => some ((p.1 : Int), p.2, rd.1)
    else some (0, int_buf, w)

/-- The function `ino_read_int16s`. -/
def ino_read_int16s (cnx : Option ino_connection_t) (int_buf : List Int) (int_count : Nat)
    (w : OS) (r : ReadReply) : Option (Int × List Int × OS) :=
  read_ints_body 2 (read_int16s_loop ino_int16_sig) cnx int_buf int_count w r

/-- The function `ino_read_uint16s`. -/
def ino_read_uint16s (cnx : Option ino_connection_t) (int_buf : List Nat) (int_count : Nat)
    (w : OS) (r : ReadReply) : Option (Int × List Nat × OS) :=
  read_ints_body 2 (read_int16s_loop id) cnx int_buf int_count w r

/-- The function `ino_read_int32s`. -/
def ino_read_int32s (cnx : Option ino_connection_t) (int_buf : List Int) (int_count : Nat)
    (w : OS) (r : ReadReply) : Option (Int × List Int × OS) :=
  read_ints_body 4 (read_int32s_loop ino_int32_sig) cnx int_buf int_count w r

/-- The function `ino_read_uint32s`. -/
def ino_read_uint32s (cnx : Option ino_connection_t) (int_buf : List Nat) (int_count : Nat)
    (w : OS) (r : ReadReply) : Option (Int × List Nat × OS) :=
  read_ints_body 4 (read_int32s_loop id) cnx int_buf int_count w r

/-! ## Integer sends -/

/-- The function `ino_send_int16`. -/
def ino_send_int16 (cnx : Option ino_connection_t) (val : Int) (w : OS) (write_ret : Int) :
    Int × OS :=
  match cnx with
  | none => (0, w)
  | some c =>
    if c.fd > -1 then
      let u := ino_int16_unsig val
      let buf := [(u >>> 8) &&& 0xFF, u &&& 0xFF]
      let r := os_write w c.fd buf 2 write_ret
      (r.2, r.1)
    else (0, w)

/-- The function `ino_send_uint16`. -/
def ino_send_uint16 (cnx : Option ino_connection_t) (val : Nat) (w : OS) (write_ret : Int) :
    Int × OS :=
  match cnx with
  | none => (0, w)
  | some c =>
    if c.fd > -1 then
      let buf := [(val >>> 8) &&& 0xFF, val &&& 0xFF]
      let r := os_write w c.fd buf 2 write_ret
      (r.2, r.1)
    else (0, w)

/-- The function `ino_send_int32`. -/
def ino_send_int32 (cnx : Option ino_connection_t) (val : Int) (w : OS) (write_ret : Int) :
    Int × OS :=
  match cnx with
  | none => (0, w)
  | some c =>
    if c.fd > -1 then
      let u := ino_int32_unsig val
      let buf := [(u >>> 24) &&& 0xFF, (u >>> 16) &&& 0xFF, (u >>> 8) &&& 0xFF, u &&& 0xFF]
      let r := os_write w c.fd buf 4 write_ret
      (r.2, r.1)
    else (0, w)

/-- The function `ino_send_uint32`. -/
def ino_send_uint32 (cnx : Option ino_connection_t) (val : Nat) (w : OS) (write_ret : Int) :
    Int × OS :=
  match cnx with
  | none => (0, w)
  | some c =>
    if c.fd > -1 then
      let buf := [(val >>> 24) &&& 0xFF, (val >>> 16) &&& 0xFF, (val >>> 8) &&& 0xFF,
        val &&& 0xFF]
      let r := os_write w c.fd buf 4 write_ret
      (r.2, r.1)
    else (0, w)

/-! ## Device side (arduino_libuino.cpp) -/

namespace Arduino

/-- The serial port of the microcontroller: `rx` holds the received bytes not
yet read, oldest first, `tx` the bytes written so far. -/
structure Serial where
  rx : List Nat
  tx : List Nat
deriving DecidableEq, Repr

/-- The Arduino call `Serial.read()`: the oldest received byte, or -1 when no
byte is available. -/
def Serial.read (s : Serial) : Int × Serial :=
  match s.rx with
  | [] => (-1, s)
  | b :: rest => ((b : Int), { s with rx := rest })

/-- The Arduino call `Serial.write(b)` with a `uint8_t` argument. -/
def Serial.write (s : Serial) (b : Nat) : Serial :=
  { s with tx := s.tx ++ [b % 256] }

/-- The Arduino macro `highByte(w)`, that is `(uint8_t) ((w) >> 8)`. -/
def highByte (w : Nat) : Nat := (w >>> 8) % 256

/-- The Arduino macro `lowByte(w)`, that is `(uint8_t) ((w) & 0xff)`. -/
def lowByte (w : Nat) : Nat := (w &&& 0xff) % 256

/-- Conversion of an `int` to `uint16_t`. -/
def uint16_of_int (r : Int) : Nat := (r % 65536).toNat

/-- Conversion of an `int` to `uint32_t`. -/
def uint32_of_int (r : Int) : Nat := (r % 4294967296).toNat

/-- Common body of the device functions `ino_read_int16` and
`ino_read_uint16`: the value of `i.unsig` at the return. -/
def read16_body (s : Serial) : Nat × Serial :=
  let r0 := Serial.read s
  let u := uint16_of_int r0.1
  let u := (u <<< 8) % 65536
  let r1 := Serial.read r0.2
  let u := u ||| uint16_of_int r1.1
  (u, r1.2)

/-- The device function `ino_read_int16`. -/
def ino_read_int16 (s : Serial) : Int × Serial :=
  (ino_int16_sig (read16_body s).1, (read16_body s).2)

/-- The device function `ino_read_uint16`. -/
def ino_read_uint16 (s : Serial) : Nat × Serial :=
  read16_body s

/-- The loop `for(j=0; j<4; j++) { i.unsig <<= 8; i.unsig |= Serial.read(); }`
of the device functions `ino_read_int32` and `ino_read_uint32`; the first
argument is the number of iterations left. -/
def read32_loop : Nat → Nat → Serial → Nat × Serial
  | 0, u, s => (u, s)
  | k + 1, u, s =>
    let r := Serial.read s
    read32_loop k (((u <<< 8) % 4294967296) ||| uint32_of_int r.1) r.2

/-- The device function `ino_read_int32`. -/
def ino_read_int32 (s : Serial) : Int × Serial :=
  (ino_int32_sig (read32_loop 4 0 s).1, (read32_loop 4 0 s).2)

/-- The device function `ino_read_uint32`. -/
def ino_read_uint32 (s : Serial) : Nat × Serial :=
  read32_loop 4 0 s

/-- The device function `ino_send_int16`. -/
def ino_send_int16 (n : Int) (s : Serial) : Serial :=
  let u := ino_int16_unsig n
  Serial.write (Serial.write s (highByte u)) (lowByte u)

/-- The device function `ino_send_uint16`. -/
def ino_send_uint16 (n : Nat) (s : Serial) : Serial :=
  let u := n
  Serial.write (Serial.write s (highByte u)) (lowByte u)

/-- Common tail of the device functions `ino_send_int32` and
`ino_send_uint32`, `u` being `i.unsig`: the higher 16-bit word, then the
lower one, each as `highByte` then `lowByte` of the `uint16_t` variable `tmp`. -/
def send32_body (u : Nat) (s : Serial) : Serial :=
  let tmp := (u >>> 16) % 65536
  let s := Serial.write s (highByte tmp)
  let s := Serial.write s (lowByte tmp)
  let tmp := (u &&& 0xFFFF) % 65536
  let s := Serial.write s (highByte tmp)
  Serial.write s (lowByte tmp)

/-- The device function `ino_send_int32`. -/
def ino_send_int32 (n : Int) (s : Serial) : Serial :=
  send32_body (ino_int32_unsig n) s

/-- The device function `ino_send_uint32`. -/
def ino_send_uint32 (n : Nat) (s : Serial) : Serial :=
  send32_body n s

end Arduino

/-! ## Helpers used to state the properties -/

/-- The bytes the device accepted between the states `before` and `after`. -/
def sent_bytes (before after : OS) : List Nat :=
  after.wire.drop before.wire.length

/-- An open session used in the examples: descriptor 3 on a raw 2-byte port. -/
def example_cnx : ino_connection_t :=
  { port := "/dev/ttyACM0", baud := 13, connect_wait := 0,
    raw := 1, raw_size := 2, raw_timeout := 0, fd := 3 }

/-- The operating system state matching `example_cnx`: descriptor 3 is live. -/
def example_os : OS :=
  { live := [3], wire := [], trace := [] }

/-- Successive calls of `ino_send_uint16`, one per value, each accepted whole
by the device. -/
def send_uint16_list (c : ino_connection_t) : List Nat → OS → OS
  | [], w => w
  | v :: vs, w => send_uint16_list c vs (ino_send_uint16 (some c) v w 2).2

/-- Successive calls of `ino_send_int16`, one per value, each accepted whole
by the device. -/
def send_int16_list (c : ino_connection_t) : List Int → OS → OS
  | [], w => w
  | v :: vs, w => send_int16_list c vs (ino_send_int16 (some c) v w 2).2

/-- Successive calls of `ino_send_uint32`, one per value, each accepted whole
by the device. -/
def send_uint32_list (c : ino_connection_t) : List Nat → OS → OS
  | [], w => w
  | v :: vs, w => send_uint32_list c vs (ino_send_uint32 (some c) v w 4).2

/-- Successive calls of `ino_send_int32`, one per value, each accepted whole
by the device. -/
def send_int32_list (c : ino_connection_t) : List Int → OS → OS
  | [], w => w
  | v :: vs, w => send_int32_list c vs (ino_send_int32 (some c) v w 4).2

/-- The 2-byte big-endian group of a 16-bit value. -/
def group16 (v : Nat) : List Nat := [v / 256, v % 256]

/-- The 4-byte big-endian group of a 32-bit value. -/
def group32 (v : Nat) : List Nat :=
  [v / 2 ^ 24, (v / 2 ^ 16) % 256, (v / 2 ^ 8) % 256, v % 256]

/-- Port settings reported by `tcgetattr` in the examples. -/
def example_termios : termios :=
  { c_iflag := 0o2400, c_oflag := 0o5, c_cflag := 0o2275, c_lflag := 0o105073,
    c_cc_VMIN := 1, c_cc_VTIME := 0, c_ispeed := 13, c_ospeed := 13 }

/-- The session `example_cnx` before it was opened. -/
def example_closed_cnx : ino_connection_t :=
  { example_cnx with fd := -1 }

/-- One call on a session in a run of lifecycle calls: `ino_open`, with the
answers the operating system gives to it, or `ino_close`. -/
inductive LifecycleCall where
  | open_call (open_ret : Int) (cur : termios) (tcset_ret : Int)
  | close_call
deriving DecidableEq, Repr

/-- The session and the operating system after a run of lifecycle calls. -/
def run_lifecycle : Option ino_connection_t → OS → List LifecycleCall →
    Option ino_connection_t × OS
  | cnx, w, [] => (cnx, w)
  | cnx, w, LifecycleCall.open_call open_ret cur tcset_ret :: rest =>
    run_lifecycle (ino_open cnx w open_ret cur tcset_ret).2.1
      (ino_open cnx w open_ret cur tcset_ret).2.2 rest
  | cnx, w, LifecycleCall.close_call :: rest =>
    run_lifecycle (ino_close cnx w).2.1 (ino_close cnx w).2.2 rest

/-- The C function `strlen` on a buffer: the number of bytes before the first
zero byte. -/
def strlen (buf : List Nat) : Nat :=
  (buf.takeWhile (fun b => b != 0)).length

/-- The settings committed so far: the argument of every `tcsetattr` call in
the trace, oldest first. -/
def committed_settings (w : OS) : List termios :=
  w.trace.filterMap (fun s =>
    match s with
    | SysCall.tcsetattr _ t => some t
    | _ => none)

/-- The bytes `data` followed by as many zero bytes as bring the length to
the next multiple of `width`. -/
def pad_zero (width : Nat) (data : List Nat) : List Nat :=
  data ++ List.replicate ((width - data.length % width) % width) 0

/-- Big-endian decode of consecutive 2-byte groups. -/
def decode16 : List Nat → List Nat
  | b0 :: b1 :: rest => (b0 * 256 + b1) :: decode16 rest
  | _ => []

/-- Big-endian decode of consecutive 4-byte groups. -/
def decode32 : List Nat → List Nat
  | b0 :: b1 :: b2 :: b3 :: rest =>
    (b0 * 16777216 + b1 * 65536 + b2 * 256 + b3) :: decode32 rest
  | _ => []

/-! ## Text extraction (the functions `ino_cast_int`, `ino_cast_long`, `ino_cast_float`, `ino_cast_double`)

A frame is a buffer of characters; the C string in it ends before the first
zero byte (or with the buffer).  A `char *` into the frame is the index it
points at; the NULL pointer is `none`. -/

/-- The string `delims`, that is `" \t\r\n;|"`. -/
def delims : List Nat := [32, 9, 13, 10, 59, 124]

/-- The test `strchr(s, ch) != NULL`: `ch` occurs in `s` or is the
terminating zero of `s`. -/
def strchr (s : List Nat) (ch : Nat) : Bool :=
  ch == 0 || s.contains ch

/-- The call `strpbrk(p, accept)` for a pointer `p` at index `i`, the rest of
the string from there being the first list: the index of the first
character that occurs in `accept`, or NULL (`none`) when there is none. -/
def strpbrk (accept : List Nat) : List Nat → Nat → Option Nat
  | [], _ => none
  | ch :: rest, i => if accept.contains ch then some i else strpbrk accept rest (i + 1)

/-- The test `isspace(ch)` of the C locale. -/
def isspace (ch : Nat) : Bool :=
  ch == 32 || (9 ≤ ch && ch ≤ 13)

/-- The test `isdigit(ch)`. -/
def isdigit (ch : Nat) : Bool :=
  48 ≤ ch && ch ≤ 57

/-- The value of the longest prefix of decimal digits, continuing from `acc`. -/
def digits_value : List Nat → Nat → Nat
  | [], acc => acc
  | ch :: rest, acc => if isdigit ch then digits_value rest (acc * 10 + (ch - 48)) else acc

/-- The constant `LONG_MAX` of a 64-bit `long`. -/
def LONG_MAX : Int := 9223372036854775807

/-- The constant `LONG_MIN` of a 64-bit `long`. -/
def LONG_MIN : Int := -9223372036854775808

/-- What `strtol` returns for the number `v` it has read: `v` itself, or
`LONG_MAX` / `LONG_MIN` when `v` is outside the range of `long`. -/
def clamp_long (v : Int) : Int :=
  if v > LONG_MAX then LONG_MAX else if v < LONG_MIN then LONG_MIN else v

/-- The C library call `strtol(s, &end, 10)` on the characters `s` of a
string: white space is skipped, an optional sign is read, then the longest
run of decimal digits; a value outside the range of `long` is replaced by
`LONG_MAX` or `LONG_MIN`. -/
def strtol (s : List Nat) : Int :=
  clamp_long
    (match s.dropWhile isspace with
    | [] => 0
    | ch :: rest =>
      if ch = 45 then -((digits_value rest 0 : Nat) : Int)
      else if ch = 43 then ((digits_value rest 0 : Nat) : Int)
      else ((digits_value (ch :: rest) 0 : Nat) : Int))

/-- Conversion of a `long` to a 32-bit `int` (the assignment `val = strtol(...)`
in `ino_cast_int`): the low 32 bits are kept. -/
def int_of_long (v : Int) : Int :=
  if v % 4294967296 < 2147483648 then v % 4294967296 else v % 4294967296 - 4294967296

/-- The inner loop `while( start < frame+len && strchr(delims,*start) ) start++;`
on the string `s` of length `len`.  The first argument bounds the number of
iterations. -/
def skip_delims (s : List Nat) (len : Nat) : Nat → Nat → Option Nat
  | 0, start => if start < len ∧ strchr delims (s.getD start 0) = true then none else some start
  | fuel + 1, start =>
    if start < len ∧ strchr delims (s.getD start 0) = true then
      skip_delims s len fuel (start + 1)
    else some start

/-- The outer loop `while ( j<pos && start < frame+len )` of the four cast
functions: `start` is moved one past the next delimiter, then past the
delimiters that follow it.  When `strpbrk` finds no delimiter it returns
NULL, and the pointer `NULL + 1` that the code goes on to use is a fault.
The first argument bounds the number of iterations. -/
def cast_seek (s : List Nat) (len : Nat) (pos : Int) : Nat → Int → Nat → Option Nat
  | 0, j, start => if j < pos ∧ start < len then none else some start
  | fuel + 1, j, start =>
    if j < pos ∧ start < len then
      match strpbrk delims (s.drop start) start with
      | none => none
      | some p =>
        match skip_delims s len len (p + 1) with
        | none => none
        | some start1 => cast_seek s len pos fuel (j + 1) start1
    else some start

/-- Common body of the four cast functions: `zero` is the initial `val` and
`parse` the conversion applied at `start` (`strtol`, `strtof` or `strtod`,
followed by the conversion to the type of `val`). -/
def ino_cast_body {α : Type} (zero : α) (parse : List Nat → α) (frame : List Nat) (pos : Int) :
    Option α :=
  let len := strlen frame
  let s := frame.take len
  match cast_seek s len pos pos.toNat 0 0 with
  | none => none
  | some start => if start < len then some (parse (s.drop start)) else some zero

/-- The function `ino_cast_int`. -/
def ino_cast_int (frame : List Nat) (pos : Int) : Option Int :=
  ino_cast_body 0 (fun t => int_of_long (strtol t)) frame pos

/-- The function `ino_cast_long`. -/
def ino_cast_long (frame : List Nat) (pos : Int) : Option Int :=
  ino_cast_body 0 strtol frame pos

/-- The function `ino_cast_float`; the C library call `strtof` and the
`float` zero are taken as given. -/
def ino_cast_float {F : Type} (strtof : List Nat → F) (fzero : F) (frame : List Nat)
    (pos : Int) : Option F :=
  ino_cast_body fzero strtof frame pos

/-- The function `ino_cast_double`; the C library call `strtod` and the
`double` zero are taken as given. -/
def ino_cast_double {F : Type} (strtod : List Nat → F) (dzero : F) (frame : List Nat)
    (pos : Int) : Option F :=
  ino_cast_body dzero strtod frame pos

/-- A decimal integer field of a text frame: its sign characters (none, `-`
or `+`) and its digit characters. -/
structure IntField where
  sign : List Nat
  digits : List Nat
deriving DecidableEq, Repr

/-- The characters of a field. -/
def IntField.text (f : IntField) : List Nat :=
  f.sign ++ f.digits

/-- A field is well formed when its sign is empty, `-` or `+` and it has at
least one digit, all of them decimal digits. -/
def IntField.ok (f : IntField) : Bool :=
  (f.sign == [] || f.sign == [45] || f.sign == [43]) && !f.digits.isEmpty &&
    f.digits.all isdigit

/-- The number written by a list of decimal digit characters. -/
def decimal (ds : List Nat) : Nat :=
  ds.foldl (fun a d => a * 10 + (d - 48)) 0

/-- The integer a field denotes. -/
def IntField.value (f : IntField) : Int :=
  if f.sign = [45] then -((decimal f.digits : Nat) : Int) else ((decimal f.digits : Nat) : Int)

/-- The text of a frame given as its fields, each with the run of delimiters
that follows it. -/
def frame_text : List (IntField × List Nat) → List Nat
  | [] => []
  | (f, d) :: rest => f.text ++ d ++ frame_text rest

/-- A frame is well formed when every field is, every run consists of
characters of `delims`, and every run but the last has at least one
character. -/
def frame_ok : List (IntField × List Nat) → Bool
  | [] => true
  | (f, d) :: rest =>
    f.ok && d.all (fun ch => delims.contains ch) && (rest.isEmpty || !d.isEmpty) &&
      frame_ok rest

/-- The frame `"12 ;| -34\t5000000000\r\n"` as fields and runs. -/
def example_frame : List (IntField × List Nat) :=
  [(⟨[], [49, 50]⟩, [32, 59, 124, 32]), (⟨[45], [51, 52]⟩, [9]),
   (⟨[], [53, 48, 48, 48, 48, 48, 48, 48, 48, 48]⟩, [13, 10])]

/-- The frame `"9223372036854775808"`: one field, the value `2^63`. -/
def example_wide_frame : List (IntField × List Nat) :=
  [(⟨[], [57, 50, 50, 51, 51, 55, 50, 48, 51, 54, 56, 53, 52, 55, 55, 53, 56, 48, 56]⟩, [])]

/-! # Properties -/

/-! ## Bit arithmetic of the codec -/

theorem shl8_or (m a b : Nat) (hm : 256 ∣ m) (hb : b < 256) :
    ((a <<< 8) % m) ||| b = (a * 256) % m + b := by
  obtain ⟨q, rfl⟩ := hm
  have h1 : a <<< 8 = a * 256 := by simp [Nat.shiftLeft_eq]
  have h2 : (a * 256) % (256 * q) = 2 ^ 8 * (a % q) := by
    rw [Nat.mul_comm a 256, Nat.mul_mod_mul_left]; norm_num
  rw [h1, h2]
  exact (Nat.mul_add_lt_is_or (by simpa using hb) (a % q)).symm

theorem shl8_or16 (a b : Nat) (hb : b < 256) :
    ((a <<< 8) % 65536) ||| b = (a * 256) % 65536 + b :=
  shl8_or 65536 a b (by decide) hb

theorem shl8_or32 (a b : Nat) (hb : b < 256) :
    ((a <<< 8) % 4294967296) ||| b = (a * 256) % 4294967296 + b :=
  shl8_or 4294967296 a b (by decide) hb

theorem and_255 (x : Nat) : x &&& 255 = x % 256 :=
  Nat.and_pow_two_sub_one_eq_mod x 8

theorem shr8 (x : Nat) : x >>> 8 = x / 256 := Nat.shiftRight_eq_div_pow x 8

theorem shr16 (x : Nat) : x >>> 16 = x / 65536 := Nat.shiftRight_eq_div_pow x 16

theorem shr24 (x : Nat) : x >>> 24 = x / 16777216 := Nat.shiftRight_eq_div_pow x 24

theorem sig16_unsig16 (v : Int) (h1 : -32768 ≤ v) (h2 : v < 32768) :
    ino_int16_sig (ino_int16_unsig v) = v := by
  unfold ino_int16_sig ino_int16_unsig
  split <;> omega

theorem sig32_unsig32 (v : Int) (h1 : -2147483648 ≤ v) (h2 : v < 2147483648) :
    ino_int32_sig (ino_int32_unsig v) = v := by
  unfold ino_int32_sig ino_int32_unsig
  split <;> omega

theorem unsig16_lt (v : Int) : ino_int16_unsig v < 65536 := by
  unfold ino_int16_unsig; omega

theorem unsig32_lt (v : Int) : ino_int32_unsig v < 4294967296 := by
  unfold ino_int32_unsig; omega

/-! ## What the sends put on the wire -/

theorem send_uint16_open (c : ino_connection_t) (w : OS) (v : Nat) (ret : Int)
    (hc : c.fd > -1) :
    ino_send_uint16 (some c) v w ret =
      (ret, { w with
                wire := w.wire ++ [(v / 256) % 256, v % 256].take ret.toNat,
                trace := w.trace ++ [SysCall.write c.fd [(v / 256) % 256, v % 256] 2] }) := by
  simp [ino_send_uint16, hc, os_write, and_255, shr8]

theorem send_int16_open (c : ino_connection_t) (w : OS) (v : Int) (ret : Int)
    (hc : c.fd > -1) :
    ino_send_int16 (some c) v w ret = ino_send_uint16 (some c) (ino_int16_unsig v) w ret := by
  simp [ino_send_int16, ino_send_uint16, hc]

theorem send_uint32_open (c : ino_connection_t) (w : OS) (v : Nat) (ret : Int)
    (hc : c.fd > -1) :
    ino_send_uint32 (some c) v w ret =
      (ret, { w with
                wire := w.wire ++
                  [(v / 16777216) % 256, (v / 65536) % 256, (v / 256) % 256, v % 256].take
                    ret.toNat,
                trace := w.trace ++ [SysCall.write c.fd
                  [(v / 16777216) % 256, (v / 65536) % 256, (v / 256) % 256, v % 256] 4] }) := by
  simp [ino_send_uint32, hc, os_write, and_255, shr8, shr16, shr24]

theorem send_int32_open (c : ino_connection_t) (w : OS) (v : Int) (ret : Int)
    (hc : c.fd > -1) :
    ino_send_int32 (some c) v w ret = ino_send_uint32 (some c) (ino_int32_unsig v) w ret := by
  simp [ino_send_int32, ino_send_uint32, hc]

theorem sent_bytes_append (w : OS) (l : List Nat) (t : List SysCall) :
    sent_bytes w { w with wire := w.wire ++ l, trace := t } = l := by
  simp [sent_bytes]

theorem sent_bytes_uint16 (c : ino_connection_t) (w : OS) (v : Nat) (hc : c.fd > -1) :
    sent_bytes w (ino_send_uint16 (some c) v w 2).2 = [(v / 256) % 256, v % 256] := by
  rw [send_uint16_open c w v 2 hc]
  simp [sent_bytes]

theorem sent_bytes_uint32 (c : ino_connection_t) (w : OS) (v : Nat) (hc : c.fd > -1) :
    sent_bytes w (ino_send_uint32 (some c) v w 4).2 =
      [(v / 16777216) % 256, (v / 65536) % 256, (v / 256) % 256, v % 256] := by
  rw [send_uint32_open c w v 4 hc]
  simp [sent_bytes]

/-! ## What the single reads decode from a full frame -/

theorem read_body16_full (c : ino_connection_t) (w : OS) (b0 b1 : Nat) (hc : c.fd > -1)
    (h0 : b0 < 256) (h1 : b1 < 256) :
    read_int_body 2 65536 (some c) w ⟨2, [b0, b1]⟩ =
      some (b0 * 256 + b1, { w with trace := w.trace ++ [SysCall.read c.fd 2] }) := by
  have e : (b0 * 256) % 65536 = b0 * 256 := by omega
  simp [read_int_body, hc, os_read, store_bytes, read_int_loop, shl8_or16, h1, e]

theorem read_body32_full (c : ino_connection_t) (w : OS) (b0 b1 b2 b3 : Nat) (hc : c.fd > -1)
    (h0 : b0 < 256) (h1 : b1 < 256) (h2 : b2 < 256) (h3 : b3 < 256) :
    read_int_body 4 4294967296 (some c) w ⟨4, [b0, b1, b2, b3]⟩ =
      some (b0 * 16777216 + b1 * 65536 + b2 * 256 + b3,
        { w with trace := w.trace ++ [SysCall.read c.fd 4] }) := by
  have e1 : (b0 * 256) % 4294967296 = b0 * 256 := by omega
  have e2 : ((b0 * 256 + b1) * 256) % 4294967296 = (b0 * 256 + b1) * 256 := by omega
  have e3 : (((b0 * 256 + b1) * 256 + b2) * 256) % 4294967296 =
      ((b0 * 256 + b1) * 256 + b2) * 256 := by omega
  simp [read_int_body, hc, os_read, store_bytes, read_int_loop, shl8_or32, h0, h1, h2, h3,
    e1, e2, e3]
  ring

/-! ## Round trips and wire layout of single integers -/

/-- C1: on open sessions, for every int16 `v` the read `ino_read_int16` over
a device that delivers exactly the 2 bytes written by `ino_send_int16 v`
returns `v`, and for every uint16 `v` the read `ino_read_uint16` over the 2
bytes written by `ino_send_uint16 v` returns `v`. -/
theorem C1_roundtrip_16 (c c' : ino_connection_t) (w w' : OS)
    (hc : c.fd > -1) (hc' : c'.fd > -1) :
    (∀ v : Int, -32768 ≤ v → v < 32768 →
      (ino_read_int16 (some c') w'
        ⟨2, sent_bytes w (ino_send_int16 (some c) v w 2).2⟩).map Prod.fst = some v) ∧
    (∀ v : Nat, v < 65536 →
      (ino_read_uint16 (some c') w'
        ⟨2, sent_bytes w (ino_send_uint16 (some c) v w 2).2⟩).map Prod.fst = some v) := by
  constructor
  · intro v h1 h2
    have hu := unsig16_lt v
    rw [send_int16_open c w v 2 hc, sent_bytes_uint16 c w _ hc, ino_read_int16,
      read_body16_full c' w' _ _ hc' (by omega) (by omega)]
    have e : ino_int16_unsig v / 256 % 256 * 256 + ino_int16_unsig v % 256 =
        ino_int16_unsig v := by omega
    simp [e, sig16_unsig16 v h1 h2]
  · intro v hv
    rw [sent_bytes_uint16 c w _ hc, ino_read_uint16,
      read_body16_full c' w' _ _ hc' (by omega) (by omega)]
    have e : v / 256 % 256 * 256 + v % 256 = v := by omega
    simp [e]

/-- Instance of C1: the values -2 and 65280 sent and read back through
descriptor 3. -/
theorem C1_roundtrip_16_witness :
    (ino_read_int16 (some example_cnx) example_os
      ⟨2, sent_bytes example_os (ino_send_int16 (some example_cnx) (-2) example_os 2).2⟩).map
        Prod.fst = some (-2) ∧
    (ino_read_uint16 (some example_cnx) example_os
      ⟨2, sent_bytes example_os (ino_send_uint16 (some example_cnx) 65280 example_os 2).2⟩).map
        Prod.fst = some 65280 :=
  ⟨(C1_roundtrip_16 example_cnx example_cnx example_os example_os (by decide) (by decide)).1
      (-2) (by decide) (by decide),
   (C1_roundtrip_16 example_cnx example_cnx example_os example_os (by decide) (by decide)).2
      65280 (by decide)⟩

/-- C2: on open sessions, for every int32 `v` the read `ino_read_int32` over
a device that delivers exactly the 4 bytes written by `ino_send_int32 v`
returns `v`, and for every uint32 `v` the read `ino_read_uint32` over the 4
bytes written by `ino_send_uint32 v` returns `v`. -/
theorem C2_roundtrip_32 (c c' : ino_connection_t) (w w' : OS)
    (hc : c.fd > -1) (hc' : c'.fd > -1) :
    (∀ v : Int, -2147483648 ≤ v → v < 2147483648 →
      (ino_read_int32 (some c') w'
        ⟨4, sent_bytes w (ino_send_int32 (some c) v w 4).2⟩).map Prod.fst = some v) ∧
    (∀ v : Nat, v < 4294967296 →
      (ino_read_uint32 (some c') w'
        ⟨4, sent_bytes w (ino_send_uint32 (some c) v w 4).2⟩).map Prod.fst = some v) := by
  constructor
  · intro v h1 h2
    have hu := unsig32_lt v
    rw [send_int32_open c w v 4 hc, sent_bytes_uint32 c w _ hc, ino_read_int32,
      read_body32_full c' w' _ _ _ _ hc' (by omega) (by omega) (by omega) (by omega)]
    have e : ino_int32_unsig v / 16777216 % 256 * 16777216 +
        ino_int32_unsig v / 65536 % 256 * 65536 + ino_int32_unsig v / 256 % 256 * 256 +
        ino_int32_unsig v % 256 = ino_int32_unsig v := by omega
    simp [e, sig32_unsig32 v h1 h2]
  · intro v hv
    rw [sent_bytes_uint32 c w _ hc, ino_read_uint32,
      read_body32_full c' w' _ _ _ _ hc' (by omega) (by omega) (by omega) (by omega)]
    have e : v / 16777216 % 256 * 16777216 + v / 65536 % 256 * 65536 + v / 256 % 256 * 256 +
        v % 256 = v := by omega
    simp [e]

/-- Instance of C2: the values -2 and 4278190335 sent and read back through
descriptor 3. -/
theorem C2_roundtrip_32_witness :
    (ino_read_int32 (some example_cnx) example_os
      ⟨4, sent_bytes example_os (ino_send_int32 (some example_cnx) (-2) example_os 4).2⟩).map
        Prod.fst = some (-2) ∧
    (ino_read_uint32 (some example_cnx) example_os
      ⟨4, sent_bytes example_os
        (ino_send_uint32 (some example_cnx) 4278190335 example_os 4).2⟩).map
        Prod.fst = some 4278190335 :=
  ⟨(C2_roundtrip_32 example_cnx example_cnx example_os example_os (by decide) (by decide)).1
      (-2) (by decide) (by decide),
   (C2_roundtrip_32 example_cnx example_cnx example_os example_os (by decide) (by decide)).2
      4278190335 (by decide)⟩

/-- C3: on an open session `ino_send_uint16 v` makes one write request whose
buffer is exactly `[v / 256, v % 256]` (length 2) and `ino_send_uint32 v` one
whose buffer is exactly `[v / 2^24, (v / 2^16) % 256, (v / 2^8) % 256, v % 256]`
(length 4), most significant byte first; when the device accepts the whole
request these are the bytes put on the wire. -/
theorem C3_send_big_endian (c : ino_connection_t) (w : OS) (ret : Int) (hc : c.fd > -1) :
    (∀ v : Nat, v < 65536 →
      (ino_send_uint16 (some c) v w ret).2.trace =
          w.trace ++ [SysCall.write c.fd [v / 256, v % 256] 2] ∧
      sent_bytes w (ino_send_uint16 (some c) v w 2).2 = [v / 256, v % 256]) ∧
    (∀ v : Nat, v < 4294967296 →
      (ino_send_uint32 (some c) v w ret).2.trace =
          w.trace ++ [SysCall.write c.fd
            [v / 2 ^ 24, (v / 2 ^ 16) % 256, (v / 2 ^ 8) % 256, v % 256] 4] ∧
      sent_bytes w (ino_send_uint32 (some c) v w 4).2 =
        [v / 2 ^ 24, (v / 2 ^ 16) % 256, (v / 2 ^ 8) % 256, v % 256]) := by
  constructor
  · intro v hv
    have e : v / 256 % 256 = v / 256 := by omega
    rw [sent_bytes_uint16 c w v hc, send_uint16_open c w v ret hc, e]
    exact ⟨rfl, rfl⟩
  · intro v hv
    have e : v / 16777216 % 256 = v / 16777216 := by omega
    rw [sent_bytes_uint32 c w v hc, send_uint32_open c w v ret hc, e]
    norm_num

/-- Instance of C3: 0xFF00 and 0x01020304 sent through descriptor 3. -/
theorem C3_send_big_endian_witness :
    ((ino_send_uint16 (some example_cnx) 65280 example_os 2).2.trace =
          example_os.trace ++ [SysCall.write example_cnx.fd [65280 / 256, 65280 % 256] 2] ∧
      sent_bytes example_os (ino_send_uint16 (some example_cnx) 65280 example_os 2).2 =
        [65280 / 256, 65280 % 256]) ∧
    ((ino_send_uint32 (some example_cnx) 16909060 example_os 2).2.trace =
          example_os.trace ++ [SysCall.write example_cnx.fd
            [16909060 / 2 ^ 24, (16909060 / 2 ^ 16) % 256, (16909060 / 2 ^ 8) % 256,
              16909060 % 256] 4] ∧
      sent_bytes example_os (ino_send_uint32 (some example_cnx) 16909060 example_os 4).2 =
        [16909060 / 2 ^ 24, (16909060 / 2 ^ 16) % 256, (16909060 / 2 ^ 8) % 256,
          16909060 % 256]) :=
  ⟨(C3_send_big_endian example_cnx example_os 2 (by decide)).1 65280 (by decide),
   (C3_send_big_endian example_cnx example_os 2 (by decide)).2 16909060 (by decide)⟩

/-- C4: on an open session whose read delivers all requested bytes,
`ino_read_uint16` returns `b0 * 256 + b1`, `ino_read_uint32` returns
`b0 * 2^24 + b1 * 2^16 + b2 * 2^8 + b3`, and `ino_read_int16` /
`ino_read_int32` return the two's-complement view of that value `u`: `u`
when `u < 2^(W-1)` and `u - 2^W` otherwise. -/
theorem C4_read_big_endian (c : ino_connection_t) (w : OS) (b0 b1 b2 b3 : Nat)
    (hc : c.fd > -1) (h0 : b0 < 256) (h1 : b1 < 256) (h2 : b2 < 256) (h3 : b3 < 256) :
    (ino_read_uint16 (some c) w ⟨2, [b0, b1]⟩).map Prod.fst = some (b0 * 256 + b1) ∧
    (ino_read_uint32 (some c) w ⟨4, [b0, b1, b2, b3]⟩).map Prod.fst =
      some (b0 * 2 ^ 24 + b1 * 2 ^ 16 + b2 * 2 ^ 8 + b3) ∧
    (ino_read_int16 (some c) w ⟨2, [b0, b1]⟩).map Prod.fst =
      some (if b0 * 256 + b1 < 2 ^ 15 then ((b0 * 256 + b1 : Nat) : Int)
        else ((b0 * 256 + b1 : Nat) : Int) - 2 ^ 16) ∧
    (ino_read_int32 (some c) w ⟨4, [b0, b1, b2, b3]⟩).map Prod.fst =
      some (if b0 * 2 ^ 24 + b1 * 2 ^ 16 + b2 * 2 ^ 8 + b3 < 2 ^ 31
        then ((b0 * 2 ^ 24 + b1 * 2 ^ 16 + b2 * 2 ^ 8 + b3 : Nat) : Int)
        else ((b0 * 2 ^ 24 + b1 * 2 ^ 16 + b2 * 2 ^ 8 + b3 : Nat) : Int) - 2 ^ 32) := by
  refine ⟨?_, ?_, ?_, ?_⟩
  · rw [ino_read_uint16, read_body16_full c w b0 b1 hc h0 h1]; rfl
  · rw [ino_read_uint32, read_body32_full c w b0 b1 b2 b3 hc h0 h1 h2 h3]; norm_num
  · rw [ino_read_int16, read_body16_full c w b0 b1 hc h0 h1]
    simp [ino_int16_sig]
  · rw [ino_read_int32, read_body32_full c w b0 b1 b2 b3 hc h0 h1 h2 h3]
    simp [ino_int32_sig]

/-- Instance of C4: the bytes 0xFF, 0xFE, 0x01, 0x02 read through descriptor 3. -/
theorem C4_read_big_endian_witness :
    (ino_read_uint16 (some example_cnx) example_os ⟨2, [255, 254]⟩).map Prod.fst =
      some (255 * 256 + 254) ∧
    (ino_read_uint32 (some example_cnx) example_os ⟨4, [255, 254, 1, 2]⟩).map Prod.fst =
      some (255 * 2 ^ 24 + 254 * 2 ^ 16 + 1 * 2 ^ 8 + 2) ∧
    (ino_read_int16 (some example_cnx) example_os ⟨2, [255, 254]⟩).map Prod.fst =
      some (if 255 * 256 + 254 < 2 ^ 15 then ((255 * 256 + 254 : Nat) : Int)
        else ((255 * 256 + 254 : Nat) : Int) - 2 ^ 16) ∧
    (ino_read_int32 (some example_cnx) example_os ⟨4, [255, 254, 1, 2]⟩).map Prod.fst =
      some (if 255 * 2 ^ 24 + 254 * 2 ^ 16 + 1 * 2 ^ 8 + 2 < 2 ^ 31
        then ((255 * 2 ^ 24 + 254 * 2 ^ 16 + 1 * 2 ^ 8 + 2 : Nat) : Int)
        else ((255 * 2 ^ 24 + 254 * 2 ^ 16 + 1 * 2 ^ 8 + 2 : Nat) : Int) - 2 ^ 32) :=
  C4_read_big_endian example_cnx example_os 255 254 1 2 (by decide) (by decide) (by decide)
    (by decide) (by decide)

/-- C5: signed and unsigned codecs share the byte layout.  On an open
session, for every int16 `v` the call `ino_send_int16 v` does exactly what
`ino_send_uint16 (v mod 2^16)` does and `ino_read_uint16` over the bytes it
wrote returns `v mod 2^16`; `v = -1` gives the bytes `[0xFF, 0xFF]` and the
value 65535.  The same holds for int32 with `2^32`, where `v = -1` gives
`[0xFF, 0xFF, 0xFF, 0xFF]` and 4294967295. -/
theorem C5_signed_unsigned_same_bytes (c c' : ino_connection_t) (w w' : OS) (ret : Int)
    (hc : c.fd > -1) (hc' : c'.fd > -1) :
    (∀ v : Int, -32768 ≤ v → v < 32768 →
      ino_send_int16 (some c) v w ret = ino_send_uint16 (some c) (v % 2 ^ 16).toNat w ret ∧
      (ino_read_uint16 (some c') w'
        ⟨2, sent_bytes w (ino_send_int16 (some c) v w 2).2⟩).map Prod.fst =
          some (v % 2 ^ 16).toNat) ∧
    (sent_bytes w (ino_send_int16 (some c) (-1) w 2).2 = [255, 255] ∧
      (ino_read_uint16 (some c') w' ⟨2, [255, 255]⟩).map Prod.fst = some 65535) ∧
    (∀ v : Int, -2147483648 ≤ v → v < 2147483648 →
      ino_send_int32 (some c) v w ret = ino_send_uint32 (some c) (v % 2 ^ 32).toNat w ret ∧
      (ino_read_uint32 (some c') w'
        ⟨4, sent_bytes w (ino_send_int32 (some c) v w 4).2⟩).map Prod.fst =
          some (v % 2 ^ 32).toNat) ∧
    (sent_bytes w (ino_send_int32 (some c) (-1) w 4).2 = [255, 255, 255, 255] ∧
      (ino_read_uint32 (some c') w' ⟨4, [255, 255, 255, 255]⟩).map Prod.fst =
        some 4294967295) := by
  have k16 : ∀ v : Int, (v % 2 ^ 16).toNat = ino_int16_unsig v := fun v => rfl
  have k32 : ∀ v : Int, (v % 2 ^ 32).toNat = ino_int32_unsig v := fun v => rfl
  refine ⟨?_, ⟨?_, ?_⟩, ?_, ⟨?_, ?_⟩⟩
  · intro v _ _
    have hu := unsig16_lt v
    refine ⟨by rw [k16]; exact send_int16_open c w v ret hc, ?_⟩
    rw [send_int16_open c w v 2 hc, sent_bytes_uint16 c w _ hc, ino_read_uint16,
      read_body16_full c' w' _ _ hc' (by omega) (by omega), k16]
    have e : ino_int16_unsig v / 256 % 256 * 256 + ino_int16_unsig v % 256 =
        ino_int16_unsig v := by omega
    simp [e]
  · rw [send_int16_open c w _ 2 hc, sent_bytes_uint16 c w _ hc]; decide
  · rw [ino_read_uint16, read_body16_full c' w' _ _ hc' (by decide) (by decide)]; rfl
  · intro v _ _
    have hu := unsig32_lt v
    refine ⟨by rw [k32]; exact send_int32_open c w v ret hc, ?_⟩
    rw [send_int32_open c w v 4 hc, sent_bytes_uint32 c w _ hc, ino_read_uint32,
      read_body32_full c' w' _ _ _ _ hc' (by omega) (by omega) (by omega) (by omega), k32]
    have e : ino_int32_unsig v / 16777216 % 256 * 16777216 +
        ino_int32_unsig v / 65536 % 256 * 65536 + ino_int32_unsig v / 256 % 256 * 256 +
        ino_int32_unsig v % 256 = ino_int32_unsig v := by omega
    simp [e]
  · rw [send_int32_open c w _ 4 hc, sent_bytes_uint32 c w _ hc]; decide
  · rw [ino_read_uint32, read_body32_full c' w' _ _ _ _ hc' (by decide) (by decide)
      (by decide) (by decide)]; rfl

/-- Instance of C5: the value -1 on descriptor 3, in both widths. -/
theorem C5_signed_unsigned_same_bytes_witness :
    (ino_send_int16 (some example_cnx) (-1) example_os 2 =
        ino_send_uint16 (some example_cnx) ((-1 : Int) % 2 ^ 16).toNat example_os 2 ∧
      (ino_read_uint16 (some example_cnx) example_os
        ⟨2, sent_bytes example_os (ino_send_int16 (some example_cnx) (-1) example_os 2).2⟩).map
          Prod.fst = some ((-1 : Int) % 2 ^ 16).toNat) ∧
    (ino_send_int32 (some example_cnx) (-1) example_os 2 =
        ino_send_uint32 (some example_cnx) ((-1 : Int) % 2 ^ 32).toNat example_os 2 ∧
      (ino_read_uint32 (some example_cnx) example_os
        ⟨4, sent_bytes example_os (ino_send_int32 (some example_cnx) (-1) example_os 4).2⟩).map
          Prod.fst = some ((-1 : Int) % 2 ^ 32).toNat) :=
  ⟨(C5_signed_unsigned_same_bytes example_cnx example_cnx example_os example_os 2
      (by decide) (by decide)).1 (-1) (by decide) (by decide),
   (C5_signed_unsigned_same_bytes example_cnx example_cnx example_os example_os 2
      (by decide) (by decide)).2.2.1 (-1) (by decide) (by decide)⟩

/-! ## Arrays of integers -/

theorem store_bytes_full (buf data : List Nat) (h : data.length = buf.length) :
    store_bytes buf data = data := by
  simp [store_bytes, ← h]

theorem length_flatMap_group16 (vs : List Nat) :
    (vs.flatMap group16).length = 2 * vs.length := by
  induction vs with
  | nil => rfl
  | cons v vs ih => simp [List.flatMap_cons, group16, ih]; omega

theorem length_flatMap_group32 (vs : List Nat) :
    (vs.flatMap group32).length = 4 * vs.length := by
  induction vs with
  | nil => rfl
  | cons v vs ih => simp [List.flatMap_cons, group32, ih]; omega

theorem send_uint16_list_wire (c : ino_connection_t) (hc : c.fd > -1) (vs : List Nat)
    (hvs : ∀ v ∈ vs, v < 65536) :
    ∀ w : OS, (send_uint16_list c vs w).wire = w.wire ++ vs.flatMap group16 := by
  induction vs with
  | nil => intro w; simp [send_uint16_list]
  | cons v vs ih =>
    intro w
    have hv : v < 65536 := hvs v (List.mem_cons_self _ _)
    have e : v / 256 % 256 = v / 256 := by omega
    rw [send_uint16_list, ih (fun x hx => hvs x (List.mem_cons_of_mem _ hx)),
      send_uint16_open c w v 2 hc]
    simp [List.flatMap_cons, group16, e]

theorem send_uint32_list_wire (c : ino_connection_t) (hc : c.fd > -1) (vs : List Nat)
    (hvs : ∀ v ∈ vs, v < 4294967296) :
    ∀ w : OS, (send_uint32_list c vs w).wire = w.wire ++ vs.flatMap group32 := by
  induction vs with
  | nil => intro w; simp [send_uint32_list]
  | cons v vs ih =>
    intro w
    have hv : v < 4294967296 := hvs v (List.mem_cons_self _ _)
    have e : v / 16777216 % 256 = v / 16777216 := by omega
    rw [send_uint32_list, ih (fun x hx => hvs x (List.mem_cons_of_mem _ hx)),
      send_uint32_open c w v 4 hc]
    simp [List.flatMap_cons, group32, e]

theorem send_int16_list_eq (c : ino_connection_t) (hc : c.fd > -1) (vs : List Int) :
    ∀ w : OS, send_int16_list c vs w = send_uint16_list c (vs.map ino_int16_unsig) w := by
  induction vs with
  | nil => intro w; rfl
  | cons v vs ih =>
    intro w
    rw [send_int16_list, ih, send_int16_open c w v 2 hc]; rfl

theorem send_int32_list_eq (c : ino_connection_t) (hc : c.fd > -1) (vs : List Int) :
    ∀ w : OS, send_int32_list c vs w = send_uint32_list c (vs.map ino_int32_unsig) w := by
  induction vs with
  | nil => intro w; rfl
  | cons v vs ih =>
    intro w
    rw [send_int32_list, ih, send_int32_open c w v 4 hc]; rfl

theorem read_int16s_loop_groups {α : Type} (view : Nat → α) (n : Int) (vs : List Nat)
    (hvs : ∀ v ∈ vs, v < 65536) :
    ∀ (fpre fpost : List Nat) (pre post : List α) (fuel : Nat),
      n = ((fpre.length + 2 * vs.length : Nat) : Int) →
      vs.length ≤ fuel → vs.length ≤ post.length →
      read_int16s_loop view (fpre ++ (vs.flatMap group16 ++ fpost)) n fuel
          fpre.length pre.length (pre ++ post) =
        some (pre.length + vs.length, pre ++ (vs.map view ++ post.drop vs.length)) := by
  induction vs with
  | nil =>
    intro fpre fpost pre post fuel hn _ _
    subst hn
    cases fuel <;> simp [read_int16s_loop]
  | cons v vs ih =>
    intro fpre fpost pre post fuel hn hfuel hpost
    have hv : v < 65536 := hvs v (List.mem_cons_self _ _)
    obtain ⟨f, rfl⟩ : ∃ f, fuel = f + 1 := ⟨fuel - 1, by simp at hfuel; omega⟩
    obtain ⟨x, post', rfl⟩ : ∃ x post', post = x :: post' := by
      cases post with
      | nil => simp at hpost
      | cons x p => exact ⟨x, p, rfl⟩
    have hg : (fpre.length : Int) < n := by
      rw [hn]; exact_mod_cast (by simp : fpre.length < fpre.length + 2 * (v :: vs).length)
    have e0 : (fpre ++ ((v :: vs).flatMap group16 ++ fpost))[fpre.length]? = some (v / 256) := by
      rw [List.getElem?_append_right (le_refl _)]; simp [List.flatMap_cons, group16]
    have e1 : (fpre ++ ((v :: vs).flatMap group16 ++ fpost))[fpre.length + 1]? =
        some (v % 256) := by
      rw [List.getElem?_append_right (by omega)]; simp [List.flatMap_cons, group16]
    have ev : ((v / 256) <<< 8 % 65536) ||| (v % 256) = v := by
      rw [shl8_or16 _ _ (by omega)]; omega
    have hfr : fpre ++ ((v :: vs).flatMap group16 ++ fpost) =
        (fpre ++ group16 v) ++ (vs.flatMap group16 ++ fpost) := by
      simp [List.flatMap_cons]
    have hset : (pre ++ x :: post').set pre.length (view v) = (pre ++ [view v]) ++ post' := by
      simp
    have hi := ih (fun x hx => hvs x (List.mem_cons_of_mem _ hx)) (fpre ++ group16 v) fpost
      (pre ++ [view v]) post' f (by rw [hn]; simp [group16]; omega)
      (by simp at hfuel; omega) (by simp at hpost; omega)
    rw [read_int16s_loop, if_pos hg, e0, e1]
    simp only [Nat.zero_or, ev]
    rw [if_pos (by simp), hset, hfr]
    have hl1 : (fpre ++ group16 v).length = fpre.length + 2 := by simp [group16]
    have hl2 : (pre ++ [view v]).length = pre.length + 1 := by simp
    rw [hl1, hl2] at hi
    rw [hi]
    simp
    omega

theorem read_group32_at (fpre rest : List Nat) (b0 b1 b2 b3 : Nat)
    (h0 : b0 < 256) (h1 : b1 < 256) (h2 : b2 < 256) (h3 : b3 < 256) :
    read_group32 (fpre ++ (b0 :: b1 :: b2 :: b3 :: rest)) fpre.length =
      some (b0 * 16777216 + b1 * 65536 + b2 * 256 + b3) := by
  have g0 : (fpre ++ (b0 :: b1 :: b2 :: b3 :: rest))[fpre.length]? = some b0 := by
    rw [List.getElem?_append_right (le_refl _)]; simp
  have g1 : (fpre ++ (b0 :: b1 :: b2 :: b3 :: rest))[fpre.length + 1]? = some b1 := by
    rw [List.getElem?_append_right (by omega)]; simp
  have g2 : (fpre ++ (b0 :: b1 :: b2 :: b3 :: rest))[fpre.length + 2]? = some b2 := by
    rw [List.getElem?_append_right (by omega)]; simp
  have g3 : (fpre ++ (b0 :: b1 :: b2 :: b3 :: rest))[fpre.length + 3]? = some b3 := by
    rw [List.getElem?_append_right (by omega)]; simp
  have e1 : (b0 * 256) % 4294967296 = b0 * 256 := by omega
  have e2 : ((b0 * 256 + b1) * 256) % 4294967296 = (b0 * 256 + b1) * 256 := by omega
  have e3 : (((b0 * 256 + b1) * 256 + b2) * 256) % 4294967296 =
      ((b0 * 256 + b1) * 256 + b2) * 256 := by omega
  simp [read_group32, List.foldlM, g0, g1, g2, g3, shl8_or32, h0, h1, h2, h3, e1, e2, e3]
  ring

theorem read_int32s_loop_groups {α : Type} (view : Nat → α) (n : Int) (vs : List Nat)
    (hvs : ∀ v ∈ vs, v < 4294967296) :
    ∀ (fpre fpost : List Nat) (pre post : List α) (fuel : Nat),
      n = ((fpre.length + 4 * vs.length : Nat) : Int) →
      vs.length ≤ fuel → vs.length ≤ post.length →
      read_int32s_loop view (fpre ++ (vs.flatMap group32 ++ fpost)) n fuel
          fpre.length pre.length (pre ++ post) =
        some (pre.length + vs.length, pre ++ (vs.map view ++ post.drop vs.length)) := by
  induction vs with
  | nil =>
    intro fpre fpost pre post fuel hn _ _
    subst hn
    cases fuel <;> simp [read_int32s_loop]
  | cons v vs ih =>
    intro fpre fpost pre post fuel hn hfuel hpost
    have hv : v < 4294967296 := hvs v (List.mem_cons_self _ _)
    obtain ⟨f, rfl⟩ : ∃ f, fuel = f + 1 := ⟨fuel - 1, by simp at hfuel; omega⟩
    obtain ⟨x, post', rfl⟩ : ∃ x post', post = x :: post' := by
      cases post with
      | nil => simp at hpost
      | cons x p => exact ⟨x, p, rfl⟩
    have hg : (fpre.length : Int) < n := by
      rw [hn]; exact_mod_cast (by simp : fpre.length < fpre.length + 4 * (v :: vs).length)
    have eg : read_group32 (fpre ++ ((v :: vs).flatMap group32 ++ fpost)) fpre.length =
        some v := by
      have := read_group32_at fpre (vs.flatMap group32 ++ fpost) (v / 2 ^ 24)
        ((v / 2 ^ 16) % 256) ((v / 2 ^ 8) % 256) (v % 256) (by omega) (by omega) (by omega)
        (by omega)
      simp only [List.flatMap_cons, group32, List.cons_append, List.nil_append] at this ⊢
      rw [this]; congr 1; omega
    have hfr : fpre ++ ((v :: vs).flatMap group32 ++ fpost) =
        (fpre ++ group32 v) ++ (vs.flatMap group32 ++ fpost) := by
      simp [List.flatMap_cons]
    have hset : (pre ++ x :: post').set pre.length (view v) = (pre ++ [view v]) ++ post' := by
      simp
    have hi := ih (fun x hx => hvs x (List.mem_cons_of_mem _ hx)) (fpre ++ group32 v) fpost
      (pre ++ [view v]) post' f (by rw [hn]; simp [group32]; omega)
      (by simp at hfuel; omega) (by simp at hpost; omega)
    rw [read_int32s_loop, if_pos hg, eg]
    simp only []
    rw [if_pos (by simp), hset, hfr]
    have hl1 : (fpre ++ group32 v).length = fpre.length + 4 := by simp [group32]
    have hl2 : (pre ++ [view v]).length = pre.length + 1 := by simp
    rw [hl1, hl2] at hi
    rw [hi]
    simp
    omega

theorem read_ints_body_open {α : Type} (width : Nat)
    (loop : List Nat → Int → Nat → Nat → Nat → List α → Option (Nat × List α))
    (c : ino_connection_t) (hc : c.fd > -1) (int_buf : List α) (int_count : Nat) (w : OS)
    (data : List Nat) (hlen : data.length = int_count * width) (res : Nat × List α)
    (hloop : loop data ((int_count * width : Nat) : Int) (int_count * width) 0 0 int_buf =
      some res) :
    read_ints_body width loop (some c) int_buf int_count w
        ⟨((int_count * width : Nat) : Int), data⟩ =
      some ((res.1 : Int), res.2,
        { w with trace := w.trace ++ [SysCall.read c.fd ((int_count * width : Nat) : Int)] }) := by
  have hs : store_bytes (List.replicate (int_count * width) 0) data = data :=
    store_bytes_full _ _ (by simp [hlen])
  simp only [read_ints_body, hc, if_true, os_read, hs, Int.toNat_ofNat, hloop]

theorem array_roundtrip_uint16 (c c' : ino_connection_t) (w w' : OS)
    (hc : c.fd > -1) (hc' : c'.fd > -1) (vs : List Nat) (hvs : ∀ v ∈ vs, v < 65536)
    (int_buf : List Nat) (hbuf : vs.length ≤ int_buf.length) :
    sent_bytes w (send_uint16_list c vs w) = vs.flatMap group16 ∧
    (ino_read_uint16s (some c') int_buf vs.length w'
        ⟨((vs.length * 2 : Nat) : Int), sent_bytes w (send_uint16_list c vs w)⟩).map
          (fun r => (r.1, r.2.1)) =
      some ((vs.length : Int), vs ++ int_buf.drop vs.length) := by
  have hsent : sent_bytes w (send_uint16_list c vs w) = vs.flatMap group16 := by
    simp [sent_bytes, send_uint16_list_wire c hc vs hvs w]
  refine ⟨hsent, ?_⟩
  have hl := read_int16s_loop_groups id ((vs.length * 2 : Nat) : Int) vs hvs [] [] []
    int_buf (vs.length * 2) (by simp; omega) (by omega) hbuf
  simp only [List.nil_append, List.append_nil, List.length_nil, Nat.zero_add] at hl
  rw [hsent, ino_read_uint16s, read_ints_body_open 2 _ c' hc' int_buf vs.length w' _
    (by rw [length_flatMap_group16]; omega) _ hl]
  simp

theorem array_roundtrip_int16 (c c' : ino_connection_t) (w w' : OS)
    (hc : c.fd > -1) (hc' : c'.fd > -1) (vs : List Int)
    (hvs : ∀ v ∈ vs, -32768 ≤ v ∧ v < 32768)
    (int_buf : List Int) (hbuf : vs.length ≤ int_buf.length) :
    sent_bytes w (send_int16_list c vs w) = (vs.map ino_int16_unsig).flatMap group16 ∧
    (ino_read_int16s (some c') int_buf vs.length w'
        ⟨((vs.length * 2 : Nat) : Int), sent_bytes w (send_int16_list c vs w)⟩).map
          (fun r => (r.1, r.2.1)) =
      some ((vs.length : Int), vs ++ int_buf.drop vs.length) := by
  have hu : ∀ u ∈ vs.map ino_int16_unsig, u < 65536 := by
    intro u hu
    obtain ⟨v, _, rfl⟩ := List.mem_map.1 hu
    exact unsig16_lt v
  have hsent : sent_bytes w (send_int16_list c vs w) =
      (vs.map ino_int16_unsig).flatMap group16 := by
    simp [sent_bytes, send_int16_list_eq c hc vs w, send_uint16_list_wire c hc _ hu w]
  refine ⟨hsent, ?_⟩
  have hback : (vs.map ino_int16_unsig).map ino_int16_sig = vs := by
    rw [List.map_map]
    conv_rhs => rw [← List.map_id vs]
    exact List.map_congr_left (fun v hv => sig16_unsig16 v (hvs v hv).1 (hvs v hv).2)
  have hl := read_int16s_loop_groups ino_int16_sig ((vs.length * 2 : Nat) : Int)
    (vs.map ino_int16_unsig) hu [] [] [] int_buf (vs.length * 2) (by simp; omega)
    (by simp; omega) (by simpa using hbuf)
  simp only [List.nil_append, List.append_nil, List.length_nil, Nat.zero_add,
    List.length_map, hback] at hl
  rw [hsent, ino_read_int16s, read_ints_body_open 2 _ c' hc' int_buf vs.length w' _
    (by rw [length_flatMap_group16]; simp; omega) _ hl]
  simp

theorem array_roundtrip_uint32 (c c' : ino_connection_t) (w w' : OS)
    (hc : c.fd > -1) (hc' : c'.fd > -1) (vs : List Nat) (hvs : ∀ v ∈ vs, v < 4294967296)
    (int_buf : List Nat) (hbuf : vs.length ≤ int_buf.length) :
    sent_bytes w (send_uint32_list c vs w) = vs.flatMap group32 ∧
    (ino_read_uint32s (some c') int_buf vs.length w'
        ⟨((vs.length * 4 : Nat) : Int), sent_bytes w (send_uint32_list c vs w)⟩).map
          (fun r => (r.1, r.2.1)) =
      some ((vs.length : Int), vs ++ int_buf.drop vs.length) := by
  have hsent : sent_bytes w (send_uint32_list c vs w) = vs.flatMap group32 := by
    simp [sent_bytes, send_uint32_list_wire c hc vs hvs w]
  refine ⟨hsent, ?_⟩
  have hl := read_int32s_loop_groups id ((vs.length * 4 : Nat) : Int) vs hvs [] [] []
    int_buf (vs.length * 4) (by simp; omega) (by omega) hbuf
  simp only [List.nil_append, List.append_nil, List.length_nil, Nat.zero_add] at hl
  rw [hsent, ino_read_uint32s, read_ints_body_open 4 _ c' hc' int_buf vs.length w' _
    (by rw [length_flatMap_group32]; omega) _ hl]
  simp

theorem array_roundtrip_int32 (c c' : ino_connection_t) (w w' : OS)
    (hc : c.fd > -1) (hc' : c'.fd > -1) (vs : List Int)
    (hvs : ∀ v ∈ vs, -2147483648 ≤ v ∧ v < 2147483648)
    (int_buf : List Int) (hbuf : vs.length ≤ int_buf.length) :
    sent_bytes w (send_int32_list c vs w) = (vs.map ino_int32_unsig).flatMap group32 ∧
    (ino_read_int32s (some c') int_buf vs.length w'
        ⟨((vs.length * 4 : Nat) : Int), sent_bytes w (send_int32_list c vs w)⟩).map
          (fun r => (r.1, r.2.1)) =
      some ((vs.length : Int), vs ++ int_buf.drop vs.length) := by
  have hu : ∀ u ∈ vs.map ino_int32_unsig, u < 4294967296 := by
    intro u hu
    obtain ⟨v, _, rfl⟩ := List.mem_map.1 hu
    exact unsig32_lt v
  have hsent : sent_bytes w (send_int32_list c vs w) =
      (vs.map ino_int32_unsig).flatMap group32 := by
    simp [sent_bytes, send_int32_list_eq c hc vs w, send_uint32_list_wire c hc _ hu w]
  refine ⟨hsent, ?_⟩
  have hback : (vs.map ino_int32_unsig).map ino_int32_sig = vs := by
    rw [List.map_map]
    conv_rhs => rw [← List.map_id vs]
    exact List.map_congr_left (fun v hv => sig32_unsig32 v (hvs v hv).1 (hvs v hv).2)
  have hl := read_int32s_loop_groups ino_int32_sig ((vs.length * 4 : Nat) : Int)
    (vs.map ino_int32_unsig) hu [] [] [] int_buf (vs.length * 4) (by simp; omega)
    (by simp; omega) (by simpa using hbuf)
  simp only [List.nil_append, List.append_nil, List.length_nil, Nat.zero_add,
    List.length_map, hback] at hl
  rw [hsent, ino_read_int32s, read_ints_body_open 4 _ c' hc' int_buf vs.length w' _
    (by rw [length_flatMap_group32]; simp; omega) _ hl]
  simp

/-- C6: between open sessions, for every list of K uint16 values the bytes
put on the wire by K successive `ino_send_uint16` calls are the K 2-byte
big-endian groups of the values, one after the other with nothing in
between, and `ino_read_uint16s` with `int_count = K` over a device
delivering those 2K bytes returns K and stores the same values in the same
order at the start of the caller's buffer; 0xFF00 then 0x00FF gives the
wire bytes `[0xFF, 0x00, 0x00, 0xFF]`, which decode to `[0xFF00, 0x00FF]`.
The same holds for the int16, uint32 and int32 pairs with their widths. -/
theorem C6_array_roundtrip (c c' : ino_connection_t) (w w' : OS)
    (hc : c.fd > -1) (hc' : c'.fd > -1) :
    (∀ vs int_buf : List Nat, (∀ v ∈ vs, v < 65536) → vs.length ≤ int_buf.length →
      sent_bytes w (send_uint16_list c vs w) = vs.flatMap group16 ∧
      (ino_read_uint16s (some c') int_buf vs.length w'
          ⟨((vs.length * 2 : Nat) : Int), sent_bytes w (send_uint16_list c vs w)⟩).map
            (fun r => (r.1, r.2.1)) =
        some ((vs.length : Int), vs ++ int_buf.drop vs.length)) ∧
    (sent_bytes w (send_uint16_list c [0xFF00, 0x00FF] w) = [0xFF, 0x00, 0x00, 0xFF] ∧
      (ino_read_uint16s (some c') [0, 0] 2 w' ⟨4, [0xFF, 0x00, 0x00, 0xFF]⟩).map
          (fun r => (r.1, r.2.1)) = some (2, [0xFF00, 0x00FF])) ∧
    (∀ vs int_buf : List Int, (∀ v ∈ vs, -32768 ≤ v ∧ v < 32768) →
      vs.length ≤ int_buf.length →
      sent_bytes w (send_int16_list c vs w) = (vs.map ino_int16_unsig).flatMap group16 ∧
      (ino_read_int16s (some c') int_buf vs.length w'
          ⟨((vs.length * 2 : Nat) : Int), sent_bytes w (send_int16_list c vs w)⟩).map
            (fun r => (r.1, r.2.1)) =
        some ((vs.length : Int), vs ++ int_buf.drop vs.length)) ∧
    (∀ vs int_buf : List Nat, (∀ v ∈ vs, v < 4294967296) → vs.length ≤ int_buf.length →
      sent_bytes w (send_uint32_list c vs w) = vs.flatMap group32 ∧
      (ino_read_uint32s (some c') int_buf vs.length w'
          ⟨((vs.length * 4 : Nat) : Int), sent_bytes w (send_uint32_list c vs w)⟩).map
            (fun r => (r.1, r.2.1)) =
        some ((vs.length : Int), vs ++ int_buf.drop vs.length)) ∧
    (∀ vs int_buf : List Int, (∀ v ∈ vs, -2147483648 ≤ v ∧ v < 2147483648) →
      vs.length ≤ int_buf.length →
      sent_bytes w (send_int32_list c vs w) = (vs.map ino_int32_unsig).flatMap group32 ∧
      (ino_read_int32s (some c') int_buf vs.length w'
          ⟨((vs.length * 4 : Nat) : Int), sent_bytes w (send_int32_list c vs w)⟩).map
            (fun r => (r.1, r.2.1)) =
        some ((vs.length : Int), vs ++ int_buf.drop vs.length)) := by
  refine ⟨fun vs int_buf hvs hbuf => array_roundtrip_uint16 c c' w w' hc hc' vs hvs int_buf hbuf,
    ?_, fun vs int_buf hvs hbuf => array_roundtrip_int16 c c' w w' hc hc' vs hvs int_buf hbuf,
    fun vs int_buf hvs hbuf => array_roundtrip_uint32 c c' w w' hc hc' vs hvs int_buf hbuf,
    fun vs int_buf hvs hbuf => array_roundtrip_int32 c c' w w' hc hc' vs hvs int_buf hbuf⟩
  have h := array_roundtrip_uint16 c c' w w' hc hc' [0xFF00, 0x00FF] (by decide) [0, 0]
    (by decide)
  have e : [0xFF00, 0x00FF].flatMap group16 = [0xFF, 0x00, 0x00, 0xFF] := by decide
  rw [e] at h
  refine ⟨h.1, ?_⟩
  have h2 := h.2
  rw [h.1] at h2
  exact h2

/-- Instance of C6: two values of each kind sent and read back through
descriptor 3. -/
theorem C6_array_roundtrip_witness :
    (sent_bytes example_os (send_uint16_list example_cnx [65280, 255] example_os) =
        [65280, 255].flatMap group16 ∧
      (ino_read_uint16s (some example_cnx) [0, 0, 7] [65280, 255].length example_os
          ⟨(([65280, 255].length * 2 : Nat) : Int),
            sent_bytes example_os (send_uint16_list example_cnx [65280, 255] example_os)⟩).map
            (fun r => (r.1, r.2.1)) =
        some (([65280, 255].length : Int), [65280, 255] ++ [0, 0, 7].drop [65280, 255].length)) ∧
    (sent_bytes example_os (send_int32_list example_cnx [-2, 5] example_os) =
        ([-2, 5].map ino_int32_unsig).flatMap group32 ∧
      (ino_read_int32s (some example_cnx) [0, 0] [(-2 : Int), 5].length example_os
          ⟨(([(-2 : Int), 5].length * 4 : Nat) : Int),
            sent_bytes example_os (send_int32_list example_cnx [-2, 5] example_os)⟩).map
            (fun r => (r.1, r.2.1)) =
        some (([(-2 : Int), 5].length : Int), [-2, 5] ++ [0, 0].drop [(-2 : Int), 5].length)) :=
  ⟨(C6_array_roundtrip example_cnx example_cnx example_os example_os (by decide)
      (by decide)).1 [65280, 255] [0, 0, 7] (by decide) (by decide),
   (C6_array_roundtrip example_cnx example_cnx example_os example_os (by decide)
      (by decide)).2.2.2.2 [-2, 5] [0, 0] (by decide) (by decide)⟩

/-! ## Array reads over short transfers -/

theorem read_int16s_loop_started {α : Type} (view : Nat → α) (n : Int) (vs : List Nat)
    (hvs : ∀ v ∈ vs, v < 65536) :
    ∀ (fpre fpost : List Nat) (pre post : List α) (fuel : Nat),
      n ≤ ((fpre.length + 2 * vs.length : Nat) : Int) →
      (vs ≠ [] → ((fpre.length + 2 * vs.length : Nat) : Int) < n + 2) →
      vs.length ≤ fuel → vs.length ≤ post.length →
      read_int16s_loop view (fpre ++ (vs.flatMap group16 ++ fpost)) n fuel
          fpre.length pre.length (pre ++ post) =
        some (pre.length + vs.length, pre ++ (vs.map view ++ post.drop vs.length)) := by
  induction vs with
  | nil =>
    intro fpre fpost pre post fuel hn _ _ _
    have hg : ¬ ((fpre.length : Int) < n) := by simp at hn; omega
    cases fuel <;> simp [read_int16s_loop, hg]
  | cons v vs ih =>
    intro fpre fpost pre post fuel hn hn2 hfuel hpost
    have hv : v < 65536 := hvs v (List.mem_cons_self _ _)
    obtain ⟨f, rfl⟩ : ∃ f, fuel = f + 1 := ⟨fuel - 1, by simp at hfuel; omega⟩
    obtain ⟨x, post', rfl⟩ : ∃ x post', post = x :: post' := by
      cases post with
      | nil => simp at hpost
      | cons x p => exact ⟨x, p, rfl⟩
    have hn2' := hn2 (by simp)
    have hg : (fpre.length : Int) < n := by
      simp only [List.length_cons] at hn2'; push_cast at hn2'; omega
    have e0 : (fpre ++ ((v :: vs).flatMap group16 ++ fpost))[fpre.length]? = some (v / 256) := by
      rw [List.getElem?_append_right (le_refl _)]; simp [List.flatMap_cons, group16]
    have e1 : (fpre ++ ((v :: vs).flatMap group16 ++ fpost))[fpre.length + 1]? =
        some (v % 256) := by
      rw [List.getElem?_append_right (by omega)]; simp [List.flatMap_cons, group16]
    have ev : ((v / 256) <<< 8 % 65536) ||| (v % 256) = v := by
      rw [shl8_or16 _ _ (by omega)]; omega
    have hfr : fpre ++ ((v :: vs).flatMap group16 ++ fpost) =
        (fpre ++ group16 v) ++ (vs.flatMap group16 ++ fpost) := by
      simp [List.flatMap_cons]
    have hset : (pre ++ x :: post').set pre.length (view v) = (pre ++ [view v]) ++ post' := by
      simp
    have hl1 : (fpre ++ group16 v).length = fpre.length + 2 := by simp [group16]
    have hl2 : (pre ++ [view v]).length = pre.length + 1 := by simp
    have hi := ih (fun x hx => hvs x (List.mem_cons_of_mem _ hx)) (fpre ++ group16 v) fpost
      (pre ++ [view v]) post' f
      (by rw [hl1]; simp only [List.length_cons] at hn; push_cast at hn ⊢; omega)
      (by intro _; rw [hl1]; simp only [List.length_cons] at hn2'; push_cast at hn2' ⊢; omega)
      (by simp at hfuel; omega) (by simp at hpost; omega)
    rw [read_int16s_loop, if_pos hg, e0, e1]
    simp only [Nat.zero_or, ev]
    rw [if_pos (by simp), hset, hfr]
    rw [hl1, hl2] at hi
    rw [hi]
    simp
    omega

theorem exists_groups16 : ∀ (m : Nat) (l : List Nat), (∀ b ∈ l, b < 256) → 2 * m ≤ l.length →
    ∃ (vs rest : List Nat), vs.length = m ∧ (∀ v ∈ vs, v < 65536) ∧ l = vs.flatMap group16 ++ rest := by
  intro m
  induction m with
  | zero => intro l _ _; exact ⟨[], l, rfl, by simp, by simp⟩
  | succ m ih =>
    intro l hb hl
    match l, hb, hl with
    | [], _, hl => simp at hl
    | [_], _, hl => simp at hl; omega
    | b0 :: b1 :: l', hb, hl =>
      have h0 : b0 < 256 := hb b0 (by simp)
      have h1 : b1 < 256 := hb b1 (by simp)
      obtain ⟨vs, rest, hlen, hvs, hl'⟩ := ih l' (fun b hb' => hb b (by simp [hb']))
        (by simp at hl; omega)
      refine ⟨(b0 * 256 + b1) :: vs, rest, by simp [hlen], ?_, ?_⟩
      · intro v hv
        rcases List.mem_cons.1 hv with rfl | hv
        · omega
        · exact hvs v hv
      · have e0 : (b0 * 256 + b1) / 256 = b0 := by omega
        have e1 : (b0 * 256 + b1) % 256 = b1 := by omega
        simp [List.flatMap_cons, group16, e0, e1, hl']

/-- On an open session, for every answer `n ≤ 2 * int_count` of the read (the
delivered bytes being `data`, `n` of them when `n` is positive and none
otherwise) and a caller buffer of at least `int_count` integers, the 16-bit
array reads finish without a fault and return `(n + 1) / 2` rounded down,
that is the number of 2-byte groups that received at least one byte. -/
theorem read_int16s_count {α : Type} (view : Nat → α) (c : ino_connection_t)
    (hc : c.fd > -1) (int_buf : List α) (int_count : Nat) (w : OS) (n : Int)
    (data : List Nat) (hn : n ≤ ((int_count * 2 : Nat) : Int)) (hlen : data.length = n.toNat)
    (hb : ∀ b ∈ data, b < 256) (hbuf : int_count ≤ int_buf.length) :
    ∃ buf, read_ints_body 2 (read_int16s_loop view) (some c) int_buf int_count w ⟨n, data⟩ =
      some ((((n.toNat + 1) / 2 : Nat) : Int), buf,
        { w with trace := w.trace ++ [SysCall.read c.fd ((int_count * 2 : Nat) : Int)] }) := by
  have hfb : ∀ b ∈ store_bytes (List.replicate (int_count * 2) 0) data, b < 256 := by
    intro b hb'
    simp only [store_bytes, List.mem_append] at hb'
    rcases hb' with h | h
    · exact hb b (List.mem_of_mem_take h)
    · have := List.mem_of_mem_drop h
      simp at this; omega
  have hfl : (store_bytes (List.replicate (int_count * 2) 0) data).length = int_count * 2 := by
    simp [store_bytes]; omega
  obtain ⟨vs, rest, hvl, hvs, hfr⟩ := exists_groups16 ((n.toNat + 1) / 2) _ hfb
    (by rw [hfl]; omega)
  have hl := read_int16s_loop_started view n vs hvs [] rest [] int_buf n.toNat
    (by simp [hvl]; omega)
    (by intro hne
        have : vs.length ≠ 0 := by simpa using hne
        simp [hvl]; omega)
    (by omega) (by omega)
  simp only [List.nil_append, List.length_nil, Nat.zero_add] at hl
  refine ⟨vs.map view ++ int_buf.drop vs.length, ?_⟩
  simp only [read_ints_body, hc, if_true, os_read, hfr, hl, hvl]

theorem read_int32s_loop_started {α : Type} (view : Nat → α) (n : Int) (vs : List Nat)
    (hvs : ∀ v ∈ vs, v < 4294967296) :
    ∀ (fpre fpost : List Nat) (pre post : List α) (fuel : Nat),
      n ≤ ((fpre.length + 4 * vs.length : Nat) : Int) →
      (vs ≠ [] → ((fpre.length + 4 * vs.length : Nat) : Int) < n + 4) →
      vs.length ≤ fuel → vs.length ≤ post.length →
      read_int32s_loop view (fpre ++ (vs.flatMap group32 ++ fpost)) n fuel
          fpre.length pre.length (pre ++ post) =
        some (pre.length + vs.length, pre ++ (vs.map view ++ post.drop vs.length)) := by
  induction vs with
  | nil =>
    intro fpre fpost pre post fuel hn _ _ _
    have hg : ¬ ((fpre.length : Int) < n) := by simp at hn; omega
    cases fuel <;> simp [read_int32s_loop, hg]
  | cons v vs ih =>
    intro fpre fpost pre post fuel hn hn2 hfuel hpost
    have hv : v < 4294967296 := hvs v (List.mem_cons_self _ _)
    obtain ⟨f, rfl⟩ : ∃ f, fuel = f + 1 := ⟨fuel - 1, by simp at hfuel; omega⟩
    obtain ⟨x, post', rfl⟩ : ∃ x post', post = x :: post' := by
      cases post with
      | nil => simp at hpost
      | cons x p => exact ⟨x, p, rfl⟩
    have hn2' := hn2 (by simp)
    have hg : (fpre.length : Int) < n := by
      simp only [List.length_cons] at hn2'; push_cast at hn2'; omega
    have eg : read_group32 (fpre ++ ((v :: vs).flatMap group32 ++ fpost)) fpre.length =
        some v := by
      have := read_group32_at fpre (vs.flatMap group32 ++ fpost) (v / 2 ^ 24)
        ((v / 2 ^ 16) % 256) ((v / 2 ^ 8) % 256) (v % 256) (by omega) (by omega) (by omega)
        (by omega)
      simp only [List.flatMap_cons, group32, List.cons_append, List.nil_append] at this ⊢
      rw [this]; congr 1; omega
    have hfr : fpre ++ ((v :: vs).flatMap group32 ++ fpost) =
        (fpre ++ group32 v) ++ (vs.flatMap group32 ++ fpost) := by
      simp [List.flatMap_cons]
    have hset : (pre ++ x :: post').set pre.length (view v) = (pre ++ [view v]) ++ post' := by
      simp
    have hl1 : (fpre ++ group32 v).length = fpre.length + 4 := by simp [group32]
    have hl2 : (pre ++ [view v]).length = pre.length + 1 := by simp
    have hi := ih (fun x hx => hvs x (List.mem_cons_of_mem _ hx)) (fpre ++ group32 v) fpost
      (pre ++ [view v]) post' f
      (by rw [hl1]; simp only [List.length_cons] at hn; push_cast at hn ⊢; omega)
      (by intro _; rw [hl1]; simp only [List.length_cons] at hn2'; push_cast at hn2' ⊢; omega)
      (by simp at hfuel; omega) (by simp at hpost; omega)
    rw [read_int32s_loop, if_pos hg, eg]
    simp only []
    rw [if_pos (by simp), hset, hfr]
    rw [hl1, hl2] at hi
    rw [hi]
    simp
    omega

theorem exists_groups32 : ∀ (m : Nat) (l : List Nat), (∀ b ∈ l, b < 256) → 4 * m ≤ l.length →
    ∃ (vs rest : List Nat), vs.length = m ∧ (∀ v ∈ vs, v < 4294967296) ∧
      l = vs.flatMap group32 ++ rest := by
  intro m
  induction m with
  | zero => intro l _ _; exact ⟨[], l, rfl, by simp, by simp⟩
  | succ m ih =>
    intro l hb hl
    match l, hb, hl with
    | [], _, hl => simp at hl
    | [_], _, hl => simp at hl; omega
    | [_, _], _, hl => simp at hl; omega
    | [_, _, _], _, hl => simp at hl; omega
    | b0 :: b1 :: b2 :: b3 :: l', hb, hl =>
      have h0 : b0 < 256 := hb b0 (by simp)
      have h1 : b1 < 256 := hb b1 (by simp)
      have h2 : b2 < 256 := hb b2 (by simp)
      have h3 : b3 < 256 := hb b3 (by simp)
      obtain ⟨vs, rest, hlen, hvs, hl'⟩ := ih l' (fun b hb' => hb b (by simp [hb']))
        (by simp at hl; omega)
      refine ⟨(b0 * 16777216 + b1 * 65536 + b2 * 256 + b3) :: vs, rest, by simp [hlen], ?_, ?_⟩
      · intro v hv
        rcases List.mem_cons.1 hv with rfl | hv
        · omega
        · exact hvs v hv
      · have e0 : (b0 * 16777216 + b1 * 65536 + b2 * 256 + b3) / 16777216 = b0 := by omega
        have e1 : (b0 * 16777216 + b1 * 65536 + b2 * 256 + b3) / 65536 % 256 = b1 := by omega
        have e2 : (b0 * 16777216 + b1 * 65536 + b2 * 256 + b3) / 256 % 256 = b2 := by omega
        have e3 : (b0 * 16777216 + b1 * 65536 + b2 * 256 + b3) % 256 = b3 := by omega
        simp [List.flatMap_cons, group32, e0, e1, e2, e3, hl']

/-- On an open session, for every answer `n ≤ 4 * int_count` of the read (the
delivered bytes being `data`, `n` of them when `n` is positive and none
otherwise) and a caller buffer of at least `int_count` integers, the 32-bit
array reads finish without a fault and return `(n + 3) / 4` rounded down,
that is the number of 4-byte groups that received at least one byte. -/
theorem read_int32s_count {α : Type} (view : Nat → α) (c : ino_connection_t)
    (hc : c.fd > -1) (int_buf : List α) (int_count : Nat) (w : OS) (n : Int)
    (data : List Nat) (hn : n ≤ ((int_count * 4 : Nat) : Int)) (hlen : data.length = n.toNat)
    (hb : ∀ b ∈ data, b < 256) (hbuf : int_count ≤ int_buf.length) :
    ∃ buf, read_ints_body 4 (read_int32s_loop view) (some c) int_buf int_count w ⟨n, data⟩ =
      some ((((n.toNat + 3) / 4 : Nat) : Int), buf,
        { w with trace := w.trace ++ [SysCall.read c.fd ((int_count * 4 : Nat) : Int)] }) := by
  have hfb : ∀ b ∈ store_bytes (List.replicate (int_count * 4) 0) data, b < 256 := by
    intro b hb'
    simp only [store_bytes, List.mem_append] at hb'
    rcases hb' with h | h
    · exact hb b (List.mem_of_mem_take h)
    · have := List.mem_of_mem_drop h
      simp at this; omega
  have hfl : (store_bytes (List.replicate (int_count * 4) 0) data).length = int_count * 4 := by
    simp [store_bytes]; omega
  obtain ⟨vs, rest, hvl, hvs, hfr⟩ := exists_groups32 ((n.toNat + 3) / 4) _ hfb
    (by rw [hfl]; omega)
  have hl := read_int32s_loop_started view n vs hvs [] rest [] int_buf n.toNat
    (by simp [hvl]; omega)
    (by intro hne
        have : vs.length ≠ 0 := by simpa using hne
        simp [hvl]; omega)
    (by omega) (by omega)
  simp only [List.nil_append, List.length_nil, Nat.zero_add] at hl
  refine ⟨vs.map view ++ int_buf.drop vs.length, ?_⟩
  simp only [read_ints_body, hc, if_true, os_read, hfr, hl, hvl]

/-- C7 (the code at a short transfer): with `int_count = 2`, a transfer of 3
bytes makes `ino_read_int16s` and `ino_read_uint16s` return 2, the second
stored value being the odd byte followed by a zero byte, and a transfer of
5 bytes makes `ino_read_int32s` and `ino_read_uint32s` return 2; the number
of integers fully decoded is 1 in each case. -/
theorem C7_short_transfer_count :
    (ino_read_int16s (some example_cnx) [0, 0] 2 example_os ⟨3, [0x12, 0x34, 0x56]⟩).map
        (fun r => (r.1, r.2.1)) = some (2, [0x1234, 0x5600]) ∧
    (ino_read_uint16s (some example_cnx) [0, 0] 2 example_os ⟨3, [0x12, 0x34, 0x56]⟩).map
        (fun r => (r.1, r.2.1)) = some (2, [0x1234, 0x5600]) ∧
    (ino_read_int32s (some example_cnx) [0, 0] 2 example_os
        ⟨5, [0x01, 0x02, 0x03, 0x04, 0x05]⟩).map
        (fun r => (r.1, r.2.1)) = some (2, [0x01020304, 0x05000000]) ∧
    (ino_read_uint32s (some example_cnx) [0, 0] 2 example_os
        ⟨5, [0x01, 0x02, 0x03, 0x04, 0x05]⟩).map
        (fun r => (r.1, r.2.1)) = some (2, [0x01020304, 0x05000000]) := by
  decide

/-! ## Session lifecycle -/

theorem ino_close_struct_open (c : ino_connection_t) (w : OS) (hc : c.fd > -1) :
    ino_close_struct c w = ((os_close w (-1)).2, { c with fd := -1 }, (os_close w (-1)).1) := by
  simp [ino_close_struct, hc]

theorem ino_close_struct_closed (c : ino_connection_t) (w : OS) (hc : ¬ c.fd > -1) :
    ino_close_struct c w = (0, c, w) := by
  simp [ino_close_struct, hc]

theorem os_close_minus_one (w : OS) (h : (-1 : Int) ∉ w.live) :
    os_close w (-1) = ({ w with trace := w.trace ++ [SysCall.close (-1)] }, -1) := by
  simp [os_close, h]

/-- C8 (the code on an open session): the first `ino_close` on the session
holding descriptor 3 calls `close(-1)`, which the operating system rejects,
and returns -1; the second returns 0; `ino_is_open` is 0 after each. -/
theorem C8_close_open_session :
    (ino_close (some example_cnx) example_os).1 = -1 ∧
    ino_is_open (ino_close (some example_cnx) example_os).2.1 = 0 ∧
    (ino_close (some example_cnx) example_os).2.2.trace = [SysCall.close (-1)] ∧
    (ino_close (ino_close (some example_cnx) example_os).2.1
      (ino_close (some example_cnx) example_os).2.2).1 = 0 ∧
    ino_is_open (ino_close (ino_close (some example_cnx) example_os).2.1
      (ino_close (some example_cnx) example_os).2.2).2.1 = 0 := by
  decide

/-- C9 (the code at a reopen): `ino_open` on the session holding descriptor
3, the operating system handing out descriptor 4, succeeds with the session
holding 4; the only `close` call made received -1, and both 3 and 4 are
still un-released afterwards. -/
theorem C9_reopen_leaks_descriptor :
    (ino_open (some example_cnx) example_os 4 example_termios 0).1 = 0 ∧
    (ino_open (some example_cnx) example_os 4 example_termios 0).2.1 =
      some { example_cnx with fd := 4 } ∧
    (ino_open (some example_cnx) example_os 4 example_termios 0).2.2.trace.filter
      (fun s => match s with
        | SysCall.close _ => true
        | _ => false) = [SysCall.close (-1)] ∧
    (ino_open (some example_cnx) example_os 4 example_termios 0).2.2.live = [4, 3] := by
  decide

/-- C10 (the code on the three paths): on the session holding descriptor 3,
`ino_close` and `ino_connection_destroy` each make the single call
`close(-1)` and leave 3 un-released; `ino_open` on the closed session, the
operating system handing out 4 and `tcsetattr` answering -1, ends with the
call `close(-1)` and leaves 4 un-released. -/
theorem C10_release_paths_pass_minus_one :
    ((ino_close (some example_cnx) example_os).2.2.trace = [SysCall.close (-1)] ∧
      (ino_close (some example_cnx) example_os).2.2.live = [3]) ∧
    ((ino_connection_destroy (some example_cnx) example_os).trace = [SysCall.close (-1)] ∧
      (ino_connection_destroy (some example_cnx) example_os).live = [3]) ∧
    ((ino_open (some example_closed_cnx) { example_os with live := [] } 4 example_termios
        (-1)).1 = -1 ∧
      (ino_open (some example_closed_cnx) { example_os with live := [] } 4 example_termios
        (-1)).2.2.trace.filter
          (fun s => match s with
            | SysCall.close _ => true
            | _ => false) = [SysCall.close (-1)] ∧
      (ino_open (some example_closed_cnx) { example_os with live := [] } 4 example_termios
        (-1)).2.2.live = [4]) := by
  decide

/-! ## Opening a session -/

theorem ino_open_acquire_fails (c : ino_connection_t) (w : OS) (open_ret : Int) (cur : termios)
    (tcset_ret : Int) (h : open_ret < 0) :
    (ino_open (some c) w open_ret cur tcset_ret).1 = -1 ∧
    ∃ c', (ino_open (some c) w open_ret cur tcset_ret).2.1 = some c' ∧ c'.fd = open_ret := by
  have h' : ¬ (open_ret ≥ 0) := by omega
  simp only [ino_open]
  by_cases hc : c.fd > -1 <;> simp [hc, os_open, h']

theorem ino_open_commit_fails (c : ino_connection_t) (w : OS) (open_ret : Int) (cur : termios)
    (h : 0 ≤ open_ret) :
    (ino_open (some c) w open_ret cur (-1)).1 = -1 ∧
    ∃ c', (ino_open (some c) w open_ret cur (-1)).2.1 = some c' ∧ c'.fd = -1 := by
  have h1 : open_ret > -1 := by omega
  simp only [ino_open]
  by_cases hc : c.fd > -1 <;>
    simp [hc, os_open, h, os_usleep, os_tcgetattr, os_tcsetattr, ino_close_struct, h1]

theorem ino_open_commit_ok (c : ino_connection_t) (w : OS) (open_ret : Int) (cur : termios)
    (tcset_ret : Int) (h : 0 ≤ open_ret) (ht : tcset_ret ≠ -1) :
    (ino_open (some c) w open_ret cur tcset_ret).1 = tcset_ret ∧
    ∃ c', (ino_open (some c) w open_ret cur tcset_ret).2.1 = some c' ∧ c'.fd = open_ret := by
  simp only [ino_open]
  by_cases hc : c.fd > -1 <;>
    simp [hc, os_open, h, os_usleep, os_tcgetattr, os_tcsetattr, ht]

/-- C11: if the operating system's `open` fails (a negative answer), or it
succeeds and `tcsetattr` fails (answer -1), `ino_open` returns -1 and
`ino_is_open` is 0 afterwards; `ino_open` on a NULL session returns -1. -/
theorem C11_open_failure (c : ino_connection_t) (w : OS) (open_ret : Int) (cur : termios)
    (tcset_ret : Int) :
    (open_ret < 0 →
      (ino_open (some c) w open_ret cur tcset_ret).1 = -1 ∧
      ino_is_open (ino_open (some c) w open_ret cur tcset_ret).2.1 = 0) ∧
    (0 ≤ open_ret → tcset_ret = -1 →
      (ino_open (some c) w open_ret cur tcset_ret).1 = -1 ∧
      ino_is_open (ino_open (some c) w open_ret cur tcset_ret).2.1 = 0) ∧
    (ino_open none w open_ret cur tcset_ret).1 = -1 := by
  refine ⟨?_, ?_, rfl⟩
  · intro h
    obtain ⟨h1, c', h2, h3⟩ := ino_open_acquire_fails c w open_ret cur tcset_ret h
    refine ⟨h1, ?_⟩
    rw [h2]
    have : ¬ c'.fd > -1 := by omega
    simp [ino_is_open, this]
  · intro h ht
    subst ht
    obtain ⟨h1, c', h2, h3⟩ := ino_open_commit_fails c w open_ret cur h
    refine ⟨h1, ?_⟩
    rw [h2]
    simp [ino_is_open, h3]

/-- Instance of C11: `open` answering -1 on the closed example session, and
`open` answering 4 with `tcsetattr` answering -1 on the open one. -/
theorem C11_open_failure_witness :
    ((ino_open (some example_closed_cnx) example_os (-1) example_termios 0).1 = -1 ∧
      ino_is_open (ino_open (some example_closed_cnx) example_os (-1) example_termios 0).2.1
        = 0) ∧
    ((ino_open (some example_cnx) example_os 4 example_termios (-1)).1 = -1 ∧
      ino_is_open (ino_open (some example_cnx) example_os 4 example_termios (-1)).2.1 = 0) :=
  ⟨(C11_open_failure example_closed_cnx example_os (-1) example_termios 0).1 (by decide),
   (C11_open_failure example_cnx example_os 4 example_termios (-1)).2.1 (by decide) rfl⟩

/-- C12: for every non-NULL session, when `tcsetattr` answers 0 or -1,
`ino_open` returns 0 exactly when `ino_is_open` is 1 afterwards, in that
case the session holds the descriptor `open` returned, and in every other
case `ino_open` returns -1. -/
theorem C12_open_result (c : ino_connection_t) (w : OS) (open_ret : Int) (cur : termios)
    (tcset_ret : Int) (ht : tcset_ret = 0 ∨ tcset_ret = -1) :
    ((ino_open (some c) w open_ret cur tcset_ret).1 = 0 ↔
      ino_is_open (ino_open (some c) w open_ret cur tcset_ret).2.1 = 1) ∧
    ((ino_open (some c) w open_ret cur tcset_ret).1 = 0 →
      (ino_open (some c) w open_ret cur tcset_ret).2.1.map ino_connection_t.fd =
        some open_ret) ∧
    ((ino_open (some c) w open_ret cur tcset_ret).1 ≠ 0 →
      (ino_open (some c) w open_ret cur tcset_ret).1 = -1) := by
  by_cases ho : open_ret < 0
  · obtain ⟨h1, c', h2, h3⟩ := ino_open_acquire_fails c w open_ret cur tcset_ret ho
    have : ¬ c'.fd > -1 := by omega
    rw [h1, h2]
    simp [ino_is_open, this]
  · have ho' : 0 ≤ open_ret := by omega
    rcases ht with ht | ht
    · subst ht
      obtain ⟨h1, c', h2, h3⟩ := ino_open_commit_ok c w open_ret cur 0 ho' (by decide)
      have : c'.fd > -1 := by omega
      rw [h1, h2]
      simp [ino_is_open, this, h3]
      omega
    · subst ht
      obtain ⟨h1, c', h2, h3⟩ := ino_open_commit_fails c w open_ret cur ho'
      rw [h1, h2]
      simp [ino_is_open, h3]

/-- Instance of C12: the closed example session opened with descriptor 4 and
`tcsetattr` answering 0. -/
theorem C12_open_result_witness :
    ((ino_open (some example_closed_cnx) example_os 4 example_termios 0).1 = 0 ↔
      ino_is_open (ino_open (some example_closed_cnx) example_os 4 example_termios 0).2.1
        = 1) ∧
    ((ino_open (some example_closed_cnx) example_os 4 example_termios 0).1 = 0 →
      (ino_open (some example_closed_cnx) example_os 4 example_termios 0).2.1.map
        ino_connection_t.fd = some 4) ∧
    ((ino_open (some example_closed_cnx) example_os 4 example_termios 0).1 ≠ 0 →
      (ino_open (some example_closed_cnx) example_os 4 example_termios 0).1 = -1) :=
  C12_open_result example_closed_cnx example_os 4 example_termios 0 (Or.inl rfl)

/-! ## Configuration fields are never written after construction -/

theorem ino_close_struct_frame (c : ino_connection_t) (w : OS) :
    ∃ fd', (ino_close_struct c w).2.1 = { c with fd := fd' } := by
  by_cases hc : c.fd > -1
  · exact ⟨-1, by simp [ino_close_struct, hc]⟩
  · exact ⟨c.fd, by simp [ino_close_struct, hc]⟩

theorem ino_close_frame (cnx : Option ino_connection_t) (w : OS) (c : ino_connection_t)
    (fd0 : Int) (h : cnx = some { c with fd := fd0 }) :
    ∃ fd', (ino_close cnx w).2.1 = some { c with fd := fd' } := by
  subst h
  obtain ⟨fd', h⟩ := ino_close_struct_frame { c with fd := fd0 } w
  exact ⟨fd', by simp [ino_close, h]⟩

theorem ino_open_frame (cnx : Option ino_connection_t) (w : OS) (open_ret : Int)
    (cur : termios) (tcset_ret : Int) (c : ino_connection_t)
    (fd0 : Int) (h : cnx = some { c with fd := fd0 }) :
    ∃ fd', (ino_open cnx w open_ret cur tcset_ret).2.1 = some { c with fd := fd' } := by
  subst h
  by_cases ho : open_ret < 0
  · obtain ⟨_, c', h2, _⟩ :=
      ino_open_acquire_fails { c with fd := fd0 } w open_ret cur tcset_ret ho
    refine ⟨open_ret, ?_⟩
    have ho' : ¬ (open_ret ≥ 0) := by omega
    simp only [ino_open]
    by_cases hc : fd0 > -1 <;> simp [hc, os_open, ho', ino_close_struct]
  · have ho' : open_ret ≥ 0 := by omega
    by_cases ht : tcset_ret = -1
    · refine ⟨-1, ?_⟩
      have h1 : open_ret > -1 := by omega
      subst ht
      simp only [ino_open]
      by_cases hc : fd0 > -1 <;>
        simp [hc, os_open, ho', os_usleep, os_tcgetattr, os_tcsetattr, ino_close_struct, h1]
    · refine ⟨open_ret, ?_⟩
      simp only [ino_open]
      by_cases hc : fd0 > -1 <;>
        simp [hc, os_open, ho', os_usleep, os_tcgetattr, os_tcsetattr, ino_close_struct, ht]

theorem run_lifecycle_frame (c : ino_connection_t) (calls : List LifecycleCall) :
    ∀ (cnx : Option ino_connection_t) (w : OS) (fd0 : Int), cnx = some { c with fd := fd0 } →
      ∃ fd', (run_lifecycle cnx w calls).1 = some { c with fd := fd' } := by
  induction calls with
  | nil => intro cnx w fd0 h; exact ⟨fd0, by simp [run_lifecycle, h]⟩
  | cons call rest ih =>
    intro cnx w fd0 h
    cases call with
    | open_call open_ret cur tcset_ret =>
      obtain ⟨fd1, h1⟩ := ino_open_frame cnx w open_ret cur tcset_ret c fd0 h
      exact ih _ _ fd1 h1
    | close_call =>
      obtain ⟨fd1, h1⟩ := ino_close_frame cnx w c fd0 h
      exact ih _ _ fd1 h1

/-- C13: `ino_open` and `ino_close` write no field of the session but `fd`:
after any run of `ino_open` / `ino_close` calls, whatever the operating
system answers, the session built by `ino_connection_new` or
`ino_connection_raw` (and any other session) still has the `port`, `baud`,
`connect_wait`, `raw`, `raw_size` and `raw_timeout` it was constructed with. -/
theorem C13_lifecycle_keeps_config (calls : List LifecycleCall) (w : OS) :
    (∀ (port : String) (baud connect_wait : Int),
      ∃ fd', (run_lifecycle (ino_connection_new port baud connect_wait) w calls).1 =
        some { port := port, baud := baud, connect_wait := connect_wait,
               raw := 0, raw_size := 0, raw_timeout := 0, fd := fd' }) ∧
    (∀ (port : String) (baud connect_wait frame_size_bytes read_timeout : Int),
      ∃ fd', (run_lifecycle
          (ino_connection_raw port baud connect_wait frame_size_bytes read_timeout) w calls).1 =
        some { port := port, baud := baud, connect_wait := connect_wait,
               raw := 1, raw_size := frame_size_bytes, raw_timeout := read_timeout,
               fd := fd' }) ∧
    (∀ c : ino_connection_t,
      ∃ fd', (run_lifecycle (some c) w calls).1 = some { c with fd := fd' }) := by
  refine ⟨?_, ?_, ?_⟩
  · intro port baud connect_wait
    exact run_lifecycle_frame
      { port := port, baud := baud, connect_wait := connect_wait,
        raw := 0, raw_size := 0, raw_timeout := 0, fd := -1 } calls _ w (-1) rfl
  · intro port baud connect_wait frame_size_bytes read_timeout
    exact run_lifecycle_frame
      { port := port, baud := baud, connect_wait := connect_wait,
        raw := 1, raw_size := frame_size_bytes, raw_timeout := read_timeout, fd := -1 }
      calls _ w (-1) rfl
  · intro c
    exact run_lifecycle_frame c calls _ w c.fd rfl

/-! ## Transfers on a closed session -/

theorem closed_cases (cnx : Option ino_connection_t) (h : ino_is_open cnx = 0) :
    cnx = none ∨ ∃ c, cnx = some c ∧ ¬ c.fd > -1 := by
  cases cnx with
  | none => exact Or.inl rfl
  | some c =>
    refine Or.inr ⟨c, rfl, ?_⟩
    intro hc
    simp [ino_is_open, hc] at h

/-- C14: on a closed or NULL session (`ino_is_open` is 0) no read or write
reaches the operating system and the caller's buffers are left as they
were: `ino_read`, `ino_read_raw` and `ino_send_char` return -1, the four
single integer reads return 0 and the four array reads return 0. -/
theorem C14_closed_session_sentinels (cnx : Option ino_connection_t)
    (hclosed : ino_is_open cnx = 0) (w : OS) (r : ReadReply) (buf : List Nat) (count : Int)
    (ch : Nat) (write_ret : Int) (sbuf : List Int) (ubuf : List Nat) (int_count : Nat) :
    ino_read cnx buf count w r = some (-1, buf, w) ∧
    ino_read_raw cnx buf count w r = (-1, buf, w) ∧
    ino_send_char cnx ch w write_ret = (-1, w) ∧
    ino_read_int16 cnx w r = some (0, w) ∧
    ino_read_uint16 cnx w r = some (0, w) ∧
    ino_read_int32 cnx w r = some (0, w) ∧
    ino_read_uint32 cnx w r = some (0, w) ∧
    ino_read_int16s cnx sbuf int_count w r = some (0, sbuf, w) ∧
    ino_read_uint16s cnx ubuf int_count w r = some (0, ubuf, w) ∧
    ino_read_int32s cnx sbuf int_count w r = some (0, sbuf, w) ∧
    ino_read_uint32s cnx ubuf int_count w r = some (0, ubuf, w) := by
  rcases closed_cases cnx hclosed with rfl | ⟨c, rfl, hc⟩
  · simp [ino_read, ino_read_raw, ino_send_char, ino_read_int16, ino_read_uint16,
      ino_read_int32, ino_read_uint32, ino_read_int16s, ino_read_uint16s, ino_read_int32s,
      ino_read_uint32s, read_int_body, read_ints_body, ino_int16_sig, ino_int32_sig]
  · simp [ino_read, ino_read_raw, ino_send_char, ino_read_int16, ino_read_uint16,
      ino_read_int32, ino_read_uint32, ino_read_int16s, ino_read_uint16s, ino_read_int32s,
      ino_read_uint32s, read_int_body, read_ints_body, ino_int16_sig, ino_int32_sig, hc]

/-- Instance of C14: the closed example session. -/
theorem C14_closed_session_sentinels_witness :
    ino_read (some example_closed_cnx) [65, 66] 2 example_os ⟨2, [1, 2]⟩ =
      some (-1, [65, 66], example_os) ∧
    ino_read_raw (some example_closed_cnx) [65, 66] 2 example_os ⟨2, [1, 2]⟩ =
      (-1, [65, 66], example_os) ∧
    ino_send_char (some example_closed_cnx) 65 example_os 1 = (-1, example_os) ∧
    ino_read_int16 (some example_closed_cnx) example_os ⟨2, [1, 2]⟩ = some (0, example_os) ∧
    ino_read_uint16 (some example_closed_cnx) example_os ⟨2, [1, 2]⟩ = some (0, example_os) ∧
    ino_read_int32 (some example_closed_cnx) example_os ⟨2, [1, 2]⟩ = some (0, example_os) ∧
    ino_read_uint32 (some example_closed_cnx) example_os ⟨2, [1, 2]⟩ = some (0, example_os) ∧
    ino_read_int16s (some example_closed_cnx) [7, 8] 1 example_os ⟨2, [1, 2]⟩ =
      some (0, [7, 8], example_os) ∧
    ino_read_uint16s (some example_closed_cnx) [7, 8] 1 example_os ⟨2, [1, 2]⟩ =
      some (0, [7, 8], example_os) ∧
    ino_read_int32s (some example_closed_cnx) [7, 8] 1 example_os ⟨2, [1, 2]⟩ =
      some (0, [7, 8], example_os) ∧
    ino_read_uint32s (some example_closed_cnx) [7, 8] 1 example_os ⟨2, [1, 2]⟩ =
      some (0, [7, 8], example_os) :=
  C14_closed_session_sentinels (some example_closed_cnx) (by decide) example_os ⟨2, [1, 2]⟩
    [65, 66] 2 65 1 [7, 8] [7, 8] 1

/-- C15 (the code on a closed session): on the closed example session and on
the NULL session `ino_send_raw`, `ino_send_int16`, `ino_send_uint16`,
`ino_send_int32` and `ino_send_uint32` return 0, whereas `ino_read_raw`
returns -1. -/
theorem C15_closed_sends_return_zero :
    ((ino_send_raw (some example_closed_cnx) [1, 2] 2 example_os 2).1 = 0 ∧
      (ino_send_int16 (some example_closed_cnx) 5 example_os 2).1 = 0 ∧
      (ino_send_uint16 (some example_closed_cnx) 5 example_os 2).1 = 0 ∧
      (ino_send_int32 (some example_closed_cnx) 5 example_os 4).1 = 0 ∧
      (ino_send_uint32 (some example_closed_cnx) 5 example_os 4).1 = 0 ∧
      (ino_read_raw (some example_closed_cnx) [0, 0] 2 example_os ⟨2, [1, 2]⟩).1 = -1) ∧
    ((ino_send_raw none [1, 2] 2 example_os 2).1 = 0 ∧
      (ino_send_int16 none 5 example_os 2).1 = 0 ∧
      (ino_send_uint16 none 5 example_os 2).1 = 0 ∧
      (ino_send_int32 none 5 example_os 4).1 = 0 ∧
      (ino_send_uint32 none 5 example_os 4).1 = 0 ∧
      (ino_read_raw none [0, 0] 2 example_os ⟨2, [1, 2]⟩).1 = -1) := by
  decide

/-! ## One request per call on an open session -/

/-- C16: on an open session every transfer is one request whose answer is
returned as it is, whatever it is: `ino_read_raw` makes exactly one `read`
call for `frame_size_bytes` bytes and returns its answer, `ino_send_raw`
exactly one `write` call with the given buffer and length, `ino_send_int16`
and `ino_send_uint16` exactly one `write` call of 2 bytes, `ino_send_int32`
and `ino_send_uint32` exactly one `write` call of 4 bytes, each returning
the answer of the call. -/
theorem C16_single_attempt (c : ino_connection_t) (hc : c.fd > -1) (w : OS) (r : ReadReply)
    (buf : List Nat) (count : Int) (write_ret : Int) (sv : Int) (uv : Nat) :
    ((ino_read_raw (some c) buf count w r).1 = r.n ∧
      (ino_read_raw (some c) buf count w r).2.2.trace =
        w.trace ++ [SysCall.read c.fd count]) ∧
    ((ino_send_raw (some c) buf count w write_ret).1 = write_ret ∧
      (ino_send_raw (some c) buf count w write_ret).2.trace =
        w.trace ++ [SysCall.write c.fd buf count]) ∧
    ((ino_send_int16 (some c) sv w write_ret).1 = write_ret ∧
      ∃ b0 b1, (ino_send_int16 (some c) sv w write_ret).2.trace =
        w.trace ++ [SysCall.write c.fd [b0, b1] 2]) ∧
    ((ino_send_uint16 (some c) uv w write_ret).1 = write_ret ∧
      ∃ b0 b1, (ino_send_uint16 (some c) uv w write_ret).2.trace =
        w.trace ++ [SysCall.write c.fd [b0, b1] 2]) ∧
    ((ino_send_int32 (some c) sv w write_ret).1 = write_ret ∧
      ∃ b0 b1 b2 b3, (ino_send_int32 (some c) sv w write_ret).2.trace =
        w.trace ++ [SysCall.write c.fd [b0, b1, b2, b3] 4]) ∧
    ((ino_send_uint32 (some c) uv w write_ret).1 = write_ret ∧
      ∃ b0 b1 b2 b3, (ino_send_uint32 (some c) uv w write_ret).2.trace =
        w.trace ++ [SysCall.write c.fd [b0, b1, b2, b3] 4]) := by
  refine ⟨?_, ?_, ?_, ?_, ?_, ?_⟩
  · simp [ino_read_raw, hc, os_read]
  · simp [ino_send_raw, hc, os_write]
  · rw [send_int16_open c w sv write_ret hc, send_uint16_open c w _ write_ret hc]
    exact ⟨rfl, _, _, rfl⟩
  · rw [send_uint16_open c w uv write_ret hc]
    exact ⟨rfl, _, _, rfl⟩
  · rw [send_int32_open c w sv write_ret hc, send_uint32_open c w _ write_ret hc]
    exact ⟨rfl, _, _, _, _, rfl⟩
  · rw [send_uint32_open c w uv write_ret hc]
    exact ⟨rfl, _, _, _, _, rfl⟩

/-- Instance of C16: the open example session, a read answered with 1 byte
of 2 and writes answered with -1. -/
theorem C16_single_attempt_witness :
    ((ino_read_raw (some example_cnx) [0, 0] 2 example_os ⟨1, [9]⟩).1 = 1 ∧
      (ino_read_raw (some example_cnx) [0, 0] 2 example_os ⟨1, [9]⟩).2.2.trace =
        example_os.trace ++ [SysCall.read example_cnx.fd 2]) ∧
    ((ino_send_raw (some example_cnx) [0, 0] 2 example_os (-1)).1 = -1 ∧
      (ino_send_raw (some example_cnx) [0, 0] 2 example_os (-1)).2.trace =
        example_os.trace ++ [SysCall.write example_cnx.fd [0, 0] 2]) :=
  ⟨(C16_single_attempt example_cnx (by decide) example_os ⟨1, [9]⟩ [0, 0] 2 (-1) 5 5).1,
   (C16_single_attempt example_cnx (by decide) example_os ⟨1, [9]⟩ [0, 0] 2 (-1) 5 5).2.1⟩

/-- C17: on an open session `ino_send_char` makes exactly one `write` call,
of the 1 byte given, and returns 1 when the call answers 1 and -1 when it
answers less than 1; it never returns 0. -/
theorem C17_send_char (c : ino_connection_t) (hc : c.fd > -1) (w : OS) (ch : Nat)
    (write_ret : Int) :
    (ino_send_char (some c) ch w write_ret).2.trace =
      w.trace ++ [SysCall.write c.fd [ch] 1] ∧
    (write_ret = 1 → (ino_send_char (some c) ch w write_ret).1 = 1) ∧
    (write_ret < 1 → (ino_send_char (some c) ch w write_ret).1 = -1) ∧
    (ino_send_char (some c) ch w write_ret).1 ≠ 0 := by
  refine ⟨by simp [ino_send_char, hc, os_write], ?_, ?_, ?_⟩
  · intro h; subst h; simp [ino_send_char, hc, os_write]
  · intro h; simp [ino_send_char, hc, os_write, h]
  · simp only [ino_send_char, hc, if_true, os_write]
    split <;> omega

/-- Instance of C17: the character 'A' on the open example session, the
write answering 0. -/
theorem C17_send_char_witness :
    (ino_send_char (some example_cnx) 65 example_os 0).2.trace =
      example_os.trace ++ [SysCall.write example_cnx.fd [65] 1] ∧
    ((0 : Int) = 1 → (ino_send_char (some example_cnx) 65 example_os 0).1 = 1) ∧
    ((0 : Int) < 1 → (ino_send_char (some example_cnx) 65 example_os 0).1 = -1) ∧
    (ino_send_char (some example_cnx) 65 example_os 0).1 ≠ 0 :=
  C17_send_char example_cnx (by decide) example_os 65 0

/-! ## Text reads -/

theorem strlen_append_zero (l1 l2 : List Nat) : strlen (l1 ++ 0 :: l2) ≤ l1.length := by
  induction l1 with
  | nil => simp [strlen]
  | cons a l ih =>
    unfold strlen at ih ⊢
    rw [List.cons_append, List.takeWhile_cons]
    split
    · simp only [List.length_cons]; omega
    · simp

theorem store_bytes_short (buf data : List Nat) (h : data.length ≤ buf.length) :
    store_bytes buf data = data ++ buf.drop data.length := by
  simp [store_bytes, List.take_of_length_le h]

theorem ino_read_open (c : ino_connection_t) (hc : c.fd > -1) (w : OS) (buf data : List Nat)
    (max_bytes : Int) (h : data.length < buf.length) :
    ino_read (some c) buf max_bytes w ⟨(data.length : Int), data⟩ =
      some ((data.length : Int), data ++ 0 :: buf.drop (data.length + 1),
        { w with trace := w.trace ++ [SysCall.read c.fd max_bytes] }) := by
  have hs := store_bytes_short buf data (by omega)
  have hl : (data ++ List.drop data.length buf).length = buf.length := by simp; omega
  have hd : List.drop data.length buf = buf[data.length] :: List.drop (data.length + 1) buf :=
    List.drop_eq_getElem_cons h
  simp only [ino_read, hc, if_true, os_read, hs, Int.toNat_ofNat, hl, h, and_true,
    Int.natCast_nonneg]
  rw [List.set_append_right _ _ (le_refl _), Nat.sub_self, hd, List.set_cons_zero]

/-- C18: on an open session whose single read of at most `max_bytes` bytes
delivers `n` bytes with `0 ≤ n < max_bytes`, the caller's buffer holding at
least `max_bytes` bytes, `ino_read` makes that one `read` call, returns `n`,
leaves the delivered bytes in the first `n` places of the buffer and a zero
byte at index `n`, so that the string in the buffer has length at most `n`. -/
theorem C18_read_terminates_string (c : ino_connection_t) (hc : c.fd > -1) (w : OS)
    (buf data : List Nat) (max_bytes : Int) (hn : (data.length : Int) < max_bytes)
    (hbuf : max_bytes ≤ (buf.length : Int)) :
    ∃ buf' w', ino_read (some c) buf max_bytes w ⟨(data.length : Int), data⟩ =
        some ((data.length : Int), buf', w') ∧
      buf'.take data.length = data ∧
      buf'[data.length]? = some 0 ∧
      buf'.length = buf.length ∧
      strlen buf' ≤ data.length ∧
      w'.trace = w.trace ++ [SysCall.read c.fd max_bytes] := by
  have h : data.length < buf.length := by omega
  refine ⟨_, _, ino_read_open c hc w buf data max_bytes h, ?_, ?_, ?_, ?_, rfl⟩
  · simp
  · rw [List.getElem?_append_right (le_refl _)]; simp
  · simp; omega
  · exact strlen_append_zero _ _

/-- Instance of C18: the line "OK" and a line feed read into a buffer of 8
bytes on the open example session. -/
theorem C18_read_terminates_string_witness :
    ∃ buf' w', ino_read (some example_cnx) [1, 2, 3, 4, 5, 6, 7, 8] 8 example_os
          ⟨(([79, 75, 10] : List Nat).length : Int), [79, 75, 10]⟩ =
        some ((([79, 75, 10] : List Nat).length : Int), buf', w') ∧
      buf'.take ([79, 75, 10] : List Nat).length = [79, 75, 10] ∧
      buf'[([79, 75, 10] : List Nat).length]? = some 0 ∧
      buf'.length = ([1, 2, 3, 4, 5, 6, 7, 8] : List Nat).length ∧
      strlen buf' ≤ ([79, 75, 10] : List Nat).length ∧
      w'.trace = example_os.trace ++ [SysCall.read example_cnx.fd 8] :=
  C18_read_terminates_string example_cnx (by decide) example_os [1, 2, 3, 4, 5, 6, 7, 8]
    [79, 75, 10] 8 (by decide) (by decide)

/-! ## Host and device side by side -/

theorem uint16_of_int_byte (b : Nat) (h : b < 256) : Arduino.uint16_of_int (b : Int) = b := by
  unfold Arduino.uint16_of_int; omega

theorem uint32_of_int_byte (b : Nat) (h : b < 256) : Arduino.uint32_of_int (b : Int) = b := by
  unfold Arduino.uint32_of_int; omega

theorem device_send_uint16_tx (n : Nat) (s : Arduino.Serial) :
    (Arduino.ino_send_uint16 n s).tx = s.tx ++ [(n / 256) % 256, n % 256] := by
  simp [Arduino.ino_send_uint16, Arduino.Serial.write, Arduino.highByte, Arduino.lowByte,
    and_255, shr8]

theorem device_send32_tx (u : Nat) (s : Arduino.Serial) :
    (Arduino.send32_body u s).tx =
      s.tx ++ [(u / 16777216) % 256, (u / 65536) % 256, (u / 256) % 256, u % 256] := by
  have e : u &&& 0xFFFF = u % 65536 := Nat.and_pow_two_sub_one_eq_mod u 16
  have e1 : u / 65536 % 65536 / 256 % 256 = u / 16777216 % 256 := by omega
  have e2 : u / 65536 % 65536 % 256 = u / 65536 % 256 := by omega
  have e3 : u % 65536 / 256 % 256 = u / 256 % 256 := by omega
  have e4 : u % 65536 % 256 = u % 256 := by omega
  simp [Arduino.send32_body, Arduino.Serial.write, Arduino.highByte, Arduino.lowByte,
    and_255, shr8, shr16, e, e1, e2, e3, e4]

theorem device_read16_full (b0 b1 : Nat) (rest tx : List Nat) (h0 : b0 < 256) (h1 : b1 < 256) :
    Arduino.read16_body ⟨b0 :: b1 :: rest, tx⟩ = (b0 * 256 + b1, ⟨rest, tx⟩) := by
  have e : (b0 * 256) % 65536 = b0 * 256 := by omega
  simp [Arduino.read16_body, Arduino.Serial.read, uint16_of_int_byte, h0, h1, shl8_or16, e]

theorem device_read32_full (b0 b1 b2 b3 : Nat) (rest tx : List Nat)
    (h0 : b0 < 256) (h1 : b1 < 256) (h2 : b2 < 256) (h3 : b3 < 256) :
    Arduino.read32_loop 4 0 ⟨b0 :: b1 :: b2 :: b3 :: rest, tx⟩ =
      (b0 * 16777216 + b1 * 65536 + b2 * 256 + b3, ⟨rest, tx⟩) := by
  have e1 : (b0 * 256) % 4294967296 = b0 * 256 := by omega
  have e2 : ((b0 * 256 + b1) * 256) % 4294967296 = (b0 * 256 + b1) * 256 := by omega
  have e3 : (((b0 * 256 + b1) * 256 + b2) * 256) % 4294967296 =
      ((b0 * 256 + b1) * 256 + b2) * 256 := by omega
  simp [Arduino.read32_loop, Arduino.Serial.read, uint32_of_int_byte, h0, h1, h2, h3,
    shl8_or32, e1, e2, e3]
  ring

/-- C19: host and device agree on full frames.  For every value the device
functions `ino_send_int16`, `ino_send_uint16`, `ino_send_int32` and
`ino_send_uint32` append to the serial output exactly the bytes the host
function of the same name puts on the wire (on an open session, the write
accepted whole), and with 2 (4) bytes available the device functions
`ino_read_int16`, `ino_read_uint16` (`ino_read_int32`, `ino_read_uint32`)
return what the host function of the same name returns when its read
delivers those bytes. -/
theorem C19_host_device_full_frames (c : ino_connection_t) (hc : c.fd > -1) (w : OS)
    (s : Arduino.Serial) :
    (∀ v : Int, (Arduino.ino_send_int16 v s).tx =
      s.tx ++ sent_bytes w (ino_send_int16 (some c) v w 2).2) ∧
    (∀ v : Nat, (Arduino.ino_send_uint16 v s).tx =
      s.tx ++ sent_bytes w (ino_send_uint16 (some c) v w 2).2) ∧
    (∀ v : Int, (Arduino.ino_send_int32 v s).tx =
      s.tx ++ sent_bytes w (ino_send_int32 (some c) v w 4).2) ∧
    (∀ v : Nat, (Arduino.ino_send_uint32 v s).tx =
      s.tx ++ sent_bytes w (ino_send_uint32 (some c) v w 4).2) ∧
    (∀ b0 b1 : Nat, b0 < 256 → b1 < 256 → ∀ rest tx : List Nat,
      (ino_read_int16 (some c) w ⟨2, [b0, b1]⟩).map Prod.fst =
        some (Arduino.ino_read_int16 ⟨b0 :: b1 :: rest, tx⟩).1 ∧
      (ino_read_uint16 (some c) w ⟨2, [b0, b1]⟩).map Prod.fst =
        some (Arduino.ino_read_uint16 ⟨b0 :: b1 :: rest, tx⟩).1) ∧
    (∀ b0 b1 b2 b3 : Nat, b0 < 256 → b1 < 256 → b2 < 256 → b3 < 256 →
      ∀ rest tx : List Nat,
      (ino_read_int32 (some c) w ⟨4, [b0, b1, b2, b3]⟩).map Prod.fst =
        some (Arduino.ino_read_int32 ⟨b0 :: b1 :: b2 :: b3 :: rest, tx⟩).1 ∧
      (ino_read_uint32 (some c) w ⟨4, [b0, b1, b2, b3]⟩).map Prod.fst =
        some (Arduino.ino_read_uint32 ⟨b0 :: b1 :: b2 :: b3 :: rest, tx⟩).1) := by
  refine ⟨?_, ?_, ?_, ?_, ?_, ?_⟩
  · intro v
    rw [send_int16_open c w v 2 hc, sent_bytes_uint16 c w _ hc]
    exact device_send_uint16_tx _ s
  · intro v
    rw [sent_bytes_uint16 c w _ hc]
    exact device_send_uint16_tx _ s
  · intro v
    rw [send_int32_open c w v 4 hc, sent_bytes_uint32 c w _ hc]
    exact device_send32_tx _ s
  · intro v
    rw [sent_bytes_uint32 c w _ hc]
    exact device_send32_tx _ s
  · intro b0 b1 h0 h1 rest tx
    simp [ino_read_int16, ino_read_uint16, read_body16_full c w b0 b1 hc h0 h1,
      Arduino.ino_read_int16, Arduino.ino_read_uint16, device_read16_full b0 b1 rest tx h0 h1]
  · intro b0 b1 b2 b3 h0 h1 h2 h3 rest tx
    simp [ino_read_int32, ino_read_uint32, read_body32_full c w b0 b1 b2 b3 hc h0 h1 h2 h3,
      Arduino.ino_read_int32, Arduino.ino_read_uint32,
      device_read32_full b0 b1 b2 b3 rest tx h0 h1 h2 h3]

/-- Instance of C19: -2 sent as int16 and the bytes 0xFF, 0xFE, 0x01, 0x02
read as 32-bit integers, on the open example session and an idle device. -/
theorem C19_host_device_full_frames_witness :
    (Arduino.ino_send_int16 (-2) ⟨[], []⟩).tx =
      ([] : List Nat) ++
        sent_bytes example_os (ino_send_int16 (some example_cnx) (-2) example_os 2).2 ∧
    ((ino_read_int32 (some example_cnx) example_os ⟨4, [255, 254, 1, 2]⟩).map Prod.fst =
        some (Arduino.ino_read_int32 ⟨255 :: 254 :: 1 :: 2 :: [], []⟩).1 ∧
      (ino_read_uint32 (some example_cnx) example_os ⟨4, [255, 254, 1, 2]⟩).map Prod.fst =
        some (Arduino.ino_read_uint32 ⟨255 :: 254 :: 1 :: 2 :: [], []⟩).1) :=
  ⟨(C19_host_device_full_frames example_cnx (by decide) example_os ⟨[], []⟩).1 (-2),
   (C19_host_device_full_frames example_cnx (by decide) example_os ⟨[], []⟩).2.2.2.2.2
      255 254 1 2 (by decide) (by decide) (by decide) (by decide) [] []⟩

/-! ## Short reads, host and device -/

/-- C20 (as stated, refuted): with the single byte 0x12 available the host
`ino_read_uint16` returns 0x12 and the device `ino_read_uint16` returns
65535; with the bytes 0x01, 0x02, 0x03 available the host `ino_read_uint32`
returns 0x010203 and the device `ino_read_uint32` returns 4294967295. -/
theorem C20_short_read_counterexample :
    (ino_read_uint16 (some example_cnx) example_os ⟨1, [0x12]⟩).map Prod.fst = some 0x12 ∧
    (Arduino.ino_read_uint16 ⟨[0x12], []⟩).1 = 65535 ∧
    (ino_read_uint16 (some example_cnx) example_os ⟨1, [0x12]⟩).map Prod.fst ≠
      some (Arduino.ino_read_uint16 ⟨[0x12], []⟩).1 ∧
    (ino_read_uint32 (some example_cnx) example_os ⟨3, [0x01, 0x02, 0x03]⟩).map Prod.fst =
      some 0x010203 ∧
    (Arduino.ino_read_uint32 ⟨[0x01, 0x02, 0x03], []⟩).1 = 4294967295 ∧
    (ino_read_uint32 (some example_cnx) example_os ⟨3, [0x01, 0x02, 0x03]⟩).map Prod.fst ≠
      some (Arduino.ino_read_uint32 ⟨[0x01, 0x02, 0x03], []⟩).1 := by
  decide

theorem uint16_of_int_neg_one : Arduino.uint16_of_int (-1) = 65535 := by decide

theorem uint32_of_int_neg_one : Arduino.uint32_of_int (-1) = 4294967295 := by decide

theorem or_65535 (a : Nat) (h : a < 65536) : a ||| 65535 = 65535 := by
  apply Nat.eq_of_testBit_eq
  intro i
  rw [Nat.testBit_or]
  by_cases hi : i < 16
  · have : Nat.testBit 65535 i = true := by
      have := Nat.testBit_two_pow_sub_one 16 i
      simpa [hi] using this
    simp [this]
  · have h1 : Nat.testBit 65535 i = false := by
      have := Nat.testBit_two_pow_sub_one 16 i
      simpa [hi] using this
    have h2 : Nat.testBit a i = false := by
      apply Nat.testBit_lt_two_pow
      calc a < 2 ^ 16 := h
        _ ≤ 2 ^ i := Nat.pow_le_pow_right (by decide) (by omega)
    simp [h1, h2]

theorem or_4294967295 (a : Nat) (h : a < 4294967296) : a ||| 4294967295 = 4294967295 := by
  apply Nat.eq_of_testBit_eq
  intro i
  rw [Nat.testBit_or]
  by_cases hi : i < 32
  · have : Nat.testBit 4294967295 i = true := by
      have := Nat.testBit_two_pow_sub_one 32 i
      simpa [hi] using this
    simp [this]
  · have h1 : Nat.testBit 4294967295 i = false := by
      have := Nat.testBit_two_pow_sub_one 32 i
      simpa [hi] using this
    have h2 : Nat.testBit a i = false := by
      apply Nat.testBit_lt_two_pow
      calc a < 2 ^ 32 := h
        _ ≤ 2 ^ i := Nat.pow_le_pow_right (by decide) (by omega)
    simp [h1, h2]

theorem device_read32_no_data (tx : List Nat) :
    ∀ (k u : Nat), (Arduino.read32_loop (k + 1) u ⟨[], tx⟩) = (4294967295, ⟨[], tx⟩) := by
  intro k
  induction k with
  | zero =>
    intro u
    simp [Arduino.read32_loop, Arduino.Serial.read, uint32_of_int_neg_one,
      or_4294967295 _ (Nat.mod_lt _ (by decide))]
  | succ k ih =>
    intro u
    rw [Arduino.read32_loop]
    simp only [Arduino.Serial.read]
    exact ih _

theorem device_read32_short (tx : List Nat) (data : List Nat) :
    ∀ (k u : Nat), data.length < k → (Arduino.read32_loop k u ⟨data, tx⟩).1 = 4294967295 := by
  induction data with
  | nil =>
    intro k u hk
    obtain ⟨j, rfl⟩ : ∃ j, k = j + 1 := ⟨k - 1, by simp at hk; omega⟩
    rw [device_read32_no_data tx j u]
  | cons b rest ih =>
    intro k u hk
    obtain ⟨j, rfl⟩ : ∃ j, k = j + 1 := ⟨k - 1, by simp at hk; omega⟩
    rw [Arduino.read32_loop]
    simp only [Arduino.Serial.read]
    exact ih j _ (by simp at hk; omega)

theorem device_read16_short (tx : List Nat) (data : List Nat) (h : data.length < 2) :
    (Arduino.read16_body ⟨data, tx⟩).1 = 65535 := by
  match data, h with
  | [], _ => simp [Arduino.read16_body, Arduino.Serial.read, uint16_of_int_neg_one]
  | [b0], _ =>
    simp [Arduino.read16_body, Arduino.Serial.read, uint16_of_int_neg_one,
      or_65535 _ (Nat.mod_lt _ (by decide))]
  | _ :: _ :: _, h => simp at h; omega

theorem host_read16_short (c : ino_connection_t) (hc : c.fd > -1) (w : OS) (data : List Nat)
    (hb : ∀ b ∈ data, b < 256) (h : data.length < 2) :
    read_int_body 2 65536 (some c) w ⟨(data.length : Int), data⟩ =
      some (data.foldl (fun a b => a * 256 + b) 0,
        { w with trace := w.trace ++ [SysCall.read c.fd 2] }) ∧
    data.foldl (fun a b => a * 256 + b) 0 < 256 := by
  match data, hb, h with
  | [], _, _ => simp [read_int_body, hc, os_read, store_bytes, read_int_loop]
  | [b0], hb, _ =>
    have h0 : b0 < 256 := hb b0 (by simp)
    simp [read_int_body, hc, os_read, store_bytes, read_int_loop, h0]
  | _ :: _ :: _, _, h => simp at h; omega

theorem host_read32_short (c : ino_connection_t) (hc : c.fd > -1) (w : OS) (data : List Nat)
    (hb : ∀ b ∈ data, b < 256) (h : data.length < 4) :
    read_int_body 4 4294967296 (some c) w ⟨(data.length : Int), data⟩ =
      some (data.foldl (fun a b => a * 256 + b) 0,
        { w with trace := w.trace ++ [SysCall.read c.fd 4] }) ∧
    data.foldl (fun a b => a * 256 + b) 0 < 16777216 := by
  match data, hb, h with
  | [], _, _ => simp [read_int_body, hc, os_read, store_bytes, read_int_loop]
  | [b0], hb, _ =>
    have h0 : b0 < 256 := hb b0 (by simp)
    refine ⟨?_, by simp; omega⟩
    simp [read_int_body, hc, os_read, store_bytes, read_int_loop]
  | [b0, b1], hb, _ =>
    have h0 : b0 < 256 := hb b0 (by simp)
    have h1 : b1 < 256 := hb b1 (by simp)
    have e1 : (b0 * 256) % 4294967296 = b0 * 256 := by omega
    refine ⟨?_, by simp; omega⟩
    simp [read_int_body, hc, os_read, store_bytes, read_int_loop, shl8_or32, h1, e1]
  | [b0, b1, b2], hb, _ =>
    have h0 : b0 < 256 := hb b0 (by simp)
    have h1 : b1 < 256 := hb b1 (by simp)
    have h2 : b2 < 256 := hb b2 (by simp)
    have e1 : (b0 * 256) % 4294967296 = b0 * 256 := by omega
    have e2 : ((b0 * 256 + b1) * 256) % 4294967296 = (b0 * 256 + b1) * 256 := by omega
    refine ⟨?_, by simp; omega⟩
    simp [read_int_body, hc, os_read, store_bytes, read_int_loop, shl8_or32, h1, h2, e1, e2]
  | _ :: _ :: _ :: _ :: _, _, h => simp at h; omega

/-- C20 (amended): when only `m < 2` bytes are available, the host
`ino_read_uint16`, its read delivering those `m` bytes, returns their
big-endian fold (0 for no byte, the byte itself for one byte), a value below
256, whereas the device `ino_read_uint16`, whose `Serial.read` yields those
bytes and then the no-data value -1, returns 65535; likewise with `m < 4`
bytes the host `ino_read_uint32` returns the big-endian fold of the bytes,
a value below 2^24, and the device `ino_read_uint32` returns 4294967295.
Host and device therefore differ on every short read. -/
theorem C20_short_read_host_and_device (c : ino_connection_t) (hc : c.fd > -1) (w : OS)
    (data tx : List Nat) (hb : ∀ b ∈ data, b < 256) :
    (data.length < 2 →
      (ino_read_uint16 (some c) w ⟨(data.length : Int), data⟩).map Prod.fst =
        some (data.foldl (fun a b => a * 256 + b) 0) ∧
      data.foldl (fun a b => a * 256 + b) 0 < 256 ∧
      (Arduino.ino_read_uint16 ⟨data, tx⟩).1 = 65535 ∧
      (ino_read_uint16 (some c) w ⟨(data.length : Int), data⟩).map Prod.fst ≠
        some (Arduino.ino_read_uint16 ⟨data, tx⟩).1) ∧
    (data.length < 4 →
      (ino_read_uint32 (some c) w ⟨(data.length : Int), data⟩).map Prod.fst =
        some (data.foldl (fun a b => a * 256 + b) 0) ∧
      data.foldl (fun a b => a * 256 + b) 0 < 2 ^ 24 ∧
      (Arduino.ino_read_uint32 ⟨data, tx⟩).1 = 4294967295 ∧
      (ino_read_uint32 (some c) w ⟨(data.length : Int), data⟩).map Prod.fst ≠
        some (Arduino.ino_read_uint32 ⟨data, tx⟩).1) := by
  constructor
  · intro h
    obtain ⟨h1, h2⟩ := host_read16_short c hc w data hb h
    have h3 : (Arduino.ino_read_uint16 ⟨data, tx⟩).1 = 65535 := device_read16_short tx data h
    refine ⟨by rw [ino_read_uint16, h1]; rfl, h2, h3, ?_⟩
    rw [ino_read_uint16, h1, h3]
    simp only [Option.map_some', ne_eq, Option.some.injEq]
    omega
  · intro h
    obtain ⟨h1, h2⟩ := host_read32_short c hc w data hb h
    have h3 : (Arduino.ino_read_uint32 ⟨data, tx⟩).1 = 4294967295 :=
      device_read32_short tx data 4 0 h
    refine ⟨by rw [ino_read_uint32, h1]; rfl, by norm_num; exact h2, h3, ?_⟩
    rw [ino_read_uint32, h1, h3]
    simp only [Option.map_some', ne_eq, Option.some.injEq]
    omega

/-- Instance of C20 (amended): the single byte 0x12 on the open example
session and on an idle device. -/
theorem C20_short_read_host_and_device_witness :
    (ino_read_uint16 (some example_cnx) example_os
        ⟨(([0x12] : List Nat).length : Int), [0x12]⟩).map Prod.fst =
      some (([0x12] : List Nat).foldl (fun a b => a * 256 + b) 0) ∧
    ([0x12] : List Nat).foldl (fun a b => a * 256 + b) 0 < 256 ∧
    (Arduino.ino_read_uint16 ⟨[0x12], []⟩).1 = 65535 ∧
    (ino_read_uint16 (some example_cnx) example_os
        ⟨(([0x12] : List Nat).length : Int), [0x12]⟩).map Prod.fst ≠
      some (Arduino.ino_read_uint16 ⟨[0x12], []⟩).1 :=
  (C20_short_read_host_and_device example_cnx (by decide) example_os [0x12] [] (by decide)).1
    (by decide)

/-! ## Construction -/

/-- C23: `ino_connection_new` yields a closed session (`fd = -1`,
`ino_is_open` 0) with `raw = 0`, `raw_size = 0` and `raw_timeout = 0`;
`ino_connection_raw` yields a closed session with `raw = 1`,
`raw_size = frame_size_bytes` and `raw_timeout = read_timeout`; both store
`port`, `baud` and `connect_wait` as given.  Neither takes part in any
operating system call: they are functions of their arguments alone. -/
theorem C23_constructors (port : String)
    (baud connect_wait frame_size_bytes read_timeout : Int) :
    ino_connection_new port baud connect_wait =
      some { port := port, baud := baud, connect_wait := connect_wait,
             raw := 0, raw_size := 0, raw_timeout := 0, fd := -1 } ∧
    ino_is_open (ino_connection_new port baud connect_wait) = 0 ∧
    ino_connection_raw port baud connect_wait frame_size_bytes read_timeout =
      some { port := port, baud := baud, connect_wait := connect_wait,
             raw := 1, raw_size := frame_size_bytes, raw_timeout := read_timeout,
             fd := -1 } ∧
    ino_is_open (ino_connection_raw port baud connect_wait frame_size_bytes read_timeout) =
      0 := by
  refine ⟨rfl, ?_, rfl, ?_⟩ <;> simp [ino_connection_new, ino_connection_raw, ino_is_open]

/-! ## The handle field over the life of a session -/

theorem ino_open_fd_ge (c : ino_connection_t) (w : OS) (open_ret : Int) (cur : termios)
    (tcset_ret : Int) (h : -1 ≤ open_ret) :
    ∃ c', (ino_open (some c) w open_ret cur tcset_ret).2.1 = some c' ∧ -1 ≤ c'.fd := by
  by_cases ho : open_ret < 0
  · obtain ⟨_, c', h2, h3⟩ := ino_open_acquire_fails c w open_ret cur tcset_ret ho
    exact ⟨c', h2, by omega⟩
  · by_cases ht : tcset_ret = -1
    · subst ht
      obtain ⟨_, c', h2, h3⟩ := ino_open_commit_fails c w open_ret cur (by omega)
      exact ⟨c', h2, by omega⟩
    · obtain ⟨_, c', h2, h3⟩ := ino_open_commit_ok c w open_ret cur tcset_ret (by omega) ht
      exact ⟨c', h2, by omega⟩

theorem ino_close_fd_ge (c : ino_connection_t) (w : OS) (h : -1 ≤ c.fd) :
    ∃ c', (ino_close (some c) w).2.1 = some c' ∧ -1 ≤ c'.fd := by
  by_cases hc : c.fd > -1
  · exact ⟨{ c with fd := -1 }, by simp [ino_close, ino_close_struct, hc], by simp⟩
  · exact ⟨c, by simp [ino_close, ino_close_struct, hc], h⟩

theorem run_lifecycle_fd_ge (calls : List LifecycleCall) :
    ∀ (c : ino_connection_t) (w : OS), -1 ≤ c.fd →
      (∀ o cur t, LifecycleCall.open_call o cur t ∈ calls → -1 ≤ o) →
      ∃ c', (run_lifecycle (some c) w calls).1 = some c' ∧ -1 ≤ c'.fd := by
  induction calls with
  | nil => intro c w h _; exact ⟨c, rfl, h⟩
  | cons call rest ih =>
    intro c w h hcalls
    have hrest : ∀ o cur t, LifecycleCall.open_call o cur t ∈ rest → -1 ≤ o :=
      fun o cur t hm => hcalls o cur t (List.mem_cons_of_mem _ hm)
    cases call with
    | open_call open_ret cur tcset_ret =>
      obtain ⟨c1, h1, h2⟩ := ino_open_fd_ge c w open_ret cur tcset_ret
        (hcalls open_ret cur tcset_ret (List.mem_cons_self _ _))
      simp only [run_lifecycle, h1]
      exact ih c1 _ h2 hrest
    | close_call =>
      obtain ⟨c1, h1, h2⟩ := ino_close_fd_ge c w h
      simp only [run_lifecycle, h1]
      exact ih c1 _ h2 hrest

theorem ino_is_open_iff (c : ino_connection_t) (h : -1 ≤ c.fd) :
    (ino_is_open (some c) = 1 ↔ 0 ≤ c.fd) ∧ (ino_is_open (some c) = 0 ↔ c.fd = -1) := by
  by_cases hc : c.fd > -1
  · simp [ino_is_open, hc]; omega
  · simp [ino_is_open, hc]; omega

/-- C30: in every state reached from `ino_connection_new` or
`ino_connection_raw` by a run of `ino_open` and `ino_close` calls in which
every answer of the operating system's `open` is -1 or a non-negative
descriptor, the field `fd` is at least -1, `ino_is_open` returns 1 exactly
when `fd ≥ 0` and 0 exactly when `fd = -1`; on the NULL pointer it returns 0. -/
theorem C30_handle_invariant (calls : List LifecycleCall) (w : OS)
    (hcalls : ∀ o cur t, LifecycleCall.open_call o cur t ∈ calls → -1 ≤ o) :
    (∀ (port : String) (baud connect_wait : Int),
      ∃ c, (run_lifecycle (ino_connection_new port baud connect_wait) w calls).1 = some c ∧
        -1 ≤ c.fd ∧
        (ino_is_open (some c) = 1 ↔ 0 ≤ c.fd) ∧ (ino_is_open (some c) = 0 ↔ c.fd = -1)) ∧
    (∀ (port : String) (baud connect_wait frame_size_bytes read_timeout : Int),
      ∃ c, (run_lifecycle
          (ino_connection_raw port baud connect_wait frame_size_bytes read_timeout) w calls).1 =
          some c ∧
        -1 ≤ c.fd ∧
        (ino_is_open (some c) = 1 ↔ 0 ≤ c.fd) ∧ (ino_is_open (some c) = 0 ↔ c.fd = -1)) ∧
    ino_is_open none = 0 := by
  refine ⟨?_, ?_, rfl⟩
  · intro port baud connect_wait
    obtain ⟨c, h1, h2⟩ := run_lifecycle_fd_ge calls
      { port := port, baud := baud, connect_wait := connect_wait,
        raw := 0, raw_size := 0, raw_timeout := 0, fd := -1 } w (by simp) hcalls
    exact ⟨c, h1, h2, ino_is_open_iff c h2⟩
  · intro port baud connect_wait frame_size_bytes read_timeout
    obtain ⟨c, h1, h2⟩ := run_lifecycle_fd_ge calls
      { port := port, baud := baud, connect_wait := connect_wait,
        raw := 1, raw_size := frame_size_bytes, raw_timeout := read_timeout, fd := -1 }
      w (by simp) hcalls
    exact ⟨c, h1, h2, ino_is_open_iff c h2⟩

/-- Instance of C30: a text session opened on descriptor 3, closed, then
opened again with `open` answering -1. -/
theorem C30_handle_invariant_witness :
    ∃ c, (run_lifecycle (ino_connection_new "/dev/ttyACM0" 13 0) ⟨[], [], []⟩
        [LifecycleCall.open_call 3 example_termios 0, LifecycleCall.close_call,
          LifecycleCall.open_call (-1) example_termios 0]).1 = some c ∧
      -1 ≤ c.fd ∧
      (ino_is_open (some c) = 1 ↔ 0 ≤ c.fd) ∧ (ino_is_open (some c) = 0 ↔ c.fd = -1) :=
  (C30_handle_invariant
    [LifecycleCall.open_call 3 example_termios 0, LifecycleCall.close_call,
      LifecycleCall.open_call (-1) example_termios 0] ⟨[], [], []⟩
    (by
      intro o cur t hm
      simp only [List.mem_cons, LifecycleCall.open_call.injEq, List.mem_singleton,
        reduceCtorEq, false_or, List.mem_nil_iff, or_false] at hm
      rcases hm with ⟨rfl, _, _⟩ | ⟨rfl, _, _⟩ <;> decide)).1 "/dev/ttyACM0" 13 0

/-! ## Where `ino_read` puts the terminator -/

/-- C29 (the code at the two ends of the range): with a caller buffer of
exactly `max_bytes = 4` bytes on the open example session, a read that fills
the buffer (`n = 4`) makes `ino_read` store the zero byte at index 4, and a
failed read (`n = -1`) makes it store the zero byte at index -1; both
indices are outside the buffer, which the model reports as a fault. -/
theorem C29_terminator_outside_buffer :
    ino_read (some example_cnx) [0, 0, 0, 0] 4 example_os ⟨4, [79, 75, 13, 10]⟩ = none ∧
    ino_read (some example_cnx) [0, 0, 0, 0] 4 example_os ⟨-1, []⟩ = none ∧
    ino_read (some example_cnx) [0, 0, 0, 0] 4 example_os ⟨3, [79, 75, 10]⟩ =
      some (3, [79, 75, 10, 0], { example_os with trace := [SysCall.read 3 4] }) := by
  decide

/-! ## Single integer reads over short transfers -/

theorem fold_bytes_lt (data : List Nat) (hb : ∀ b ∈ data, b < 256) :
    ∀ (a k : Nat), a < 256 ^ k →
      data.foldl (fun a b => a * 256 + b) a < 256 ^ (k + data.length) := by
  induction data with
  | nil => intro a k h; simpa using h
  | cons b rest ih =>
    intro a k h
    have hb0 : b < 256 := hb b (List.mem_cons_self _ _)
    have h1 : a * 256 + b < 256 ^ (k + 1) := by
      rw [pow_succ]; omega
    have := ih (fun x hx => hb x (List.mem_cons_of_mem _ hx)) (a * 256 + b) (k + 1) h1
    simp only [List.foldl_cons, List.length_cons]
    rw [show k + (rest.length + 1) = k + 1 + rest.length by omega]
    exact this

theorem host_read_error (size m : Nat) (c : ino_connection_t) (hc : c.fd > -1) (w : OS) :
    read_int_body size m (some c) w ⟨-1, []⟩ =
      some (0, { w with trace := w.trace ++ [SysCall.read c.fd size] }) := by
  simp [read_int_body, hc, os_read, read_int_loop]

/-- C26: on an open session whose read delivers `m < W` bytes, the single
integer reads return the big-endian fold of exactly those `m` bytes, zero
extended: a value below `256 ^ m`, which is 0 for `m = 0` and `b0` for
`m = 1`; the signed reads return the two's-complement view of that value
(the value itself, its sign bit being clear).  When the read reports an
error (-1) all four return 0. -/
theorem C26_short_single_read (c : ino_connection_t) (hc : c.fd > -1) (w : OS)
    (data : List Nat) (hb : ∀ b ∈ data, b < 256) :
    (data.length < 2 →
      (ino_read_uint16 (some c) w ⟨(data.length : Int), data⟩).map Prod.fst =
        some (data.foldl (fun a b => a * 256 + b) 0) ∧
      (ino_read_int16 (some c) w ⟨(data.length : Int), data⟩).map Prod.fst =
        some (ino_int16_sig (data.foldl (fun a b => a * 256 + b) 0)) ∧
      ino_int16_sig (data.foldl (fun a b => a * 256 + b) 0) =
        ((data.foldl (fun a b => a * 256 + b) 0 : Nat) : Int)) ∧
    (data.length < 4 →
      (ino_read_uint32 (some c) w ⟨(data.length : Int), data⟩).map Prod.fst =
        some (data.foldl (fun a b => a * 256 + b) 0) ∧
      (ino_read_int32 (some c) w ⟨(data.length : Int), data⟩).map Prod.fst =
        some (ino_int32_sig (data.foldl (fun a b => a * 256 + b) 0)) ∧
      ino_int32_sig (data.foldl (fun a b => a * 256 + b) 0) =
        ((data.foldl (fun a b => a * 256 + b) 0 : Nat) : Int)) ∧
    data.foldl (fun a b => a * 256 + b) 0 < 256 ^ data.length ∧
    (∀ b0 : Nat, ([b0] : List Nat).foldl (fun a b => a * 256 + b) 0 = b0) ∧
    (([] : List Nat).foldl (fun a b => a * 256 + b) 0 = 0) ∧
    ((ino_read_uint16 (some c) w ⟨-1, []⟩).map Prod.fst = some 0 ∧
      (ino_read_int16 (some c) w ⟨-1, []⟩).map Prod.fst = some 0 ∧
      (ino_read_uint32 (some c) w ⟨-1, []⟩).map Prod.fst = some 0 ∧
      (ino_read_int32 (some c) w ⟨-1, []⟩).map Prod.fst = some 0) := by
  refine ⟨?_, ?_, ?_, ?_, rfl, ?_⟩
  · intro h
    obtain ⟨h1, h2⟩ := host_read16_short c hc w data hb h
    have hs : ino_int16_sig (data.foldl (fun a b => a * 256 + b) 0) =
        ((data.foldl (fun a b => a * 256 + b) 0 : Nat) : Int) := by
      unfold ino_int16_sig; rw [if_pos (by omega)]
    exact ⟨by rw [ino_read_uint16, h1]; rfl, by rw [ino_read_int16, h1]; rfl, hs⟩
  · intro h
    obtain ⟨h1, h2⟩ := host_read32_short c hc w data hb h
    have hs : ino_int32_sig (data.foldl (fun a b => a * 256 + b) 0) =
        ((data.foldl (fun a b => a * 256 + b) 0 : Nat) : Int) := by
      unfold ino_int32_sig; rw [if_pos (by omega)]
    exact ⟨by rw [ino_read_uint32, h1]; rfl, by rw [ino_read_int32, h1]; rfl, hs⟩
  · simpa using fold_bytes_lt data hb 0 0 (by simp)
  · intro b0; simp
  · simp [ino_read_uint16, ino_read_int16, ino_read_uint32, ino_read_int32,
      host_read_error _ _ c hc w, ino_int16_sig, ino_int32_sig]

/-- Instance of C26: the single byte 0xAB delivered to the 16-bit reads on
the open example session. -/
theorem C26_short_single_read_witness :
    (ino_read_uint16 (some example_cnx) example_os
        ⟨(([0xAB] : List Nat).length : Int), [0xAB]⟩).map Prod.fst =
      some (([0xAB] : List Nat).foldl (fun a b => a * 256 + b) 0) ∧
    (ino_read_int16 (some example_cnx) example_os
        ⟨(([0xAB] : List Nat).length : Int), [0xAB]⟩).map Prod.fst =
      some (ino_int16_sig (([0xAB] : List Nat).foldl (fun a b => a * 256 + b) 0)) ∧
    ino_int16_sig (([0xAB] : List Nat).foldl (fun a b => a * 256 + b) 0) =
      ((([0xAB] : List Nat).foldl (fun a b => a * 256 + b) 0 : Nat) : Int) :=
  (C26_short_single_read example_cnx (by decide) example_os [0xAB] (by decide)).1 (by decide)

/-! ## The settings `ino_open` commits -/

theorem os_close_trace (w : OS) (fd : Int) :
    (os_close w fd).1.trace = w.trace ++ [SysCall.close fd] := by
  unfold os_close; split <;> rfl

theorem ino_close_struct_trace (c : ino_connection_t) (w : OS) :
    (ino_close_struct c w).2.2.trace =
      w.trace ++ (if c.fd > -1 then [SysCall.close (-1)] else []) := by
  by_cases hc : c.fd > -1
  · rw [ino_close_struct_open c w hc]; simp [os_close_trace, hc]
  · rw [ino_close_struct_closed c w hc]; simp [hc]

theorem ino_open_trace (c : ino_connection_t) (w : OS) (open_ret : Int) (cur : termios)
    (tcset_ret : Int) (h : 0 ≤ open_ret) :
    (ino_open (some c) w open_ret cur tcset_ret).2.2.trace =
      w.trace ++ (if c.fd > -1 then [SysCall.close (-1)] else []) ++
        [SysCall.open c.port, SysCall.usleep (c.connect_wait % 4294967296),
          SysCall.tcgetattr open_ret,
          SysCall.tcsetattr open_ret (ino_open_settings c cur)] ++
        (if tcset_ret = -1 then [SysCall.close (-1)] else []) := by
  have h1 : open_ret > -1 := by omega
  have hs : ∀ fd', ino_open_settings { c with fd := fd' } cur = ino_open_settings c cur :=
    fun _ => rfl
  simp only [ino_open]
  by_cases hc : c.fd > -1
  · by_cases ht : tcset_ret = -1
    · simp [hc, ht, os_open, h, h1, os_usleep, os_tcgetattr, os_tcsetattr,
        ino_close_struct_open, os_close_trace, hs]
    · simp [hc, ht, os_open, h, os_usleep, os_tcgetattr, os_tcsetattr,
        ino_close_struct_open, os_close_trace, hs]
  · by_cases ht : tcset_ret = -1
    · simp [hc, ht, os_open, h, h1, os_usleep, os_tcgetattr, os_tcsetattr,
        ino_close_struct_open, os_close_trace, hs]
    · simp [hc, ht, os_open, h, os_usleep, os_tcgetattr, os_tcsetattr, hs]

theorem ino_open_commits (c : ino_connection_t) (w : OS) (open_ret : Int) (cur : termios)
    (tcset_ret : Int) (h : 0 ≤ open_ret) :
    committed_settings (ino_open (some c) w open_ret cur tcset_ret).2.2 =
      committed_settings w ++ [ino_open_settings c cur] := by
  unfold committed_settings
  rw [ino_open_trace c w open_ret cur tcset_ret h]
  by_cases hc : c.fd > -1 <;> by_cases ht : tcset_ret = -1 <;>
    simp [hc, ht, List.filterMap_append]

/-- C24 (as stated, refuted): a raw session constructed with a frame size of
256 bytes and an inter-byte timeout of 300 is opened on descriptor 3; the
one set of settings committed has `VMIN = 0` and `VTIME = 44`. -/
theorem C24_vmin_counterexample :
    (committed_settings
      (ino_open (ino_connection_raw "/dev/ttyACM0" 13 0 256 300) ⟨[], [], []⟩ 3
        example_termios 0).2.2).map (fun t => (t.c_cc_VMIN, t.c_cc_VTIME)) = [(0, 44)] ∧
    (committed_settings
      (ino_open (ino_connection_raw "/dev/ttyACM0" 13 0 256 300) ⟨[], [], []⟩ 3
        example_termios 0).2.2).map (fun t => ((t.c_cc_VMIN : Int), (t.c_cc_VTIME : Int))) ≠
      [(256, 300)] := by
  decide

/-- C24 (amended): for every raw-mode session, `ino_open` (the operating
system's `open` answering a descriptor) commits exactly one set of settings,
in which `VMIN` equals `frame_size_bytes` whenever that lies in 0..255 and
`VTIME` equals `inter_byte_timeout` whenever that lies in 0..255, the range
of a control character. -/
theorem C24_vmin_vtime_in_byte_range (c : ino_connection_t) (hraw : c.raw ≠ 0) (w : OS)
    (open_ret : Int) (cur : termios) (tcset_ret : Int) (h : 0 ≤ open_ret) :
    ∃ t, committed_settings (ino_open (some c) w open_ret cur tcset_ret).2.2 =
        committed_settings w ++ [t] ∧
      (0 ≤ c.raw_size → c.raw_size ≤ 255 → (t.c_cc_VMIN : Int) = c.raw_size) ∧
      (0 ≤ c.raw_timeout → c.raw_timeout ≤ 255 → (t.c_cc_VTIME : Int) = c.raw_timeout) := by
  refine ⟨ino_open_settings c cur, ino_open_commits c w open_ret cur tcset_ret h, ?_, ?_⟩
  · intro h0 h1
    simp only [ino_open_settings, hraw, ne_eq, not_false_eq_true, if_true]
    omega
  · intro h0 h1
    simp only [ino_open_settings, hraw, ne_eq, not_false_eq_true, if_true]
    omega

/-- Instance of C24 (amended): the raw example session (frame size 2, no
timeout) opened on descriptor 4. -/
theorem C24_vmin_vtime_in_byte_range_witness :
    ∃ t, committed_settings (ino_open (some example_closed_cnx) example_os 4 example_termios
          0).2.2 = committed_settings example_os ++ [t] ∧
      (0 ≤ example_closed_cnx.raw_size → example_closed_cnx.raw_size ≤ 255 →
        (t.c_cc_VMIN : Int) = example_closed_cnx.raw_size) ∧
      (0 ≤ example_closed_cnx.raw_timeout → example_closed_cnx.raw_timeout ≤ 255 →
        (t.c_cc_VTIME : Int) = example_closed_cnx.raw_timeout) :=
  C24_vmin_vtime_in_byte_range example_closed_cnx (by decide) example_os 4 example_termios 0
    (by decide)

/-! ## Speeds and flag words of the committed settings -/

theorem speed_token_facts (s : Nat) (h : s ≤ 15 ∨ (4096 ≤ s ∧ s ≤ 4111)) :
    speed_refused s = false ∧
    s &&& flag_not (CBAUD ||| CBAUDEX) = 0 ∧
    ((CS8 ||| HUPCL ||| CREAD ||| CLOCAL) ||| s) &&& CBAUD = s ∧
    ((CS8 ||| HUPCL ||| CREAD ||| CLOCAL) ||| s) &&& flag_not CBAUD =
      CS8 ||| HUPCL ||| CREAD ||| CLOCAL := by
  rcases h with h | ⟨h1, h2⟩
  · interval_cases s <;> decide
  · interval_cases s <;> decide

theorem bit_clear_of_and (s m i : Nat) (h : s &&& m = 0) (hm : m.testBit i = true) :
    s / 2 ^ i % 2 = 0 := by
  have ht : (s &&& m).testBit i = false := by rw [h]; simp
  rw [Nat.testBit_and, hm, Bool.and_true, Nat.testBit_to_div_mod] at ht
  have := of_decide_eq_false ht
  omega

theorem speed_refused_of_not_token (s : Nat) (hs : s < 4294967296)
    (h : ¬ (s ≤ 15 ∨ (4096 ≤ s ∧ s ≤ 4111))) : speed_refused s = true := by
  have hm : s &&& flag_not CBAUD ≠ 0 := by
    intro h0
    have b4 : s / 16 % 2 = 0 := bit_clear_of_and s _ 4 h0 (by decide)
    have b5 : s / 32 % 2 = 0 := bit_clear_of_and s _ 5 h0 (by decide)
    have b6 : s / 64 % 2 = 0 := bit_clear_of_and s _ 6 h0 (by decide)
    have b7 : s / 128 % 2 = 0 := bit_clear_of_and s _ 7 h0 (by decide)
    have b8 : s / 256 % 2 = 0 := bit_clear_of_and s _ 8 h0 (by decide)
    have b9 : s / 512 % 2 = 0 := bit_clear_of_and s _ 9 h0 (by decide)
    have b10 : s / 1024 % 2 = 0 := bit_clear_of_and s _ 10 h0 (by decide)
    have b11 : s / 2048 % 2 = 0 := bit_clear_of_and s _ 11 h0 (by decide)
    have b13 : s / 8192 % 2 = 0 := bit_clear_of_and s _ 13 h0 (by decide)
    have b14 : s / 16384 % 2 = 0 := bit_clear_of_and s _ 14 h0 (by decide)
    have b15 : s / 32768 % 2 = 0 := bit_clear_of_and s _ 15 h0 (by decide)
    have b16 : s / 65536 % 2 = 0 := bit_clear_of_and s _ 16 h0 (by decide)
    have b17 : s / 131072 % 2 = 0 := bit_clear_of_and s _ 17 h0 (by decide)
    have b18 : s / 262144 % 2 = 0 := bit_clear_of_and s _ 18 h0 (by decide)
    have b19 : s / 524288 % 2 = 0 := bit_clear_of_and s _ 19 h0 (by decide)
    have b20 : s / 1048576 % 2 = 0 := bit_clear_of_and s _ 20 h0 (by decide)
    have b21 : s / 2097152 % 2 = 0 := bit_clear_of_and s _ 21 h0 (by decide)
    have b22 : s / 4194304 % 2 = 0 := bit_clear_of_and s _ 22 h0 (by decide)
    have b23 : s / 8388608 % 2 = 0 := bit_clear_of_and s _ 23 h0 (by decide)
    have b24 : s / 16777216 % 2 = 0 := bit_clear_of_and s _ 24 h0 (by decide)
    have b25 : s / 33554432 % 2 = 0 := bit_clear_of_and s _ 25 h0 (by decide)
    have b26 : s / 67108864 % 2 = 0 := bit_clear_of_and s _ 26 h0 (by decide)
    have b27 : s / 134217728 % 2 = 0 := bit_clear_of_and s _ 27 h0 (by decide)
    have b28 : s / 268435456 % 2 = 0 := bit_clear_of_and s _ 28 h0 (by decide)
    have b29 : s / 536870912 % 2 = 0 := bit_clear_of_and s _ 29 h0 (by decide)
    have b30 : s / 1073741824 % 2 = 0 := bit_clear_of_and s _ 30 h0 (by decide)
    have b31 : s / 2147483648 % 2 = 0 := bit_clear_of_and s _ 31 h0 (by decide)
    omega
  have hr : s < B57600 ∨ s > MAX_BAUD := by
    unfold B57600 MAX_BAUD
    omega
  simp [speed_refused, hm, hr]

theorem cfsetispeed_keeps (t : termios) (s : Nat) :
    (cfsetispeed t s).2.c_oflag = t.c_oflag ∧ (cfsetispeed t s).2.c_lflag = t.c_lflag := by
  unfold cfsetispeed
  by_cases hr : speed_refused s = true
  · simp [hr]
  · by_cases h0 : s = 0
    · subst h0
      simp [hr]
    · simp [hr, h0]

theorem cfsetospeed_keeps (t : termios) (s : Nat) :
    (cfsetospeed t s).2.c_oflag = t.c_oflag ∧ (cfsetospeed t s).2.c_lflag = t.c_lflag := by
  unfold cfsetospeed
  by_cases hr : speed_refused s = true <;> simp [hr]

theorem ino_open_settings_flags (c : ino_connection_t) (cur : termios) :
    (ino_open_settings c cur).c_oflag = 0 ∧
    (c.raw ≠ 0 → (ino_open_settings c cur).c_lflag = 0) ∧
    (c.raw = 0 → (ino_open_settings c cur).c_lflag =
      ICANON ||| ECHOE ||| ECHOK ||| ECHOCTL ||| ECHOKE) := by
  by_cases hraw : c.raw = 0
  · simp [ino_open_settings, hraw, cfsetispeed_keeps, cfsetospeed_keeps]
  · simp [ino_open_settings, hraw, cfsetispeed_keeps, cfsetospeed_keeps]

theorem ino_open_settings_token (c : ino_connection_t) (cur : termios)
    (h : speed_of_int c.baud ≤ 15 ∨
      (4096 ≤ speed_of_int c.baud ∧ speed_of_int c.baud ≤ 4111)) :
    (ino_open_settings c cur).c_cflag =
      (CS8 ||| HUPCL ||| CREAD ||| CLOCAL) ||| speed_of_int c.baud ∧
    (ino_open_settings c cur).c_iflag = (if speed_of_int c.baud = 0 then IBAUD0 else 0) ∧
    (ino_open_settings c cur).c_ispeed = speed_of_int c.baud ∧
    (ino_open_settings c cur).c_ospeed = speed_of_int c.baud := by
  obtain ⟨h1, h2, _, _⟩ := speed_token_facts _ h
  unfold ino_open_settings
  generalize speed_of_int c.baud = s at *
  by_cases h0 : s = 0
  · subst h0
    by_cases hraw : c.raw = 0 <;>
      simp [cfsetispeed, cfsetospeed, h1, hraw, Nat.lor_comm]
  · by_cases hraw : c.raw = 0 <;>
      simp [cfsetispeed, cfsetospeed, h1, h2, h0, hraw, Nat.lor_comm]

theorem ino_open_settings_refused (c : ino_connection_t) (cur : termios)
    (h : speed_refused (speed_of_int c.baud) = true) :
    (ino_open_settings c cur).c_cflag = CS8 ||| HUPCL ||| CREAD ||| CLOCAL ∧
    (ino_open_settings c cur).c_iflag = 0 ∧
    (ino_open_settings c cur).c_ispeed = cur.c_ispeed ∧
    (ino_open_settings c cur).c_ospeed = cur.c_ospeed := by
  by_cases hraw : c.raw = 0 <;>
    simp [ino_open_settings, cfsetispeed, cfsetospeed, h, hraw]

/-- C25 (as stated, refuted): the text session of the examples, at `B9600`
(speed token 13), is opened on descriptor 4; the one set of settings
committed has the control word `0o6275`, the four flags together with the
speed token, and not `CS8 | HUPCL | CREAD | CLOCAL`, which is `0o6260`.  At
`B0` the control word is `0o6260`, but the input flag word is `IBAUD0` and
not zero. -/
theorem C25_control_word_counterexample :
    (committed_settings (ino_open (ino_connection_new "/dev/ttyACM0" 13 0) ⟨[], [], []⟩ 4
      example_termios 0).2.2).map (fun t => t.c_cflag) = [0o6275] ∧
    (committed_settings (ino_open (ino_connection_new "/dev/ttyACM0" 13 0) ⟨[], [], []⟩ 4
      example_termios 0).2.2).map (fun t => t.c_cflag) ≠ [CS8 ||| HUPCL ||| CREAD ||| CLOCAL] ∧
    (committed_settings (ino_open (ino_connection_new "/dev/ttyACM0" 0 0) ⟨[], [], []⟩ 4
      example_termios 0).2.2).map (fun t => (t.c_iflag, t.c_cflag)) =
        [(0o20000000000, 0o6260)] := by
  decide

/-- C25 (amended): whenever the operating system's `open` answers a
descriptor, `ino_open` commits exactly one set of settings.  In it the
output flag word is zero; in raw mode (`raw ≠ 0`) the local flag word is
zero, in text mode (`raw = 0`) it is exactly
`ICANON | ECHOE | ECHOK | ECHOCTL | ECHOKE`, so that the `ICANON` bit is set
exactly when the session is in text mode.  When `baud` is a speed token
(`B0` .. `B38400`, which are 0 .. 15, or `B57600` .. `B4000000`, which are
4096 .. 4111), the control word is `CS8 | HUPCL | CREAD | CLOCAL` or-ed with
the token: its speed bits (`CBAUD`) hold the token and its other bits are
exactly the four flags; both speeds are `baud`; and the input flag word is
zero, except for `B0`, where it is `IBAUD0`.  When `baud` is an `int` that is
no speed token, the control word is exactly the four flags, the input flag
word is zero and both speeds are the ones `tcgetattr` reported. -/
theorem C25_committed_settings_speed_bits (c : ino_connection_t) (w : OS) (open_ret : Int)
    (cur : termios) (tcset_ret : Int) (h : 0 ≤ open_ret) :
    ∃ t, committed_settings (ino_open (some c) w open_ret cur tcset_ret).2.2 =
        committed_settings w ++ [t] ∧
      t.c_oflag = 0 ∧
      (c.raw ≠ 0 → t.c_lflag = 0) ∧
      (c.raw = 0 → t.c_lflag = ICANON ||| ECHOE ||| ECHOK ||| ECHOCTL ||| ECHOKE) ∧
      (t.c_lflag &&& ICANON = ICANON ↔ c.raw = 0) ∧
      ((0 ≤ c.baud ∧ c.baud ≤ 15) ∨ (4096 ≤ c.baud ∧ c.baud ≤ 4111) →
        t.c_cflag = (CS8 ||| HUPCL ||| CREAD ||| CLOCAL) ||| c.baud.toNat ∧
        t.c_cflag &&& CBAUD = c.baud.toNat ∧
        t.c_cflag &&& flag_not CBAUD = CS8 ||| HUPCL ||| CREAD ||| CLOCAL ∧
        (t.c_ispeed : Int) = c.baud ∧ (t.c_ospeed : Int) = c.baud ∧
        (c.baud ≠ 0 → t.c_iflag = 0) ∧ (c.baud = 0 → t.c_iflag = IBAUD0)) ∧
      (-2147483648 ≤ c.baud → c.baud ≤ 2147483647 →
        ¬ ((0 ≤ c.baud ∧ c.baud ≤ 15) ∨ (4096 ≤ c.baud ∧ c.baud ≤ 4111)) →
        t.c_cflag = CS8 ||| HUPCL ||| CREAD ||| CLOCAL ∧ t.c_iflag = 0 ∧
        t.c_ispeed = cur.c_ispeed ∧ t.c_ospeed = cur.c_ospeed) := by
  refine ⟨ino_open_settings c cur, ino_open_commits c w open_ret cur tcset_ret h, ?_⟩
  obtain ⟨ho, hl1, hl2⟩ := ino_open_settings_flags c cur
  refine ⟨ho, hl1, hl2, ?_, ?_, ?_⟩
  · by_cases hraw : c.raw = 0
    · rw [hl2 hraw]
      simp only [hraw, iff_true]
      decide
    · rw [hl1 hraw]
      simp only [hraw, iff_false]
      decide
  · intro hb
    have hsp : speed_of_int c.baud = c.baud.toNat := by
      unfold speed_of_int
      omega
    have htok : speed_of_int c.baud ≤ 15 ∨
        (4096 ≤ speed_of_int c.baud ∧ speed_of_int c.baud ≤ 4111) := by
      rw [hsp]
      omega
    obtain ⟨hc, hi, his, hos⟩ := ino_open_settings_token c cur htok
    obtain ⟨_, _, hm1, hm2⟩ := speed_token_facts _ htok
    rw [hsp] at hc hi his hos hm1 hm2
    refine ⟨hc, ?_, ?_, ?_, ?_, ?_, ?_⟩
    · rw [hc, hm1]
    · rw [hc, hm2]
    · rw [his]
      omega
    · rw [hos]
      omega
    · intro hne
      rw [hi, if_neg (by omega)]
    · intro he
      rw [hi, if_pos (by omega)]
  · intro hlo hhi hn
    have hr : speed_refused (speed_of_int c.baud) = true := by
      apply speed_refused_of_not_token
      · unfold speed_of_int
        omega
      · unfold speed_of_int
        omega
    exact ino_open_settings_refused c cur hr

/-- Instance of C25 (amended): the text session of the examples, at `B9600`
(speed token 13), opened on descriptor 4. -/
theorem C25_committed_settings_speed_bits_witness :
    ∃ t, committed_settings (ino_open (ino_connection_new "/dev/ttyACM0" 13 0) example_os 4
          example_termios 0).2.2 = committed_settings example_os ++ [t] ∧
      t.c_oflag = 0 ∧ t.c_iflag = 0 ∧
      t.c_cflag = 0o6275 ∧ t.c_cflag &&& CBAUD = 13 ∧
      t.c_cflag &&& flag_not CBAUD = CS8 ||| HUPCL ||| CREAD ||| CLOCAL ∧
      t.c_ispeed = 13 ∧ t.c_ospeed = 13 ∧
      t.c_lflag = ICANON ||| ECHOE ||| ECHOK ||| ECHOCTL ||| ECHOKE := by
  obtain ⟨t, h1, h2, _, h4, _, h6, _⟩ := C25_committed_settings_speed_bits
    { port := "/dev/ttyACM0", baud := 13, connect_wait := 0,
      raw := 0, raw_size := 0, raw_timeout := 0, fd := -1 }
    example_os 4 example_termios 0 (by decide)
  obtain ⟨g1, g2, g3, g4, g5, g6, _⟩ := h6 (Or.inl (by decide))
  exact ⟨t, h1, h2, g6 (by decide), g1, g2, g3, Int.ofNat_inj.mp g4, Int.ofNat_inj.mp g5,
    h4 rfl⟩

/-! ## What the array reads store over a short transfer -/

theorem decode16_spec : ∀ (m : Nat) (l : List Nat), l.length = 2 * m → (∀ b ∈ l, b < 256) →
    (decode16 l).flatMap group16 = l ∧ (decode16 l).length = m ∧
      ∀ v ∈ decode16 l, v < 65536 := by
  intro m
  induction m with
  | zero =>
    intro l hl _
    have : l = [] := List.length_eq_zero.1 (by omega)
    subst this
    simp [decode16]
  | succ m ih =>
    intro l hl hb
    match l, hl, hb with
    | [], hl, _ => simp at hl
    | [_], hl, _ => simp at hl; omega
    | b0 :: b1 :: rest, hl, hb =>
      have h0 : b0 < 256 := hb b0 (by simp)
      have h1 : b1 < 256 := hb b1 (by simp)
      obtain ⟨i1, i2, i3⟩ := ih rest (by simp at hl; omega) (fun b hb' => hb b (by simp [hb']))
      have e0 : (b0 * 256 + b1) / 256 = b0 := by omega
      have e1 : (b0 * 256 + b1) % 256 = b1 := by omega
      refine ⟨by simp [decode16, List.flatMap_cons, group16, e0, e1, i1],
        by simp [decode16, i2], ?_⟩
      intro v hv
      simp only [decode16, List.mem_cons] at hv
      rcases hv with rfl | hv
      · omega
      · exact i3 v hv

theorem decode32_spec : ∀ (m : Nat) (l : List Nat), l.length = 4 * m → (∀ b ∈ l, b < 256) →
    (decode32 l).flatMap group32 = l ∧ (decode32 l).length = m ∧
      ∀ v ∈ decode32 l, v < 4294967296 := by
  intro m
  induction m with
  | zero =>
    intro l hl _
    have : l = [] := List.length_eq_zero.1 (by omega)
    subst this
    simp [decode32]
  | succ m ih =>
    intro l hl hb
    match l, hl, hb with
    | [], hl, _ => simp at hl
    | [_], hl, _ => simp at hl; omega
    | [_, _], hl, _ => simp at hl; omega
    | [_, _, _], hl, _ => simp at hl; omega
    | b0 :: b1 :: b2 :: b3 :: rest, hl, hb =>
      have h0 : b0 < 256 := hb b0 (by simp)
      have h1 : b1 < 256 := hb b1 (by simp)
      have h2 : b2 < 256 := hb b2 (by simp)
      have h3 : b3 < 256 := hb b3 (by simp)
      obtain ⟨i1, i2, i3⟩ := ih rest (by simp at hl; omega) (fun b hb' => hb b (by simp [hb']))
      have e0 : (b0 * 16777216 + b1 * 65536 + b2 * 256 + b3) / 16777216 = b0 := by omega
      have e1 : (b0 * 16777216 + b1 * 65536 + b2 * 256 + b3) / 65536 % 256 = b1 := by omega
      have e2 : (b0 * 16777216 + b1 * 65536 + b2 * 256 + b3) / 256 % 256 = b2 := by omega
      have e3 : (b0 * 16777216 + b1 * 65536 + b2 * 256 + b3) % 256 = b3 := by omega
      refine ⟨by simp [decode32, List.flatMap_cons, group32, e0, e1, e2, e3, i1],
        by simp [decode32, i2], ?_⟩
      intro v hv
      simp only [decode32, List.mem_cons] at hv
      rcases hv with rfl | hv
      · omega
      · exact i3 v hv

theorem pad_zero_bytes (width : Nat) (data : List Nat) (hb : ∀ b ∈ data, b < 256) :
    ∀ b ∈ pad_zero width data, b < 256 := by
  intro b hb'
  simp only [pad_zero, List.mem_append, List.mem_replicate] at hb'
  rcases hb' with h | ⟨_, rfl⟩
  · exact hb b h
  · decide

theorem frame_eq_pad (width : Nat) (hw : 0 < width) (int_count : Nat) (data : List Nat)
    (hn : data.length ≤ int_count * width) :
    store_bytes (List.replicate (int_count * width) 0) data =
      pad_zero width data ++
        List.replicate
          (int_count * width - data.length - (width - data.length % width) % width) 0 := by
  have hp : (width - data.length % width) % width ≤ int_count * width - data.length := by
    by_cases h0 : data.length % width = 0
    · simp [h0]
    · have hlt : data.length % width < width := Nat.mod_lt _ hw
      rw [Nat.mod_eq_of_lt (by omega)]
      have hdiv : data.length = width * (data.length / width) + data.length % width :=
        (Nat.div_add_mod _ _).symm
      have hq : data.length / width < int_count := by
        by_contra hcon
        have : int_count * width ≤ (data.length / width) * width :=
          Nat.mul_le_mul_right _ (by omega)
        rw [Nat.mul_comm (data.length / width)] at this
        omega
      have : (data.length / width + 1) * width ≤ int_count * width :=
        Nat.mul_le_mul_right _ hq
      rw [Nat.add_mul, Nat.mul_comm (data.length / width)] at this
      omega
  rw [store_bytes_short _ _ (by simpa using hn)]
  simp only [pad_zero, List.drop_replicate, List.append_assoc,
    List.append_replicate_replicate]
  congr 2
  omega

theorem read_ints16_short {α : Type} (view : Nat → α) (c : ino_connection_t) (hc : c.fd > -1)
    (int_buf : List α) (int_count : Nat) (w : OS) (data : List Nat)
    (hn : data.length ≤ int_count * 2) (hb : ∀ b ∈ data, b < 256)
    (hbuf : int_count ≤ int_buf.length) :
    read_ints_body 2 (read_int16s_loop view) (some c) int_buf int_count w
        ⟨(data.length : Int), data⟩ =
      some (((decode16 (pad_zero 2 data)).length : Int),
        (decode16 (pad_zero 2 data)).map view ++
          int_buf.drop (decode16 (pad_zero 2 data)).length,
        { w with trace := w.trace ++ [SysCall.read c.fd ((int_count * 2 : Nat) : Int)] }) ∧
    (decode16 (pad_zero 2 data)).length = (data.length + 1) / 2 := by
  have hl : (pad_zero 2 data).length = 2 * ((data.length + 1) / 2) := by
    simp only [pad_zero, List.length_append, List.length_replicate]; omega
  obtain ⟨i1, i2, i3⟩ := decode16_spec _ _ hl (pad_zero_bytes 2 data hb)
  have hfr := frame_eq_pad 2 (by decide) int_count data hn
  have hloop := read_int16s_loop_started view (data.length : Int) (decode16 (pad_zero 2 data))
    i3 [] (List.replicate (int_count * 2 - data.length - (2 - data.length % 2) % 2) 0) []
    int_buf data.length
    (by simp only [List.length_nil, i2]; push_cast; omega)
    (by intro _; simp only [List.length_nil, i2]; push_cast; omega)
    (by rw [i2]; omega) (by rw [i2]; omega)
  rw [i1] at hloop
  simp only [List.nil_append, List.length_nil, Nat.zero_add] at hloop
  refine ⟨?_, i2⟩
  simp only [read_ints_body, hc, if_true, os_read, hfr, Int.toNat_ofNat, hloop]

theorem read_ints32_short {α : Type} (view : Nat → α) (c : ino_connection_t) (hc : c.fd > -1)
    (int_buf : List α) (int_count : Nat) (w : OS) (data : List Nat)
    (hn : data.length ≤ int_count * 4) (hb : ∀ b ∈ data, b < 256)
    (hbuf : int_count ≤ int_buf.length) :
    read_ints_body 4 (read_int32s_loop view) (some c) int_buf int_count w
        ⟨(data.length : Int), data⟩ =
      some (((decode32 (pad_zero 4 data)).length : Int),
        (decode32 (pad_zero 4 data)).map view ++
          int_buf.drop (decode32 (pad_zero 4 data)).length,
        { w with trace := w.trace ++ [SysCall.read c.fd ((int_count * 4 : Nat) : Int)] }) ∧
    (decode32 (pad_zero 4 data)).length = (data.length + 3) / 4 := by
  have hl : (pad_zero 4 data).length = 4 * ((data.length + 3) / 4) := by
    simp only [pad_zero, List.length_append, List.length_replicate]; omega
  obtain ⟨i1, i2, i3⟩ := decode32_spec _ _ hl (pad_zero_bytes 4 data hb)
  have hfr := frame_eq_pad 4 (by decide) int_count data hn
  have hloop := read_int32s_loop_started view (data.length : Int) (decode32 (pad_zero 4 data))
    i3 [] (List.replicate (int_count * 4 - data.length - (4 - data.length % 4) % 4) 0) []
    int_buf data.length
    (by simp only [List.length_nil, i2]; push_cast; omega)
    (by intro _; simp only [List.length_nil, i2]; push_cast; omega)
    (by rw [i2]; omega) (by rw [i2]; omega)
  rw [i1] at hloop
  simp only [List.nil_append, List.length_nil, Nat.zero_add] at hloop
  refine ⟨?_, i2⟩
  simp only [read_ints_body, hc, if_true, os_read, hfr, Int.toNat_ofNat, hloop]

/-- C27: on an open session, for a transfer of `n` bytes with
`0 ≤ n ≤ W * int_count` (the caller's buffer holding at least `int_count`
integers), the array reads store, from the start of the caller's buffer and
in order, the big-endian decode of each `W`-byte group of the delivered
bytes padded with zero bytes up to the next multiple of `W` (as `tmp.sig`
for the signed reads), and leave the rest of the buffer as it was; a
trailing group that received only some bytes is stored as those bytes in
the high-order places followed by zero bytes. -/
theorem C27_short_array_zero_padded (c : ino_connection_t) (hc : c.fd > -1) (w : OS)
    (int_count : Nat) (data : List Nat) (hb : ∀ b ∈ data, b < 256)
    (sbuf : List Int) (ubuf : List Nat)
    (hs : int_count ≤ sbuf.length) (hu : int_count ≤ ubuf.length) :
    (data.length ≤ int_count * 2 →
      (ino_read_uint16s (some c) ubuf int_count w ⟨(data.length : Int), data⟩).map
          (fun r => r.2.1) =
        some (decode16 (pad_zero 2 data) ++ ubuf.drop (decode16 (pad_zero 2 data)).length) ∧
      (ino_read_int16s (some c) sbuf int_count w ⟨(data.length : Int), data⟩).map
          (fun r => r.2.1) =
        some ((decode16 (pad_zero 2 data)).map ino_int16_sig ++
          sbuf.drop (decode16 (pad_zero 2 data)).length)) ∧
    (data.length ≤ int_count * 4 →
      (ino_read_uint32s (some c) ubuf int_count w ⟨(data.length : Int), data⟩).map
          (fun r => r.2.1) =
        some (decode32 (pad_zero 4 data) ++ ubuf.drop (decode32 (pad_zero 4 data)).length) ∧
      (ino_read_int32s (some c) sbuf int_count w ⟨(data.length : Int), data⟩).map
          (fun r => r.2.1) =
        some ((decode32 (pad_zero 4 data)).map ino_int32_sig ++
          sbuf.drop (decode32 (pad_zero 4 data)).length)) ∧
    (decode16 (pad_zero 2 [0x12, 0x34, 0x56]) = [0x1234, 0x5600] ∧
      decode32 (pad_zero 4 [0x01, 0x02, 0x03, 0x04, 0x05]) = [0x01020304, 0x05000000]) := by
  refine ⟨?_, ?_, by decide⟩
  · intro hn
    constructor
    · rw [ino_read_uint16s, (read_ints16_short id c hc ubuf int_count w data hn hb hu).1]
      simp
    · rw [ino_read_int16s,
        (read_ints16_short ino_int16_sig c hc sbuf int_count w data hn hb hs).1]
      simp
  · intro hn
    constructor
    · rw [ino_read_uint32s, (read_ints32_short id c hc ubuf int_count w data hn hb hu).1]
      simp
    · rw [ino_read_int32s,
        (read_ints32_short ino_int32_sig c hc sbuf int_count w data hn hb hs).1]
      simp

/-- Instance of C27: 3 bytes delivered to the 16-bit array reads with
`int_count = 2` on the open example session. -/
theorem C27_short_array_zero_padded_witness :
    (ino_read_uint16s (some example_cnx) [7, 7] 2 example_os
        ⟨(([0x12, 0x34, 0x56] : List Nat).length : Int), [0x12, 0x34, 0x56]⟩).map
        (fun r => r.2.1) =
      some (decode16 (pad_zero 2 [0x12, 0x34, 0x56]) ++
        [7, 7].drop (decode16 (pad_zero 2 [0x12, 0x34, 0x56])).length) ∧
    (ino_read_int16s (some example_cnx) [7, 7] 2 example_os
        ⟨(([0x12, 0x34, 0x56] : List Nat).length : Int), [0x12, 0x34, 0x56]⟩).map
        (fun r => r.2.1) =
      some ((decode16 (pad_zero 2 [0x12, 0x34, 0x56])).map ino_int16_sig ++
        [7, 7].drop (decode16 (pad_zero 2 [0x12, 0x34, 0x56])).length) :=
  (C27_short_array_zero_padded example_cnx (by decide) example_os 2 [0x12, 0x34, 0x56]
    (by decide) [7, 7] [7, 7] (by decide) (by decide)).1 (by decide)

/-- C28: on an open session, for every `int_count`, a caller buffer of
exactly `int_count` integers and every answer `n ≤ W * int_count` of the
read (including -1 and 0), the array reads finish without an access outside
the `W * int_count`-byte frame or outside the caller's buffer (in the model,
any such access makes the result `none`), and the returned count is at
most `int_count`. -/
theorem C28_array_reads_in_bounds (c : ino_connection_t) (hc : c.fd > -1) (w : OS)
    (int_count : Nat) (n : Int) (data : List Nat) (hlen : data.length = n.toNat)
    (hb : ∀ b ∈ data, b < 256) (sbuf : List Int) (ubuf : List Nat)
    (hs : sbuf.length = int_count) (hu : ubuf.length = int_count) :
    (n ≤ ((int_count * 2 : Nat) : Int) →
      (∃ k buf w', ino_read_int16s (some c) sbuf int_count w ⟨n, data⟩ = some (k, buf, w') ∧
        0 ≤ k ∧ k ≤ (int_count : Int)) ∧
      (∃ k buf w', ino_read_uint16s (some c) ubuf int_count w ⟨n, data⟩ = some (k, buf, w') ∧
        0 ≤ k ∧ k ≤ (int_count : Int))) ∧
    (n ≤ ((int_count * 4 : Nat) : Int) →
      (∃ k buf w', ino_read_int32s (some c) sbuf int_count w ⟨n, data⟩ = some (k, buf, w') ∧
        0 ≤ k ∧ k ≤ (int_count : Int)) ∧
      (∃ k buf w', ino_read_uint32s (some c) ubuf int_count w ⟨n, data⟩ = some (k, buf, w') ∧
        0 ≤ k ∧ k ≤ (int_count : Int))) := by
  constructor
  · intro hn
    obtain ⟨b1, h1⟩ := read_int16s_count ino_int16_sig c hc sbuf int_count w n data hn hlen hb
      (by omega)
    obtain ⟨b2, h2⟩ := read_int16s_count id c hc ubuf int_count w n data hn hlen hb (by omega)
    exact ⟨⟨_, b1, _, h1, by omega, by omega⟩, ⟨_, b2, _, h2, by omega, by omega⟩⟩
  · intro hn
    obtain ⟨b1, h1⟩ := read_int32s_count ino_int32_sig c hc sbuf int_count w n data hn hlen hb
      (by omega)
    obtain ⟨b2, h2⟩ := read_int32s_count id c hc ubuf int_count w n data hn hlen hb (by omega)
    exact ⟨⟨_, b1, _, h1, by omega, by omega⟩, ⟨_, b2, _, h2, by omega, by omega⟩⟩

/-- Instance of C28: `int_count = 2` and a failed read (`n = -1`) on the open
example session. -/
theorem C28_array_reads_in_bounds_witness :
    (∃ k buf w', ino_read_int16s (some example_cnx) [7, 7] 2 example_os ⟨-1, []⟩ =
        some (k, buf, w') ∧ 0 ≤ k ∧ k ≤ ((2 : Nat) : Int)) ∧
    (∃ k buf w', ino_read_uint16s (some example_cnx) [7, 7] 2 example_os ⟨-1, []⟩ =
        some (k, buf, w') ∧ 0 ≤ k ∧ k ≤ ((2 : Nat) : Int)) :=
  (C28_array_reads_in_bounds example_cnx (by decide) example_os 2 (-1) [] (by decide)
    (by decide) [7, 7] [7, 7] (by decide) (by decide)).1 (by decide)

/-! ## Text extraction -/

/-- C21 (the code at a position that does not exist): for the frame `"12"`,
which holds no delimiter, and `pos = 1`, `strpbrk` returns NULL and the four
cast functions go on to use the pointer `NULL + 1`, a fault, where the claim
has them return zero; the same happens for `"12 34"` and `pos = 2`.  For
the frame `"12 34\n"`, which ends with a delimiter, `pos = 2` and `pos = 3`
give zero. -/
theorem C21_missing_position_faults :
    strpbrk delims [49, 50] 0 = none ∧
    ino_cast_int [49, 50] 1 = none ∧
    ino_cast_long [49, 50] 1 = none ∧
    (∀ (F : Type) (strtof : List Nat → F) (fzero : F),
      ino_cast_float strtof fzero [49, 50] 1 = none) ∧
    (∀ (F : Type) (strtod : List Nat → F) (dzero : F),
      ino_cast_double strtod dzero [49, 50] 1 = none) ∧
    ino_cast_int [49, 50, 32, 51, 52] 2 = none ∧
    ino_cast_long [49, 50, 32, 51, 52] 2 = none ∧
    ino_cast_int [49, 50, 32, 51, 52, 10] 2 = some 0 ∧
    ino_cast_long [49, 50, 32, 51, 52, 10] 3 = some 0 := by
  refine ⟨by decide, by decide, by decide, fun _ _ _ => rfl, fun _ _ _ => rfl, by decide,
    by decide, by decide, by decide⟩

theorem getD_append_head (pre t : List Nat) (x : Nat) :
    (pre ++ x :: t).getD pre.length 0 = x := by
  simp [List.getD_eq_getElem?_getD, List.getElem?_append_right (le_refl _)]

theorem strpbrk_field (accept f t : List Nat) (x : Nat)
    (hf : ∀ ch ∈ f, accept.contains ch = false) (hx : accept.contains x = true) :
    ∀ i, strpbrk accept (f ++ x :: t) i = some (i + f.length) := by
  induction f with
  | nil => intro i; rw [List.nil_append, strpbrk, if_pos hx]; rfl
  | cons a f ih =>
    intro i
    have ha : accept.contains a = false := hf a (List.mem_cons_self _ _)
    rw [List.cons_append, strpbrk, if_neg (by rw [ha]; decide),
      ih (fun ch hch => hf ch (List.mem_cons_of_mem _ hch))]
    simp only [List.length_cons]
    congr 1; omega

theorem skip_delims_run (d : List Nat) (hd : ∀ ch ∈ d, strchr delims ch = true)
    (t : List Nat) (ht : t = [] ∨ ∃ y t', t = y :: t' ∧ strchr delims y = false) :
    ∀ (pre : List Nat) (len fuel : Nat), len = (pre ++ (d ++ t)).length → d.length ≤ fuel →
      skip_delims (pre ++ (d ++ t)) len fuel pre.length = some (pre.length + d.length) := by
  induction d with
  | nil =>
    intro pre len fuel hlen _
    rcases ht with rfl | ⟨y, t', rfl, hy⟩
    · have hguard : ¬ (pre.length < len ∧
          strchr delims ((pre ++ ([] ++ [])).getD pre.length 0) = true) := by
        intro h; simp [hlen] at h
      cases fuel <;> rw [skip_delims, if_neg hguard] <;> rfl
    · have hg : (pre ++ ([] ++ y :: t')).getD pre.length 0 = y :=
        getD_append_head pre t' y
      have hguard : ¬ (pre.length < len ∧
          strchr delims ((pre ++ ([] ++ y :: t')).getD pre.length 0) = true) := by
        rw [hg, hy]; simp
      cases fuel <;> rw [skip_delims, if_neg hguard] <;> rfl
  | cons x d ih =>
    intro pre len fuel hlen hfuel
    obtain ⟨f, rfl⟩ : ∃ f, fuel = f + 1 := ⟨fuel - 1, by simp at hfuel; omega⟩
    have hx : strchr delims x = true := hd x (List.mem_cons_self _ _)
    have hg : (pre ++ (x :: d ++ t)).getD pre.length 0 = x :=
      getD_append_head pre (d ++ t) x
    have hlt : pre.length < len := by simp [hlen]
    have hi := ih (fun ch hch => hd ch (List.mem_cons_of_mem _ hch)) (pre ++ [x]) len f
      (by simp [hlen]) (by simp at hfuel; omega)
    rw [skip_delims, if_pos ⟨hlt, by rw [hg]; exact hx⟩]
    have e : pre ++ (x :: d ++ t) = pre ++ [x] ++ (d ++ t) := by simp
    rw [e]
    have hl : (pre ++ [x]).length = pre.length + 1 := by simp
    rw [hl] at hi
    rw [hi]
    simp
    omega

theorem digits_value_run (ds : List Nat) (hds : ∀ ch ∈ ds, isdigit ch = true) (after : List Nat)
    (hafter : after = [] ∨ ∃ y t', after = y :: t' ∧ isdigit y = false) :
    ∀ acc, digits_value (ds ++ after) acc = ds.foldl (fun a d => a * 10 + (d - 48)) acc := by
  induction ds with
  | nil =>
    intro acc
    rcases hafter with rfl | ⟨y, t', rfl, hy⟩
    · simp [digits_value]
    · simp [digits_value, hy]
  | cons a ds ih =>
    intro acc
    have ha : isdigit a = true := hds a (List.mem_cons_self _ _)
    simp only [List.cons_append, digits_value, ha, if_true, List.foldl_cons]
    exact ih (fun ch hch => hds ch (List.mem_cons_of_mem _ hch)) _

theorem digit_char (ch : Nat) (h : isdigit ch = true) :
    delims.contains ch = false ∧ strchr delims ch = false ∧ isspace ch = false ∧ ch ≠ 0 ∧
      ch ≠ 45 ∧ ch ≠ 43 := by
  simp only [isdigit, Bool.and_eq_true, decide_eq_true_eq] at h
  have h0 : ch ≠ 0 := by omega
  refine ⟨?_, ?_, ?_, h0, by omega, by omega⟩
  · simp [delims]; omega
  · simp [strchr, delims, h0]; omega
  · simp [isspace]; omega

theorem delim_char (ch : Nat) (h : delims.contains ch = true) :
    strchr delims ch = true ∧ isdigit ch = false ∧ ch ≠ 0 := by
  have hm : ch = 32 ∨ ch = 9 ∨ ch = 13 ∨ ch = 10 ∨ ch = 59 ∨ ch = 124 := by
    simpa [delims] using h
  refine ⟨by rw [strchr, h]; simp, ?_, by omega⟩
  rcases hm with rfl | rfl | rfl | rfl | rfl | rfl <;> decide

theorem field_ok_parts (f : IntField) (h : f.ok = true) :
    (f.sign = [] ∨ f.sign = [45] ∨ f.sign = [43]) ∧ f.digits ≠ [] ∧
      ∀ ch ∈ f.digits, isdigit ch = true := by
  simp only [IntField.ok, Bool.and_eq_true, Bool.or_eq_true, beq_iff_eq, Bool.not_eq_true',
    List.isEmpty_eq_false, List.all_eq_true] at h
  exact ⟨by tauto, h.1.2, h.2⟩

theorem field_text_chars (f : IntField) (h : f.ok = true) :
    ∀ ch ∈ f.text, delims.contains ch = false ∧ strchr delims ch = false ∧ ch ≠ 0 := by
  obtain ⟨hs, _, hd⟩ := field_ok_parts f h
  intro ch hch
  simp only [IntField.text, List.mem_append] at hch
  rcases hch with hch | hch
  · have : ch = 45 ∨ ch = 43 := by
      rcases hs with hs | hs | hs <;> rw [hs] at hch <;> simp at hch <;> simp [hch]
    rcases this with rfl | rfl <;> decide
  · have := digit_char ch (hd ch hch)
    exact ⟨this.1, this.2.1, this.2.2.2.1⟩

theorem field_text_head (f : IntField) (h : f.ok = true) :
    ∃ y t', f.text = y :: t' ∧ strchr delims y = false := by
  obtain ⟨_, hne, _⟩ := field_ok_parts f h
  have hne' : f.text ≠ [] := by simp [IntField.text, hne]
  match hft : f.text with
  | [] => exact absurd hft hne'
  | y :: t' =>
    exact ⟨y, t', rfl, (field_text_chars f h y (by rw [hft]; exact List.mem_cons_self _ _)).2.1⟩

theorem frame_ok_cons (f : IntField) (d : List Nat) (rest : List (IntField × List Nat))
    (h : frame_ok ((f, d) :: rest) = true) :
    f.ok = true ∧ (∀ ch ∈ d, delims.contains ch = true) ∧ (rest ≠ [] → d ≠ []) ∧
      frame_ok rest = true := by
  simp only [frame_ok, Bool.and_eq_true, Bool.or_eq_true, List.all_eq_true,
    List.isEmpty_iff, Bool.not_eq_true', List.isEmpty_eq_false] at h
  refine ⟨h.1.1.1, h.1.1.2, ?_, h.2⟩
  intro hr
  rcases h.1.2 with h1 | h1
  · exact absurd h1 hr
  · exact h1

theorem frame_text_head (fs : List (IntField × List Nat)) (hne : fs ≠ [])
    (h : frame_ok fs = true) :
    ∃ y t', frame_text fs = y :: t' ∧ strchr delims y = false := by
  match fs, hne, h with
  | [], hne, _ => exact absurd rfl hne
  | (f, d) :: rest, _, h =>
    obtain ⟨y, t', h1, h2⟩ := field_text_head f (frame_ok_cons f d rest h).1
    exact ⟨y, t' ++ d ++ frame_text rest, by simp [frame_text, h1], h2⟩

theorem frame_text_chars (fs : List (IntField × List Nat)) (h : frame_ok fs = true) :
    ∀ ch ∈ frame_text fs, ch ≠ 0 := by
  induction fs with
  | nil => intro ch hch; simp [frame_text] at hch
  | cons p rest ih =>
    obtain ⟨f, d⟩ := p
    obtain ⟨h1, h2, _, h4⟩ := frame_ok_cons f d rest h
    intro ch hch
    simp only [frame_text, List.mem_append] at hch
    rcases hch with (hch | hch) | hch
    · exact (field_text_chars f h1 ch hch).2.2
    · exact (delim_char ch (h2 ch hch)).2.2
    · exact ih h4 ch hch

theorem cast_seek_fields : ∀ (fs : List (IntField × List Nat)), frame_ok fs = true →
    ∀ (k : Nat), k < fs.length → ∀ (pre : List Nat) (len : Nat) (j pos : Int) (fuel : Nat),
      len = (pre ++ frame_text fs).length → pos = j + (k : Int) → k ≤ fuel →
      cast_seek (pre ++ frame_text fs) len pos fuel j pre.length =
        some (pre.length + (frame_text (fs.take k)).length) := by
  intro fs
  induction fs with
  | nil => intro _ k hk; simp at hk
  | cons p rest ih =>
    obtain ⟨f, d⟩ := p
    intro hok k hk pre len j pos fuel hlen hpos hfuel
    obtain ⟨hf, hd, hne, hrest⟩ := frame_ok_cons f d rest hok
    cases k with
    | zero =>
      have hguard : ¬ (j < pos ∧ pre.length < len) := by
        intro h; simp at hpos; omega
      cases fuel <;> rw [cast_seek, if_neg hguard] <;> simp [frame_text]
    | succ k =>
      have hk' : k < rest.length := by simpa using hk
      have hrne : rest ≠ [] := by intro h; simp [h] at hk'
      obtain ⟨x, d', rfl⟩ : ∃ x d', d = x :: d' := by
        cases d with
        | nil => exact absurd rfl (hne hrne)
        | cons x d' => exact ⟨x, d', rfl⟩
      obtain ⟨fl, rfl⟩ : ∃ fl, fuel = fl + 1 := ⟨fuel - 1, by omega⟩
      obtain ⟨y, t', hft, _⟩ := field_text_head f hf
      have hS : pre ++ frame_text ((f, x :: d') :: rest) =
          pre ++ (f.text ++ x :: (d' ++ frame_text rest)) := by
        simp [frame_text]
      have hS2 : pre ++ frame_text ((f, x :: d') :: rest) =
          (pre ++ f.text ++ [x]) ++ (d' ++ frame_text rest) := by
        simp [frame_text]
      have hS3 : pre ++ frame_text ((f, x :: d') :: rest) =
          (pre ++ f.text ++ (x :: d')) ++ frame_text rest := by
        simp [frame_text]
      have hguard : j < pos ∧ pre.length < len := by
        refine ⟨by push_cast at hpos; omega, ?_⟩
        rw [hlen, hS, hft]; simp
      have e1 : (pre ++ frame_text ((f, x :: d') :: rest)).drop pre.length =
          f.text ++ x :: (d' ++ frame_text rest) := by
        rw [hS]; simp
      have e2 : strpbrk delims (f.text ++ x :: (d' ++ frame_text rest)) pre.length =
          some (pre.length + f.text.length) :=
        strpbrk_field delims f.text _ x (fun ch hch => (field_text_chars f hf ch hch).1)
          (hd x (List.mem_cons_self _ _)) pre.length
      have e3 : skip_delims (pre ++ frame_text ((f, x :: d') :: rest)) len len
          (pre.length + f.text.length + 1) =
          some (pre.length + f.text.length + 1 + d'.length) := by
        have := skip_delims_run d'
          (fun ch hch => (delim_char ch (hd ch (List.mem_cons_of_mem _ hch))).1)
          (frame_text rest) (Or.inr (frame_text_head rest hrne hrest))
          (pre ++ f.text ++ [x]) len len (by rw [hlen, hS2])
          (by rw [hlen, hS2]; simp; omega)
        rw [hS2]
        simpa [Nat.add_assoc] using this
      have e4 := ih hrest k hk' (pre ++ f.text ++ (x :: d')) len (j + 1) pos fl
        (by rw [hlen, hS3]) (by push_cast at hpos ⊢; omega) (by omega)
      rw [cast_seek, if_pos hguard, e1, e2]
      simp only []
      rw [e3]
      simp only []
      rw [hS3]
      have hl : (pre ++ f.text ++ (x :: d')).length =
          pre.length + f.text.length + 1 + d'.length := by
        simp; omega
      rw [hl] at e4
      rw [e4]
      simp [frame_text]
      omega

theorem strlen_text (text tail : List Nat) (ht : ∀ ch ∈ text, ch ≠ 0)
    (htail : tail = [] ∨ tail.head? = some 0) : strlen (text ++ tail) = text.length := by
  induction text with
  | nil =>
    rcases htail with rfl | h
    · rfl
    · match tail, h with
      | y :: t', h =>
        simp only [List.head?_cons, Option.some.injEq] at h
        subst h
        simp [strlen]
  | cons a text ih =>
    have ha : a ≠ 0 := ht a (List.mem_cons_self _ _)
    have := ih (fun ch hch => ht ch (List.mem_cons_of_mem _ hch))
    unfold strlen at this ⊢
    simp [List.takeWhile_cons, ha, this]

theorem frame_text_split : ∀ (fs : List (IntField × List Nat)), frame_ok fs = true →
    ∀ (pos : Nat) (f : IntField) (d : List Nat), fs[pos]? = some (f, d) →
      f.ok = true ∧
      ∃ after, frame_text fs = frame_text (fs.take pos) ++ (f.text ++ after) ∧
        (after = [] ∨ ∃ y t', after = y :: t' ∧ isdigit y = false) := by
  intro fs
  induction fs with
  | nil => intro _ pos f d h; simp at h
  | cons p rest ih =>
    obtain ⟨f0, d0⟩ := p
    intro hok pos f d h
    obtain ⟨hf, hd, hne, hrest⟩ := frame_ok_cons f0 d0 rest hok
    cases pos with
    | zero =>
      simp only [List.getElem?_cons_zero, Option.some.injEq, Prod.mk.injEq] at h
      obtain ⟨rfl, rfl⟩ := h
      refine ⟨hf, d0 ++ frame_text rest, by simp [frame_text], ?_⟩
      cases d0 with
      | nil =>
        left
        have : rest = [] := by
          by_contra hr
          exact hne hr rfl
        simp [this, frame_text]
      | cons x d' =>
        right
        exact ⟨x, d' ++ frame_text rest, rfl,
          (delim_char x (hd x (List.mem_cons_self _ _))).2.1⟩
    | succ pos =>
      simp only [List.getElem?_cons_succ] at h
      obtain ⟨hfok, after, h1, h2⟩ := ih hrest pos f d h
      refine ⟨hfok, after, ?_, h2⟩
      simp only [List.take_succ_cons, frame_text]
      rw [h1]
      simp

theorem strtol_field (f : IntField) (hf : f.ok = true) (after : List Nat)
    (hafter : after = [] ∨ ∃ y t', after = y :: t' ∧ isdigit y = false) :
    strtol (f.text ++ after) = clamp_long f.value := by
  obtain ⟨hs, hne, hd⟩ := field_ok_parts f hf
  obtain ⟨d0, ds, hds⟩ : ∃ d0 ds, f.digits = d0 :: ds := by
    cases hdig : f.digits with
    | nil => exact absurd hdig hne
    | cons d0 ds => exact ⟨d0, ds, rfl⟩
  have hd0 := digit_char d0 (hd d0 (by rw [hds]; exact List.mem_cons_self _ _))
  have hval : digits_value (f.digits ++ after) 0 = decimal f.digits :=
    digits_value_run f.digits hd after hafter 0
  rcases hs with hs | hs | hs
  · have e : (f.text ++ after).dropWhile isspace = d0 :: (ds ++ after) := by
      simp [IntField.text, hs, hds, List.dropWhile_cons, hd0.2.2.1]
    have hval' : digits_value (d0 :: (ds ++ after)) 0 = decimal f.digits := by
      rw [← hval, hds]; rfl
    have hfv : f.value = ((decimal f.digits : Nat) : Int) := by
      simp [IntField.value, hs]
    unfold strtol
    rw [e]
    simp only [if_neg hd0.2.2.2.2.1, if_neg hd0.2.2.2.2.2, hval', ← hfv]
  · have e : (f.text ++ after).dropWhile isspace = 45 :: (f.digits ++ after) := by
      simp [IntField.text, hs, List.dropWhile_cons, isspace]
    have hfv : f.value = -((decimal f.digits : Nat) : Int) := by
      simp [IntField.value, hs]
    unfold strtol
    rw [e]
    simp only [if_true, hval, ← hfv]
  · have e : (f.text ++ after).dropWhile isspace = 43 :: (f.digits ++ after) := by
      simp [IntField.text, hs, List.dropWhile_cons, isspace]
    have hfv : f.value = ((decimal f.digits : Nat) : Int) := by
      simp [IntField.value, hs]
    unfold strtol
    rw [e]
    simp only [if_neg (by decide : ¬ (43 : Nat) = 45), if_true, hval, ← hfv]

theorem clamp_long_of_range (v : Int) (h1 : LONG_MIN ≤ v) (h2 : v ≤ LONG_MAX) :
    clamp_long v = v := by
  unfold clamp_long
  rw [if_neg (by omega), if_neg (by omega)]

theorem int_of_long_of_range (v : Int) (h1 : -2147483648 ≤ v) (h2 : v ≤ 2147483647) :
    int_of_long v = v := by
  unfold int_of_long
  split <;> omega

theorem ino_cast_body_field {α : Type} (zero : α) (parse : List Nat → α)
    (fs : List (IntField × List Nat)) (hok : frame_ok fs = true) (tail : List Nat)
    (htail : tail = [] ∨ tail.head? = some 0) (pos : Nat) (f : IntField) (d : List Nat)
    (hf : fs[pos]? = some (f, d)) :
    ∃ after, (after = [] ∨ ∃ y t', after = y :: t' ∧ isdigit y = false) ∧
      ino_cast_body zero parse (frame_text fs ++ tail) (pos : Int) =
        some (parse (f.text ++ after)) := by
  obtain ⟨hfok, after, hsplit, hafter⟩ := frame_text_split fs hok pos f d hf
  have hpos : pos < fs.length := by
    by_contra h
    rw [List.getElem?_eq_none (by omega)] at hf
    exact absurd hf (by simp)
  have hlen : strlen (frame_text fs ++ tail) = (frame_text fs).length :=
    strlen_text _ _ (frame_text_chars fs hok) htail
  have hseek := cast_seek_fields fs hok pos hpos [] (frame_text fs).length 0 (pos : Int) pos
    (by simp) (by simp) (le_refl _)
  simp only [List.nil_append, List.length_nil, Nat.zero_add] at hseek
  obtain ⟨y, t', hft, _⟩ := field_text_head f hfok
  have hlt : (frame_text (fs.take pos)).length < (frame_text fs).length := by
    rw [hsplit, hft]; simp
  have hdrop : (frame_text fs).drop (frame_text (fs.take pos)).length = f.text ++ after := by
    rw [hsplit]; simp
  refine ⟨after, hafter, ?_⟩
  simp only [ino_cast_body, hlen, List.take_left', Int.toNat_ofNat, hseek, hlt, if_true, hdrop]

/-- C22 (as stated, refuted): the frame `"12 ;| -34\t5000000000\r\n"` is made
of decimal integer fields separated by runs of delimiters, and its field at
`pos = 2` has the value 5000000000; `ino_cast_int` returns 705032704, which
is 5000000000 - 2^32.  The frame `"9223372036854775808"` has one field, of
value 2^63; `ino_cast_long` returns 2^63 - 1 at `pos = 0`. -/
theorem C22_cast_wide_field_counterexample :
    frame_ok example_frame = true ∧
    example_frame[2]?.map (fun p => p.1.value) = some 5000000000 ∧
    ino_cast_int (frame_text example_frame ++ [0]) 2 = some 705032704 ∧
    ino_cast_int (frame_text example_frame ++ [0]) 2 ≠ some 5000000000 ∧
    frame_ok example_wide_frame = true ∧
    example_wide_frame[0]?.map (fun p => p.1.value) = some 9223372036854775808 ∧
    ino_cast_long (frame_text example_wide_frame ++ [0]) 0 = some 9223372036854775807 ∧
    ino_cast_long (frame_text example_wide_frame ++ [0]) 0 ≠ some 9223372036854775808 := by
  decide

/-- C22 (amended): for every frame made of decimal integer fields (an
optional sign and at least one digit) separated by runs of one or more
characters of `" \t\r\n;|"`, the last field being followed by any run of
them or by nothing, and every `pos` smaller than the number of fields
(`pos = 0` is the first field), `ino_cast_long` returns the value of field
`pos` whenever that value lies in the range of `long` (64 bits) and
`ino_cast_int` returns it whenever it lies in the range of `int` (32 bits).
For every field, `ino_cast_long` returns the value brought into the range of
`long` as `strtol` does, and `ino_cast_int` that number converted to `int`. -/
theorem C22_cast_returns_field (fs : List (IntField × List Nat)) (hok : frame_ok fs = true)
    (tail : List Nat) (htail : tail = [] ∨ tail.head? = some 0) (pos : Nat) (f : IntField)
    (d : List Nat) (hf : fs[pos]? = some (f, d)) :
    ino_cast_long (frame_text fs ++ tail) (pos : Int) = some (clamp_long f.value) ∧
    ino_cast_int (frame_text fs ++ tail) (pos : Int) =
      some (int_of_long (clamp_long f.value)) ∧
    (LONG_MIN ≤ f.value → f.value ≤ LONG_MAX →
      ino_cast_long (frame_text fs ++ tail) (pos : Int) = some f.value) ∧
    (-2147483648 ≤ f.value → f.value ≤ 2147483647 →
      ino_cast_int (frame_text fs ++ tail) (pos : Int) = some f.value) := by
  have hfok := (frame_text_split fs hok pos f d hf).1
  have hlong : ino_cast_long (frame_text fs ++ tail) (pos : Int) =
      some (clamp_long f.value) := by
    obtain ⟨after, hafter, h⟩ := ino_cast_body_field (0 : Int) strtol fs hok tail htail pos f d
      hf
    rw [ino_cast_long, h, strtol_field f hfok after hafter]
  have hint : ino_cast_int (frame_text fs ++ tail) (pos : Int) =
      some (int_of_long (clamp_long f.value)) := by
    obtain ⟨after, hafter, h⟩ := ino_cast_body_field (0 : Int)
      (fun t => int_of_long (strtol t)) fs hok tail htail pos f d hf
    rw [ino_cast_int, h, strtol_field f hfok after hafter]
  refine ⟨hlong, hint, ?_, ?_⟩
  · intro h1 h2
    rw [hlong, clamp_long_of_range _ h1 h2]
  · intro h1 h2
    rw [hint, clamp_long_of_range _ (by unfold LONG_MIN; omega) (by unfold LONG_MAX; omega),
      int_of_long_of_range _ h1 h2]

/-- Instance of C22: the second field of `"12 ;| -34\t5000000000\r\n"`
followed by the terminator and stale bytes. -/
theorem C22_cast_returns_field_witness :
    ino_cast_long (frame_text example_frame ++ [0, 55, 55]) ((1 : Nat) : Int) =
      some (⟨[45], [51, 52]⟩ : IntField).value ∧
    ino_cast_int (frame_text example_frame ++ [0, 55, 55]) ((1 : Nat) : Int) =
      some (⟨[45], [51, 52]⟩ : IntField).value :=
  ⟨(C22_cast_returns_field example_frame (by decide) [0, 55, 55] (Or.inr rfl) 1
      ⟨[45], [51, 52]⟩ [9] rfl).2.2.1 (by decide) (by decide),
   (C22_cast_returns_field example_frame (by decide) [0, 55, 55] (Or.inr rfl) 1
      ⟨[45], [51, 52]⟩ [9] rfl).2.2.2 (by decide) (by decide)⟩

end Libuino
